import Mathlib

/-!
Verification of the typeorm-d1 driver package.

The TypeScript sources are shallowly embedded over `List Char`:
JavaScript strings become `List Char`, JS regular-expression operations
become explicit backtracking functions on `List Char`, and fallible code
returns `Option`/`Except`.  Case mapping (`toUpperCase`/`toLowerCase`) is
modelled on the ASCII range (the simple mapping), which is what every
string manipulated by this package uses.
-/

namespace D1

/-- JS whitespace characters (the ASCII subset relevant to `\s`, `trim`). -/
def isWsChar (c : Char) : Bool :=
  c = ' ' || c = '\t' || c = '\n' || c = '\r' || c = '\x0b' || c = '\x0c'

/-- Regex word character `\w`: `[A-Za-z0-9_]`. -/
def isWordChar (c : Char) : Bool :=
  ('a' ≤ c && c ≤ 'z') || ('A' ≤ c && c ≤ 'Z') || ('0' ≤ c && c ≤ '9') || c = '_'

/-- ASCII uppercase mapping (model of JS `toUpperCase` on the strings in play). -/
def upChar (c : Char) : Char :=
  if c = 'a' then 'A' else if c = 'b' then 'B' else if c = 'c' then 'C'
  else if c = 'd' then 'D' else if c = 'e' then 'E' else if c = 'f' then 'F'
  else if c = 'g' then 'G' else if c = 'h' then 'H' else if c = 'i' then 'I'
  else if c = 'j' then 'J' else if c = 'k' then 'K' else if c = 'l' then 'L'
  else if c = 'm' then 'M' else if c = 'n' then 'N' else if c = 'o' then 'O'
  else if c = 'p' then 'P' else if c = 'q' then 'Q' else if c = 'r' then 'R'
  else if c = 's' then 'S' else if c = 't' then 'T' else if c = 'u' then 'U'
  else if c = 'v' then 'V' else if c = 'w' then 'W' else if c = 'x' then 'X'
  else if c = 'y' then 'Y' else if c = 'z' then 'Z' else c

/-- ASCII lowercase mapping (model of JS `toLowerCase`). -/
def lowChar (c : Char) : Char :=
  if c = 'A' then 'a' else if c = 'B' then 'b' else if c = 'C' then 'c'
  else if c = 'D' then 'd' else if c = 'E' then 'e' else if c = 'F' then 'f'
  else if c = 'G' then 'g' else if c = 'H' then 'h' else if c = 'I' then 'i'
  else if c = 'J' then 'j' else if c = 'K' then 'k' else if c = 'L' then 'l'
  else if c = 'M' then 'm' else if c = 'N' then 'n' else if c = 'O' then 'o'
  else if c = 'P' then 'p' else if c = 'Q' then 'q' else if c = 'R' then 'r'
  else if c = 'S' then 's' else if c = 'T' then 't' else if c = 'U' then 'u'
  else if c = 'V' then 'v' else if c = 'W' then 'w' else if c = 'X' then 'x'
  else if c = 'Y' then 'y' else if c = 'Z' then 'z' else c

/-- Strip trailing whitespace. -/
def trimRight (l : List Char) : List Char :=
  (l.reverse.dropWhile isWsChar).reverse

/-- Model of JS `String.prototype.trim` (strip whitespace at both ends). -/
def jsTrim (l : List Char) : List Char :=
  trimRight (l.dropWhile isWsChar)

/-- `isPrefixL pat l`: JS `l.startsWith(pat)` on char lists. -/
def isPrefixL : List Char → List Char → Bool
  | [], _ => true
  | _ :: _, [] => false
  | p :: ps, c :: cs => p = c && isPrefixL ps cs

/-- `containsL hay pat`: JS `hay.includes(pat)` on char lists. -/
def containsL : List Char → List Char → Bool
  | [], pat => isPrefixL pat []
  | c :: rest, pat => isPrefixL pat (c :: rest) || containsL rest pat

/-- Match `pat` (given in uppercase) case-insensitively at the head of `l`,
returning the remainder on success. -/
def matchCI : List Char → List Char → Option (List Char)
  | [], l => some l
  | _ :: _, [] => none
  | p :: ps, c :: cs => if upChar c = p then matchCI ps cs else none

end D1

namespace D1

/-! ### QueryNormalizer (src/utils/query-normalizer.ts) -/

namespace QueryNormalizer

/-- Model of the anchored regex match `/^DROP INDEX\s+/i` on `q`: on success
returns the text after the matched prefix (the `\s+` is greedy, so the whole
leading whitespace run is part of the match). -/
def dropIndexAnchor (q : List Char) : Option (List Char) :=
  match matchCI ("DROP INDEX".data) q with
  | some (c :: rest) => if isWsChar c then some (rest.dropWhile isWsChar) else none
  | _ => none

/-- `query.replace(/^DROP INDEX\s+/i, "DROP INDEX IF EXISTS ")`. -/
def replaceDropIndex (q : List Char) : List Char :=
  match dropIndexAnchor q with
  | some rest => ("DROP INDEX IF EXISTS ".data) ++ rest
  | none => q

/-- `QueryNormalizer.normalizeQuery`. -/
def normalizeQuery (query : List Char) : List Char :=
  if isPrefixL ("DROP INDEX".data) ((jsTrim query).map upChar) then
    if ¬ (containsL (query.map upChar) ("IF EXISTS".data) = true) then
      replaceDropIndex query
    else query
  else query

end QueryNormalizer

/-! ### Generic lemmas about the char-list utilities -/

theorem isPrefixL_iff (pat l : List Char) :
    isPrefixL pat l = true ↔ ∃ r, l = pat ++ r := by
  induction pat generalizing l with
  | nil => simp [isPrefixL]
  | cons p ps ih =>
    cases l with
    | nil => simp [isPrefixL]
    | cons c cs =>
      simp only [isPrefixL, Bool.and_eq_true, decide_eq_true_eq, ih, List.cons_append,
        List.cons.injEq]
      constructor
      · rintro ⟨rfl, r, rfl⟩; exact ⟨r, rfl, rfl⟩
      · rintro ⟨r, rfl, rfl⟩; exact ⟨rfl, r, rfl⟩

theorem containsL_iff (hay pat : List Char) :
    containsL hay pat = true ↔ ∃ x y, hay = x ++ pat ++ y := by
  induction hay with
  | nil =>
    simp only [containsL, isPrefixL_iff]
    constructor
    · rintro ⟨r, hr⟩
      exact ⟨[], r, by simpa using hr⟩
    · rintro ⟨x, y, hxy⟩
      have hx : x = [] := by
        cases x with
        | nil => rfl
        | cons a as => simp at hxy
      subst hx
      exact ⟨y, by simpa using hxy⟩
  | cons c rest ih =>
    simp only [containsL, Bool.or_eq_true, isPrefixL_iff, ih]
    constructor
    · rintro (⟨r, hr⟩ | ⟨x, y, hxy⟩)
      · exact ⟨[], r, by simpa using hr⟩
      · exact ⟨c :: x, y, by simp [hxy]⟩
    · rintro ⟨x, y, hxy⟩
      cases x with
      | nil => exact Or.inl ⟨y, by simpa using hxy⟩
      | cons a as =>
        simp only [List.cons_append, List.cons.injEq] at hxy
        exact Or.inr ⟨as, y, hxy.2⟩

theorem containsL_of_parts (x pat y : List Char) :
    containsL (x ++ pat ++ y) pat = true :=
  (containsL_iff _ _).mpr ⟨x, y, rfl⟩

theorem matchCI_iff (pat l r : List Char) :
    matchCI pat l = some r ↔ ∃ m, l = m ++ r ∧ m.map upChar = pat := by
  induction pat generalizing l with
  | nil =>
    simp only [matchCI, Option.some.injEq]
    constructor
    · rintro rfl; exact ⟨[], rfl, rfl⟩
    · rintro ⟨m, rfl, hm⟩
      have : m = [] := by
        cases m with
        | nil => rfl
        | cons a as => simp at hm
      simp [this]
  | cons p ps ih =>
    cases l with
    | nil =>
      constructor
      · intro h; simp [matchCI] at h
      · rintro ⟨m, hm, hmap⟩
        cases m with
        | nil => simp at hmap
        | cons a as => simp at hm
    | cons c cs =>
      constructor
      · intro h
        simp only [matchCI] at h
        by_cases hc : upChar c = p
        · rw [if_pos hc] at h
          obtain ⟨m, hmm, hm⟩ := (ih cs).mp h
          exact ⟨c :: m, by simp [hmm], by simp [hm, hc]⟩
        · rw [if_neg hc] at h; exact absurd h (by simp)
      · rintro ⟨m, hm, hmap⟩
        cases m with
        | nil => simp at hmap
        | cons a as =>
          simp only [List.map_cons, List.cons.injEq] at hmap
          obtain ⟨ha, has⟩ := hmap
          simp only [List.cons_append, List.cons.injEq] at hm
          obtain ⟨rfl, hcs⟩ := hm
          simp only [matchCI, if_pos ha]
          exact (ih cs).mpr ⟨as, hcs, has⟩

end D1

namespace D1

theorem upChar_of_ws {c : Char} (h : isWsChar c = true) : upChar c = c := by
  simp only [isWsChar, Bool.or_eq_true, decide_eq_true_eq] at h
  rcases h with ((((h | h) | h) | h) | h) | h <;> subst h <;> decide

theorem not_ws_of_upChar {c d : Char} (hup : upChar c = d) (hd : isWsChar d = false) :
    isWsChar c = false := by
  by_contra hc
  simp only [Bool.not_eq_false] at hc
  rw [upChar_of_ws hc] at hup
  rw [hup] at hc
  rw [hc] at hd
  exact absurd hd (by simp)

theorem trimRight_append (a b : List Char) :
    trimRight (a ++ b) = if trimRight b = [] then trimRight a else a ++ trimRight b := by
  simp only [trimRight, List.reverse_append, List.dropWhile_append]
  by_cases hb : (b.reverse.dropWhile isWsChar).isEmpty = true
  · rw [if_pos hb]
    have : b.reverse.dropWhile isWsChar = [] := by
      simpa [List.isEmpty_iff] using hb
    rw [if_pos (by simp [this])]
  · rw [if_neg hb]
    have : ¬ (b.reverse.dropWhile isWsChar).reverse = [] := by
      simp only [List.isEmpty_iff] at hb
      simpa using hb
    rw [if_neg this, List.reverse_append, List.reverse_reverse]

theorem trimRight_eq_self {l : List Char} (h : ∀ c, l.getLast? = some c → isWsChar c = false) :
    trimRight l = l := by
  cases hl : l.reverse with
  | nil => simp [trimRight, hl, List.reverse_eq_nil_iff.mp hl]
  | cons c t =>
    have hc : l.getLast? = some c := by
      rw [← List.head?_reverse, hl]; rfl
    have := h c hc
    simp only [trimRight, hl, List.dropWhile_cons, this]
    simp only [Bool.false_eq_true, if_false]
    rw [← hl, List.reverse_reverse]

theorem dropWhile_eq_self_of_head {l : List Char} {p : Char → Bool}
    (h : ∀ c, l.head? = some c → p c = false) : l.dropWhile p = l := by
  cases l with
  | nil => rfl
  | cons c t =>
    have := h c rfl
    simp [List.dropWhile_cons, this]

namespace QueryNormalizer

/-- If the anchored `/^DROP INDEX\s+/i` matches, then `query.trim().toUpperCase()`
starts with `DROP INDEX` (so the source takes the rewrite branch). -/
theorem startsWith_of_anchor {q r : List Char} (h : dropIndexAnchor q = some r) :
    isPrefixL ("DROP INDEX".data) ((jsTrim q).map upChar) = true := by
  unfold dropIndexAnchor at h
  cases hm : matchCI ("DROP INDEX".data) q with
  | none => rw [hm] at h; exact absurd h (by simp)
  | some l =>
    rw [hm] at h
    cases l with
    | nil => exact absurd h (by simp)
    | cons c rest =>
      obtain ⟨m, hq, hmap⟩ := (matchCI_iff _ _ _).mp hm
      -- the head of m maps to 'D', hence is not whitespace
      obtain ⟨d, m', rfl⟩ : ∃ d m', m = d :: m' := by
        cases m with
        | nil => simp at hmap
        | cons d m' => exact ⟨d, m', rfl⟩
      have hd : upChar d = 'D' := by
        simpa using congrArg List.head? hmap
      have hdws : isWsChar d = false := not_ws_of_upChar hd (by decide)
      -- the last of m maps to 'X', hence is not whitespace
      have hlast : ∀ e, (d :: m').getLast? = some e → isWsChar e = false := by
        intro e he
        have hrev : ((d :: m').reverse).head? = some e := by
          rw [List.head?_reverse]; exact he
        have hmaprev : (d :: m').reverse.map upChar = ("DROP INDEX".data).reverse := by
          rw [List.map_reverse, hmap]
        obtain ⟨e', t, ht⟩ : ∃ e' t, (d :: m').reverse = e' :: t := by
          cases hrt : (d :: m').reverse with
          | nil => exact absurd hrt (by simp)
          | cons e' t => exact ⟨e', t, rfl⟩
        rw [ht] at hrev hmaprev
        have hee : e' = e := by simpa using hrev
        have he2 : upChar e = 'X' := by
          rw [← hee]; simpa using congrArg List.head? hmaprev
        exact not_ws_of_upChar he2 (by decide)
      subst hq
      -- trim: no leading whitespace, and the trailing trim keeps the matched prefix
      unfold jsTrim
      rw [dropWhile_eq_self_of_head (l := d :: m' ++ c :: rest)
        (by intro x hx; simp only [List.cons_append, List.head?_cons, Option.some.injEq] at hx
            rw [← hx]; exact hdws)]
      rw [trimRight_append]
      by_cases hrt : trimRight (c :: rest) = []
      · rw [if_pos hrt, trimRight_eq_self hlast, hmap]
        exact (isPrefixL_iff _ _).mpr ⟨[], by simp⟩
      · rw [if_neg hrt, List.map_append, hmap]
        exact (isPrefixL_iff _ _).mpr ⟨_, rfl⟩

theorem upmap_dropIndexIfExists :
    ("DROP INDEX IF EXISTS ".data).map upChar = "DROP INDEX IF EXISTS ".data := by
  decide

theorem contains_ifExists_of_rewrite (r : List Char) :
    containsL (("DROP INDEX IF EXISTS ".data ++ r).map upChar) ("IF EXISTS".data) = true := by
  rw [List.map_append, upmap_dropIndexIfExists]
  have hsplit : ("DROP INDEX IF EXISTS ".data) =
      ("DROP INDEX ".data) ++ ("IF EXISTS".data) ++ (" ".data) := by decide
  rw [hsplit]
  simpa [List.append_assoc] using
    containsL_of_parts ("DROP INDEX ".data) ("IF EXISTS".data)
      (" ".data ++ List.map upChar r)

theorem normalizeQuery_of_contains {q : List Char}
    (h : containsL (q.map upChar) ("IF EXISTS".data) = true) :
    normalizeQuery q = q := by
  unfold normalizeQuery
  rw [h]
  simp

end QueryNormalizer

end D1

namespace D1

namespace QueryNormalizer

theorem normalizeQuery_rewrite {q r : List Char} (h : dropIndexAnchor q = some r)
    (hc : containsL (q.map upChar) ("IF EXISTS".data) = false) :
    normalizeQuery q = ("DROP INDEX IF EXISTS ".data) ++ r := by
  simp [normalizeQuery, startsWith_of_anchor h, hc, replaceDropIndex, h]

theorem normalizeQuery_of_anchor_none {q : List Char} (h : dropIndexAnchor q = none) :
    normalizeQuery q = q := by
  by_cases hA : isPrefixL ("DROP INDEX".data) ((jsTrim q).map upChar) = true
  · by_cases hB : containsL (q.map upChar) ("IF EXISTS".data) = true
    · simp [normalizeQuery, hA, hB]
    · simp [normalizeQuery, hA, hB, replaceDropIndex, h]
  · simp [normalizeQuery, hA]

end QueryNormalizer

/-- C3 (counterexample): the exact query `DROP INDEX` begins with `DROP INDEX`
(case-insensitively) and does not contain `IF EXISTS`, yet `normalizeQuery`
returns it unchanged — no `IF EXISTS` is inserted, contradicting the claim. -/
theorem claim3_counterexample :
    isPrefixL ("DROP INDEX".data) (("DROP INDEX".data).map upChar) = true ∧
    containsL (("DROP INDEX".data).map upChar) ("IF EXISTS".data) = false ∧
    QueryNormalizer.normalizeQuery ("DROP INDEX".data) = "DROP INDEX".data := by
  decide

/-- C3 (amended): `normalizeQuery` inserts `IF EXISTS` exactly when the query
matches the anchored pattern `DROP INDEX` followed by at least one whitespace
character at position 0 (case-insensitively) and does not already contain
`IF EXISTS` (case-insensitively); the matched prefix is replaced by the literal
text `DROP INDEX IF EXISTS `.  Every other query — in particular one already
containing `IF EXISTS`, or one whose `DROP INDEX` is not followed by
whitespace — is returned unchanged, and `normalizeQuery` is idempotent. -/
theorem claim3_normalizeQuery (q : List Char) :
    (∀ r, QueryNormalizer.dropIndexAnchor q = some r →
        containsL (q.map upChar) ("IF EXISTS".data) = false →
        QueryNormalizer.normalizeQuery q = ("DROP INDEX IF EXISTS ".data) ++ r) ∧
    (QueryNormalizer.dropIndexAnchor q = none → QueryNormalizer.normalizeQuery q = q) ∧
    (containsL (q.map upChar) ("IF EXISTS".data) = true →
        QueryNormalizer.normalizeQuery q = q) ∧
    QueryNormalizer.normalizeQuery (QueryNormalizer.normalizeQuery q) =
      QueryNormalizer.normalizeQuery q := by
  refine ⟨fun r h hc => QueryNormalizer.normalizeQuery_rewrite h hc,
    fun h => QueryNormalizer.normalizeQuery_of_anchor_none h,
    fun h => QueryNormalizer.normalizeQuery_of_contains h, ?_⟩
  by_cases hB : containsL (q.map upChar) ("IF EXISTS".data) = true
  · rw [QueryNormalizer.normalizeQuery_of_contains hB]
    exact QueryNormalizer.normalizeQuery_of_contains hB
  · cases ha : QueryNormalizer.dropIndexAnchor q with
    | none =>
      rw [QueryNormalizer.normalizeQuery_of_anchor_none ha]
      exact QueryNormalizer.normalizeQuery_of_anchor_none ha
    | some r =>
      rw [QueryNormalizer.normalizeQuery_rewrite ha (by simpa using hB)]
      exact QueryNormalizer.normalizeQuery_of_contains
        (QueryNormalizer.contains_ifExists_of_rewrite r)

/-- Witness for C3's amended theorem at the concrete query `DROP INDEX foo`. -/
theorem claim3_witness :
    QueryNormalizer.normalizeQuery ("DROP INDEX foo".data) =
      ("DROP INDEX IF EXISTS ".data) ++ ("foo".data) :=
  (claim3_normalizeQuery ("DROP INDEX foo".data)).1 ("foo".data) (by decide) (by decide)

end D1

namespace D1

/-! ### D1ErrorHandler (src/utils/error-handler.ts) -/

/-- The closed set of error codes (src/types). -/
inductive D1ErrorCode where
  | D1_ERROR
  | SQLITE_CONSTRAINT_UNIQUE
  | SQLITE_CONSTRAINT_NOTNULL
  | SQLITE_CONSTRAINT_FOREIGNKEY
  | SQLITE_ERROR
deriving DecidableEq

namespace D1ErrorHandler

/-- `D1ErrorHandler.mapErrorCode`. -/
def mapErrorCode (errorMessage : List Char) (defaultCode : D1ErrorCode) : D1ErrorCode :=
  let lowerMessage := errorMessage.map lowChar
  if containsL lowerMessage ("unique constraint".data) ||
      containsL lowerMessage ("unique".data) then
    .SQLITE_CONSTRAINT_UNIQUE
  else if containsL lowerMessage ("not null constraint".data) ||
      containsL lowerMessage ("not null".data) then
    .SQLITE_CONSTRAINT_NOTNULL
  else if containsL lowerMessage ("foreign key constraint".data) ||
      containsL lowerMessage ("foreign key".data) then
    .SQLITE_CONSTRAINT_FOREIGNKEY
  else if containsL lowerMessage ("no such table".data) ||
      containsL lowerMessage ("already exists".data) ||
      containsL lowerMessage ("duplicate".data) then
    .SQLITE_ERROR
  else defaultCode

/-- A thrown JS error value, as far as `extractErrorMessage` / `wrapD1Exception`
inspect it: an optional `cause.message`, an optional `message`, an optional
`code` field, and the `String(error)` fallback text. -/
structure ThrownError where
  causeMessage : Option (List Char)
  message : Option (List Char)
  code : Option (List Char)
  strRepr : List Char

/-- `D1ErrorHandler.extractErrorMessage`: prefer `cause.message`, then
`message`, then `String(error)` (the Error-instance and plain-object branches
of the source both follow this order). -/
def extractErrorMessage (e : ThrownError) : List Char :=
  match e.causeMessage with
  | some m => m
  | none =>
    match e.message with
    | some m => m
    | none => e.strRepr

/-- Decode the string in a thrown error's `code` field into a known error
code (the `includes` check over the five known code names in
`wrapD1Exception`). -/
def decodeCode (c : List Char) : Option D1ErrorCode :=
  if c = "D1_ERROR".data then some .D1_ERROR
  else if c = "SQLITE_CONSTRAINT_UNIQUE".data then some .SQLITE_CONSTRAINT_UNIQUE
  else if c = "SQLITE_CONSTRAINT_NOTNULL".data then some .SQLITE_CONSTRAINT_NOTNULL
  else if c = "SQLITE_CONSTRAINT_FOREIGNKEY".data then some .SQLITE_CONSTRAINT_FOREIGNKEY
  else if c = "SQLITE_ERROR".data then some .SQLITE_ERROR
  else none

/-- The error code carried by the `D1QueryError` that
`D1ErrorHandler.wrapD1Exception` constructs: the embedded `code` field, when
it names a known code, only becomes the *default* passed to `mapErrorCode`. -/
def wrapD1ExceptionCode (e : ThrownError) : D1ErrorCode :=
  let errorMessage := extractErrorMessage e
  let errorCode : D1ErrorCode :=
    match e.code with
    | some c => (decodeCode c).getD .D1_ERROR
    | none => .D1_ERROR
  mapErrorCode errorMessage errorCode

end D1ErrorHandler

theorem containsL_mono {l p s : List Char} (h : containsL l (p ++ s) = true) :
    containsL l p = true := by
  obtain ⟨x, y, hxy⟩ := (containsL_iff _ _).mp h
  exact (containsL_iff _ _).mpr ⟨x, s ++ y, by simp [hxy]⟩

theorem hasU_of_hasUC {L : List Char}
    (h : containsL L ("unique constraint".data) = true) :
    containsL L ("unique".data) = true :=
  containsL_mono (p := "unique".data) (s := " constraint".data)
    (by rw [show ("unique".data ++ " constraint".data) = "unique constraint".data by decide]
        exact h)

theorem hasNN_of_hasNNC {L : List Char}
    (h : containsL L ("not null constraint".data) = true) :
    containsL L ("not null".data) = true :=
  containsL_mono (p := "not null".data) (s := " constraint".data)
    (by rw [show ("not null".data ++ " constraint".data) = "not null constraint".data by decide]
        exact h)

theorem hasFK_of_hasFKC {L : List Char}
    (h : containsL L ("foreign key constraint".data) = true) :
    containsL L ("foreign key".data) = true :=
  containsL_mono (p := "foreign key".data) (s := " constraint".data)
    (by rw [show ("foreign key".data ++ " constraint".data) =
              "foreign key constraint".data by decide]
        exact h)

/-- C7: `mapErrorCode` classifies by substring search over the lowercased
message, with the patterns tested in this fixed priority order: `unique`,
then `not null`, then `foreign key`, then (`no such table` or `already
exists` or `duplicate`), and otherwise returns the caller-supplied default. -/
theorem claim7_mapErrorCode (msg : List Char) (d : D1ErrorCode) :
    (containsL (msg.map lowChar) ("unique".data) = true →
      D1ErrorHandler.mapErrorCode msg d = .SQLITE_CONSTRAINT_UNIQUE) ∧
    (containsL (msg.map lowChar) ("unique".data) = false →
      containsL (msg.map lowChar) ("not null".data) = true →
      D1ErrorHandler.mapErrorCode msg d = .SQLITE_CONSTRAINT_NOTNULL) ∧
    (containsL (msg.map lowChar) ("unique".data) = false →
      containsL (msg.map lowChar) ("not null".data) = false →
      containsL (msg.map lowChar) ("foreign key".data) = true →
      D1ErrorHandler.mapErrorCode msg d = .SQLITE_CONSTRAINT_FOREIGNKEY) ∧
    (containsL (msg.map lowChar) ("unique".data) = false →
      containsL (msg.map lowChar) ("not null".data) = false →
      containsL (msg.map lowChar) ("foreign key".data) = false →
      (containsL (msg.map lowChar) ("no such table".data) = true ∨
       containsL (msg.map lowChar) ("already exists".data) = true ∨
       containsL (msg.map lowChar) ("duplicate".data) = true) →
      D1ErrorHandler.mapErrorCode msg d = .SQLITE_ERROR) ∧
    (containsL (msg.map lowChar) ("unique".data) = false →
      containsL (msg.map lowChar) ("not null".data) = false →
      containsL (msg.map lowChar) ("foreign key".data) = false →
      containsL (msg.map lowChar) ("no such table".data) = false →
      containsL (msg.map lowChar) ("already exists".data) = false →
      containsL (msg.map lowChar) ("duplicate".data) = false →
      D1ErrorHandler.mapErrorCode msg d = d) := by
  refine ⟨?_, ?_, ?_, ?_, ?_⟩
  · intro hu
    simp [D1ErrorHandler.mapErrorCode, hu]
  · intro hu hnn
    have huc : containsL (msg.map lowChar) ("unique constraint".data) = false := by
      cases h : containsL (msg.map lowChar) ("unique constraint".data) with
      | false => rfl
      | true => rw [hasU_of_hasUC h] at hu; exact absurd hu (by simp)
    simp [D1ErrorHandler.mapErrorCode, hu, huc, hnn]
  · intro hu hnn hfk
    have huc : containsL (msg.map lowChar) ("unique constraint".data) = false := by
      cases h : containsL (msg.map lowChar) ("unique constraint".data) with
      | false => rfl
      | true => rw [hasU_of_hasUC h] at hu; exact absurd hu (by simp)
    have hnnc : containsL (msg.map lowChar) ("not null constraint".data) = false := by
      cases h : containsL (msg.map lowChar) ("not null constraint".data) with
      | false => rfl
      | true => rw [hasNN_of_hasNNC h] at hnn; exact absurd hnn (by simp)
    simp [D1ErrorHandler.mapErrorCode, hu, huc, hnn, hnnc, hfk]
  · intro hu hnn hfk hrest
    have huc : containsL (msg.map lowChar) ("unique constraint".data) = false := by
      cases h : containsL (msg.map lowChar) ("unique constraint".data) with
      | false => rfl
      | true => rw [hasU_of_hasUC h] at hu; exact absurd hu (by simp)
    have hnnc : containsL (msg.map lowChar) ("not null constraint".data) = false := by
      cases h : containsL (msg.map lowChar) ("not null constraint".data) with
      | false => rfl
      | true => rw [hasNN_of_hasNNC h] at hnn; exact absurd hnn (by simp)
    have hfkc : containsL (msg.map lowChar) ("foreign key constraint".data) = false := by
      cases h : containsL (msg.map lowChar) ("foreign key constraint".data) with
      | false => rfl
      | true => rw [hasFK_of_hasFKC h] at hfk; exact absurd hfk (by simp)
    rcases hrest with h | h | h <;>
      simp [D1ErrorHandler.mapErrorCode, hu, huc, hnn, hnnc, hfk, hfkc, h]
  · intro hu hnn hfk hnst hae hdup
    have huc : containsL (msg.map lowChar) ("unique constraint".data) = false := by
      cases h : containsL (msg.map lowChar) ("unique constraint".data) with
      | false => rfl
      | true => rw [hasU_of_hasUC h] at hu; exact absurd hu (by simp)
    have hnnc : containsL (msg.map lowChar) ("not null constraint".data) = false := by
      cases h : containsL (msg.map lowChar) ("not null constraint".data) with
      | false => rfl
      | true => rw [hasNN_of_hasNNC h] at hnn; exact absurd hnn (by simp)
    have hfkc : containsL (msg.map lowChar) ("foreign key constraint".data) = false := by
      cases h : containsL (msg.map lowChar) ("foreign key constraint".data) with
      | false => rfl
      | true => rw [hasFK_of_hasFKC h] at hfk; exact absurd hfk (by simp)
    simp [D1ErrorHandler.mapErrorCode, hu, huc, hnn, hnnc, hfk, hfkc, hnst, hae, hdup]

/-- Witness for C7 at the message `UNIQUE constraint failed: users.email`. -/
theorem claim7_witness :
    D1ErrorHandler.mapErrorCode ("UNIQUE constraint failed: users.email".data)
      .D1_ERROR = .SQLITE_CONSTRAINT_UNIQUE :=
  (claim7_mapErrorCode ("UNIQUE constraint failed: users.email".data) .D1_ERROR).1
    (by decide)

end D1

namespace D1

/-- C8 (counterexample): a thrown error carrying the known embedded code
`SQLITE_ERROR` together with a message mentioning a unique constraint is
wrapped with the message-derived code `SQLITE_CONSTRAINT_UNIQUE`, not with
its embedded code. -/
theorem claim8_counterexample :
    D1ErrorHandler.decodeCode ("SQLITE_ERROR".data) = some .SQLITE_ERROR ∧
    D1ErrorHandler.wrapD1ExceptionCode
      ⟨none, some ("UNIQUE constraint failed: users.email".data),
        some ("SQLITE_ERROR".data), []⟩ = .SQLITE_CONSTRAINT_UNIQUE ∧
    D1ErrorCode.SQLITE_CONSTRAINT_UNIQUE ≠ D1ErrorCode.SQLITE_ERROR := by
  decide

/-- C8 (amended): a known embedded `code` field is only used as the *default*
for message classification: `wrapD1Exception` always classifies the extracted
message with `mapErrorCode`, passing the embedded known code (or `D1_ERROR`
when the `code` field is absent or unknown) as the fallback, so the embedded
code is carried over exactly when the message matches none of the substring
patterns. -/
theorem claim8_wrapD1Exception (e : D1ErrorHandler.ThrownError) (c : List Char)
    (k : D1ErrorCode) :
    (e.code = some c → D1ErrorHandler.decodeCode c = some k →
      D1ErrorHandler.wrapD1ExceptionCode e =
        D1ErrorHandler.mapErrorCode (D1ErrorHandler.extractErrorMessage e) k) ∧
    (e.code = none →
      D1ErrorHandler.wrapD1ExceptionCode e =
        D1ErrorHandler.mapErrorCode (D1ErrorHandler.extractErrorMessage e) .D1_ERROR) ∧
    (e.code = some c → D1ErrorHandler.decodeCode c = none →
      D1ErrorHandler.wrapD1ExceptionCode e =
        D1ErrorHandler.mapErrorCode (D1ErrorHandler.extractErrorMessage e) .D1_ERROR) := by
  refine ⟨?_, ?_, ?_⟩
  · intro hc hk
    simp [D1ErrorHandler.wrapD1ExceptionCode, hc, hk]
  · intro hc
    simp [D1ErrorHandler.wrapD1ExceptionCode, hc]
  · intro hc hk
    simp [D1ErrorHandler.wrapD1ExceptionCode, hc, hk]

/-- Witness for C8's amended theorem: an error with embedded code
`SQLITE_ERROR` and a pattern-free message keeps the embedded code. -/
theorem claim8_witness :
    D1ErrorHandler.wrapD1ExceptionCode
      ⟨none, some ("something odd happened".data), some ("SQLITE_ERROR".data), []⟩ =
      D1ErrorHandler.mapErrorCode ("something odd happened".data) .SQLITE_ERROR :=
  (claim8_wrapD1Exception
      ⟨none, some ("something odd happened".data), some ("SQLITE_ERROR".data), []⟩
      ("SQLITE_ERROR".data) .SQLITE_ERROR).1 rfl (by decide)

end D1

namespace D1

/-! ### D1QueryRunner (driver/d1/d1-query-runner.ts): parameter binding,
transaction tracking, unsupported schema mutations -/

/-- A JS value appearing in a bound-parameter array. -/
inductive JSParam where
  | undef
  | null
  | str (s : List Char)
  | num (n : ℤ)
  | boolean (b : Bool)
deriving DecidableEq

namespace D1QueryRunner

/-- The parameter list actually bound on the prepared statement by
`executeQuery`: `stmt.bind` is invoked only when a non-empty parameter array
was supplied, and every `undefined` element is replaced by `null` first
(D1 rejects `undefined`); `none` means `bind` is never called. -/
def boundParameters (parameters : Option (List JSParam)) : Option (List JSParam) :=
  match parameters with
  | some ps =>
    if ps.length > 0 then
      some (ps.map fun p => if p = JSParam.undef then JSParam.null else p)
    else none
  | none => none

end D1QueryRunner

/-- C4: for every non-empty parameter array, `executeQuery` binds exactly the
array with `undefined` elements replaced by `null`, and the bound list never
contains `undefined`. -/
theorem claim4_undefinedBinding (ps : List JSParam) (h : ps ≠ []) :
    D1QueryRunner.boundParameters (some ps) =
      some (ps.map fun p => if p = JSParam.undef then JSParam.null else p) ∧
    ∀ bound, D1QueryRunner.boundParameters (some ps) = some bound →
      JSParam.undef ∉ bound := by
  have hlen : ps.length > 0 := List.length_pos.mpr h
  constructor
  · simp [D1QueryRunner.boundParameters, hlen]
  · intro bound hb hmem
    simp only [D1QueryRunner.boundParameters, if_pos hlen, Option.some.injEq] at hb
    subst hb
    obtain ⟨a, _, ha⟩ := List.mem_map.mp hmem
    by_cases hau : a = JSParam.undef
    · rw [if_pos hau] at ha
      exact absurd ha (by simp)
    · rw [if_neg hau] at ha
      exact hau ha

/-- Witness for C4 at the concrete array `[undefined, 42]`. -/
theorem claim4_witness :
    D1QueryRunner.boundParameters (some [JSParam.undef, JSParam.num 42]) =
      some [JSParam.null, JSParam.num 42] ∧
    JSParam.undef ∉ [JSParam.null, JSParam.num 42] := by
  have h := claim4_undefinedBinding [JSParam.undef, JSParam.num 42] (by decide)
  exact ⟨by rw [h.1]; decide, fun hm => h.2 _ (by rw [h.1]; decide) hm⟩

/-- The transaction-tracking state owned by a `D1QueryRunner`: the
`isTransactionActive` flag and the two parallel arrays. -/
structure RunnerState where
  isTransactionActive : Bool
  transactionStatements : List (List Char)
  transactionBindings : List (List JSParam)
deriving DecidableEq

/-- `D1TransactionError` (src/errors), reduced to its message. -/
structure D1TransactionError where
  message : List Char
deriving DecidableEq

namespace D1QueryRunner

/-- `startTransaction`: fails (state untouched) when a transaction is already
active, otherwise sets the flag and clears both arrays. -/
def startTransaction (s : RunnerState) : Option D1TransactionError × RunnerState :=
  if s.isTransactionActive then
    (some ⟨("Cannot start transaction: a transaction is already active".data)⟩, s)
  else
    (none, ⟨true, [], []⟩)

/-- `commitTransaction`: fails (state untouched) when no transaction is
active, otherwise clears the flag and both arrays. -/
def commitTransaction (s : RunnerState) : Option D1TransactionError × RunnerState :=
  if s.isTransactionActive = false then
    (some ⟨("No active transaction to commit".data)⟩, s)
  else
    (none, ⟨false, [], []⟩)

/-- `rollbackTransaction`: fails (state untouched) when no transaction is
active, otherwise clears the flag and both arrays. -/
def rollbackTransaction (s : RunnerState) : Option D1TransactionError × RunnerState :=
  if s.isTransactionActive = false then
    (some ⟨("No active transaction to rollback".data)⟩, s)
  else
    (none, ⟨false, [], []⟩)

/-- `release`: clears the transaction state when a transaction was active. -/
def release (s : RunnerState) : RunnerState :=
  if s.isTransactionActive then ⟨false, [], []⟩ else s

/-- The transaction-tracking effect of `query`: when a transaction is active,
the normalized query text and the parameter list (`parameters || []`) are
pushed onto the two arrays; execution itself happens immediately either way. -/
def queryTrack (q : List Char) (parameters : Option (List JSParam))
    (s : RunnerState) : RunnerState :=
  if s.isTransactionActive then
    { s with
      transactionStatements :=
        s.transactionStatements ++ [QueryNormalizer.normalizeQuery q],
      transactionBindings := s.transactionBindings ++ [parameters.getD []] }
  else s

end D1QueryRunner

/-- C5: `startTransaction` fails iff a transaction is active;
`commitTransaction` and `rollbackTransaction` fail iff none is active; and in
every failure case the transaction-tracking state is left unchanged. -/
theorem claim5_transactionLifecycle (s : RunnerState) :
    ((D1QueryRunner.startTransaction s).1.isSome = true ↔
      s.isTransactionActive = true) ∧
    ((D1QueryRunner.startTransaction s).1.isSome = true →
      (D1QueryRunner.startTransaction s).2 = s) ∧
    ((D1QueryRunner.commitTransaction s).1.isSome = true ↔
      s.isTransactionActive = false) ∧
    ((D1QueryRunner.commitTransaction s).1.isSome = true →
      (D1QueryRunner.commitTransaction s).2 = s) ∧
    ((D1QueryRunner.rollbackTransaction s).1.isSome = true ↔
      s.isTransactionActive = false) ∧
    ((D1QueryRunner.rollbackTransaction s).1.isSome = true →
      (D1QueryRunner.rollbackTransaction s).2 = s) := by
  cases h : s.isTransactionActive <;>
    simp [D1QueryRunner.startTransaction, D1QueryRunner.commitTransaction,
      D1QueryRunner.rollbackTransaction, h]

/-- Witness for C5 at a concrete active state: a second `startTransaction`
fails and leaves the state unchanged. -/
theorem claim5_witness :
    (D1QueryRunner.startTransaction ⟨true, [], []⟩).1.isSome = true ∧
    (D1QueryRunner.startTransaction ⟨true, [], []⟩).2 = ⟨true, [], []⟩ :=
  ⟨(claim5_transactionLifecycle ⟨true, [], []⟩).1.mpr rfl,
    (claim5_transactionLifecycle ⟨true, [], []⟩).2.1
      ((claim5_transactionLifecycle ⟨true, [], []⟩).1.mpr rfl)⟩

/-- The invariant of C10 over the transaction-tracking state. -/
def TransactionInvariant (s : RunnerState) : Prop :=
  s.transactionStatements.length = s.transactionBindings.length ∧
  (s.isTransactionActive = false →
    s.transactionStatements = [] ∧ s.transactionBindings = [])

/-- C10: every public operation of the runner (`query`, `startTransaction`,
`commitTransaction`, `rollbackTransaction`, `release`) preserves the
invariant that the two tracking arrays have equal length and are both empty
whenever no transaction is active. -/
theorem claim10_invariant (s : RunnerState) (h : TransactionInvariant s) :
    (∀ q ps, TransactionInvariant (D1QueryRunner.queryTrack q ps s)) ∧
    TransactionInvariant (D1QueryRunner.startTransaction s).2 ∧
    TransactionInvariant (D1QueryRunner.commitTransaction s).2 ∧
    TransactionInvariant (D1QueryRunner.rollbackTransaction s).2 ∧
    TransactionInvariant (D1QueryRunner.release s) := by
  obtain ⟨hlen, hempty⟩ := h
  cases hact : s.isTransactionActive <;>
    simp_all [D1QueryRunner.queryTrack, D1QueryRunner.startTransaction,
      D1QueryRunner.commitTransaction, D1QueryRunner.rollbackTransaction,
      D1QueryRunner.release, TransactionInvariant, hact]

/-- Witness for C10 at a concrete in-transaction state with one tracked query. -/
theorem claim10_witness :
    TransactionInvariant
      (D1QueryRunner.queryTrack ("SELECT 1".data) none
        ⟨true, [("X".data)], [[JSParam.num 0]]⟩) :=
  (claim10_invariant ⟨true, [("X".data)], [[JSParam.num 0]]⟩
      ⟨rfl, by intro h; cases h⟩).1 ("SELECT 1".data) none

end D1

namespace D1

/-- The single-quote character, written via its code point to keep string
literals in this file apostrophe-free. -/
def sq : Char := Char.ofNat 39

/-- `D1ValidationError` (src/errors), reduced to the fields these operations
populate: the message and the `hint`/`operation` context entries. -/
structure D1ValidationError where
  message : List Char
  hint : List Char
  operation : List Char

namespace D1QueryRunner

/-- The outcome of a schema-mutation call: the raised error or unit result,
plus every SQL text executed against the remote handle during the call. -/
structure MutationOutcome where
  result : Except D1ValidationError Unit
  executedSql : List (List Char)

/-- The message `SQLite/D1 doesn't support DROP COLUMN` (apostrophe spelled
via `sq`). -/
def msgDropColumn : List Char :=
  ("SQLite/D1 doesn".data) ++ [sq] ++ ("t support DROP COLUMN".data)

/-- `dropColumn`: always throws, never executes SQL. -/
def dropColumn {α β : Type} (tableOrName : α) (columnOrName : β) : MutationOutcome :=
  ⟨.error ⟨msgDropColumn,
    ("Use a migration to recreate the table".data), ("dropColumn".data)⟩, []⟩

/-- `changeColumn`: always throws, never executes SQL. -/
def changeColumn {α β γ : Type} (tableOrName : α) (oldColumnOrName : β)
    (newColumn : γ) : MutationOutcome :=
  ⟨.error ⟨("SQLite/D1 has limited ALTER TABLE support".data),
    ("Use a migration to recreate the table".data), ("changeColumn".data)⟩, []⟩

/-- `renameColumn`: always throws, never executes SQL. -/
def renameColumn {α β : Type} (tableOrName : α) (oldColumnOrName : β)
    (newColumnName : List Char) : MutationOutcome :=
  ⟨.error ⟨("SQLite/D1 may not support RENAME COLUMN".data),
    ("Use a migration to recreate the table".data), ("renameColumn".data)⟩, []⟩

/-- `dropColumns`: always throws, never executes SQL. -/
def dropColumns {α β : Type} (tableOrName : α) (columns : List β) : MutationOutcome :=
  ⟨.error ⟨msgDropColumn,
    ("Use a migration to recreate the table".data), ("dropColumns".data)⟩, []⟩

/-- `createForeignKey`: always throws, never executes SQL. -/
def createForeignKey {α β : Type} (tableOrName : α) (foreignKey : β) : MutationOutcome :=
  ⟨.error ⟨("SQLite/D1 doesn".data) ++ [sq] ++
      ("t support adding foreign keys to existing tables".data),
    ("Define them in CREATE TABLE".data), ("createForeignKey".data)⟩, []⟩

/-- `dropForeignKey`: always throws, never executes SQL. -/
def dropForeignKey {α β : Type} (tableOrName : α) (foreignKeyOrName : β) : MutationOutcome :=
  ⟨.error ⟨("SQLite/D1 doesn".data) ++ [sq] ++ ("t support dropping foreign keys".data),
    ("Use a migration to recreate the table".data), ("dropForeignKey".data)⟩, []⟩

/-- `createPrimaryKey`: always throws, never executes SQL. -/
def createPrimaryKey {α : Type} (tableOrName : α)
    (columnNames : List (List Char)) : MutationOutcome :=
  ⟨.error ⟨("SQLite/D1 doesn".data) ++ [sq] ++
      ("t support adding primary keys to existing tables".data),
    ("Define them in CREATE TABLE".data), ("createPrimaryKey".data)⟩, []⟩

/-- `dropPrimaryKey`: always throws, never executes SQL. -/
def dropPrimaryKey {α : Type} (tableOrName : α) : MutationOutcome :=
  ⟨.error ⟨("SQLite/D1 doesn".data) ++ [sq] ++ ("t support dropping primary keys".data),
    ("Use a migration to recreate the table".data), ("dropPrimaryKey".data)⟩, []⟩

end D1QueryRunner

/-- C6: each explicitly-unsupported mutation operation throws a validation
error on every call, for all arguments, whose context names the operation,
and executes no SQL against the remote handle. -/
theorem claim6_unsupportedOps {α β γ : Type} (t : α) (b : β) (g : γ)
    (nn : List Char) (cols : List β) (names : List (List Char)) :
    ((∀ u, (D1QueryRunner.dropColumn t b).result ≠ .ok u) ∧
      (D1QueryRunner.dropColumn t b).executedSql = [] ∧
      ∃ e, (D1QueryRunner.dropColumn t b).result = .error e ∧
        e.operation = "dropColumn".data) ∧
    ((∀ u, (D1QueryRunner.changeColumn t b g).result ≠ .ok u) ∧
      (D1QueryRunner.changeColumn t b g).executedSql = [] ∧
      ∃ e, (D1QueryRunner.changeColumn t b g).result = .error e ∧
        e.operation = "changeColumn".data) ∧
    ((∀ u, (D1QueryRunner.renameColumn t b nn).result ≠ .ok u) ∧
      (D1QueryRunner.renameColumn t b nn).executedSql = [] ∧
      ∃ e, (D1QueryRunner.renameColumn t b nn).result = .error e ∧
        e.operation = "renameColumn".data) ∧
    ((∀ u, (D1QueryRunner.dropColumns t cols).result ≠ .ok u) ∧
      (D1QueryRunner.dropColumns t cols).executedSql = [] ∧
      ∃ e, (D1QueryRunner.dropColumns t cols).result = .error e ∧
        e.operation = "dropColumns".data) ∧
    ((∀ u, (D1QueryRunner.createForeignKey t b).result ≠ .ok u) ∧
      (D1QueryRunner.createForeignKey t b).executedSql = [] ∧
      ∃ e, (D1QueryRunner.createForeignKey t b).result = .error e ∧
        e.operation = "createForeignKey".data) ∧
    ((∀ u, (D1QueryRunner.dropForeignKey t b).result ≠ .ok u) ∧
      (D1QueryRunner.dropForeignKey t b).executedSql = [] ∧
      ∃ e, (D1QueryRunner.dropForeignKey t b).result = .error e ∧
        e.operation = "dropForeignKey".data) ∧
    ((∀ u, (D1QueryRunner.createPrimaryKey t names).result ≠ .ok u) ∧
      (D1QueryRunner.createPrimaryKey t names).executedSql = [] ∧
      ∃ e, (D1QueryRunner.createPrimaryKey t names).result = .error e ∧
        e.operation = "createPrimaryKey".data) ∧
    ((∀ u, (D1QueryRunner.dropPrimaryKey t).result ≠ .ok u) ∧
      (D1QueryRunner.dropPrimaryKey t).executedSql = [] ∧
      ∃ e, (D1QueryRunner.dropPrimaryKey t).result = .error e ∧
        e.operation = "dropPrimaryKey".data) := by
  refine ⟨⟨?_, rfl, ⟨_, rfl, rfl⟩⟩, ⟨?_, rfl, ⟨_, rfl, rfl⟩⟩, ⟨?_, rfl, ⟨_, rfl, rfl⟩⟩,
    ⟨?_, rfl, ⟨_, rfl, rfl⟩⟩, ⟨?_, rfl, ⟨_, rfl, rfl⟩⟩, ⟨?_, rfl, ⟨_, rfl, rfl⟩⟩,
    ⟨?_, rfl, ⟨_, rfl, rfl⟩⟩, ⟨?_, rfl, ⟨_, rfl, rfl⟩⟩⟩ <;>
    intro u h <;> cases h

end D1

namespace D1

/-! ### Default values: D1QueryRunner.normalizeDefault and
MetadataParser.parseDefaultValue -/

/-- The decimal digit character for `n` (callers pass `n < 10`). -/
def digitChar (n : ℕ) : Char :=
  match n with
  | 0 => '0' | 1 => '1' | 2 => '2' | 3 => '3' | 4 => '4'
  | 5 => '5' | 6 => '6' | 7 => '7' | 8 => '8' | _ + 9 => '9'

/-- `[0-9]` test. -/
def isDigitCh (c : Char) : Bool := ('0' ≤ c) && (c ≤ '9')

/-- Numeric value of a digit character (JS digit parsing). -/
def charToDigit (c : Char) : ℕ := c.toNat - 48

/-- Decimal rendering of a natural number, most significant digit first. -/
def natToDigits (n : ℕ) : List Char :=
  if n < 10 then [digitChar n]
  else natToDigits (n / 10) ++ [digitChar (n % 10)]
termination_by n
decreasing_by exact Nat.div_lt_self (by omega) (by omega)

/-- Value of a digit string (the core of JS `parseInt(s, 10)`). -/
def digitsToNat (l : List Char) : ℕ :=
  l.foldl (fun a c => a * 10 + charToDigit c) 0

/-- JS numbers appearing as column defaults, modelled as exact decimals:
sign, integer part, fraction digits.  `String(v)` of such a number is its
decimal text (faithful for canonical decimals below 10^21; IEEE-754 exponent
notation and rounding are outside the literal kinds the claim quantifies
over). -/
structure DecNum where
  neg : Bool
  ip : ℕ
  fp : List (Fin 10)
deriving DecidableEq

/-- A JS value usable as a column default.  `vRaw s` is a non-primitive
value whose `String(v)` text is `s`. -/
inductive JSVal where
  | vNull
  | vStr (s : List Char)
  | vNum (d : DecNum)
  | vBool (b : Bool)
  | vRaw (s : List Char)
deriving DecidableEq

/-- `String(v)` for the decimal-number model. -/
def numToChars (d : DecNum) : List Char :=
  (if d.neg then ['-'] else []) ++ natToDigits d.ip ++
    (if d.fp.isEmpty then [] else '.' :: d.fp.map fun i => digitChar i.val)

/-- `defaultValue.replace(/'/g, "''")` (double every single quote). -/
def escapeSingleQuotes : List Char → List Char
  | [] => []
  | c :: r => if c = sq then sq :: sq :: escapeSingleQuotes r else c :: escapeSingleQuotes r

/-- `.replace(/''/g, "'")` (collapse doubled single quotes, leftmost first). -/
def unescapeSingleQuotes : List Char → List Char
  | [] => []
  | [c] => [c]
  | c1 :: c2 :: r =>
    if c1 = sq && c2 = sq then sq :: unescapeSingleQuotes r
    else c1 :: unescapeSingleQuotes (c2 :: r)

namespace D1QueryRunner

/-- `D1QueryRunner.normalizeDefault`: string → single-quoted with doubled
quotes; number → decimal text; boolean → `1`/`0`; null → `NULL`; anything
else → its `String(v)` text. -/
def normalizeDefault (defaultValue : JSVal) : List Char :=
  match defaultValue with
  | .vStr s => sq :: escapeSingleQuotes s ++ [sq]
  | .vNum d => numToChars d
  | .vBool b => if b then "1".data else "0".data
  | .vNull => "NULL".data
  | .vRaw s => s

end D1QueryRunner

/-- `/^-?\d+$/` test. -/
def intLit (l : List Char) : Bool :=
  match l with
  | [] => false
  | c :: r => if c = '-' then !r.isEmpty && r.all isDigitCh else (c :: r).all isDigitCh

/-- `/^-?\d+\.\d+$/` test. -/
def floatLit (l : List Char) : Bool :=
  let r := if l.head? = some '-' then l.tail else l
  let a := r.takeWhile isDigitCh
  let rest := r.dropWhile isDigitCh
  if rest.head? = some '.' then
    !a.isEmpty && !rest.tail.isEmpty && rest.tail.all isDigitCh
  else false

/-- `/^\w+\(/` test (function-call-like token). -/
def funcCallLit (l : List Char) : Bool :=
  !(l.takeWhile isWordChar).isEmpty && (l.dropWhile isWordChar).head? = some '('

/-- Digit character back to `Fin 10`. -/
def charToFin (c : Char) : Fin 10 := ⟨charToDigit c % 10, Nat.mod_lt _ (by omega)⟩

/-- Drop trailing zero fraction digits (`parseFloat` returns a number; equal
numbers have one canonical decimal). -/
def stripTrailingZeros (l : List (Fin 10)) : List (Fin 10) :=
  (l.reverse.dropWhile fun d => d = (0 : Fin 10)).reverse

/-- The number produced by `parseInt(l, 10)` on an `/^-?\d+$/` token
(`-0` is canonicalized to `0`, matching JS number equality). -/
def parseIntVal (l : List Char) : DecNum :=
  if l.head? = some '-' then ⟨decide (digitsToNat l.tail ≠ 0), digitsToNat l.tail, []⟩
  else ⟨false, digitsToNat l, []⟩

/-- The number produced by `parseFloat` on an `/^-?\d+\.\d+$/` token,
canonicalized (trailing fraction zeros dropped, `-0` made positive). -/
def parseFloatVal (l : List Char) : DecNum :=
  let neg := l.head? = some '-'
  let r := if l.head? = some '-' then l.tail else l
  let a := r.takeWhile isDigitCh
  let b := (r.dropWhile isDigitCh).tail
  let fp := stripTrailingZeros (b.map charToFin)
  ⟨decide neg && !(digitsToNat a = 0 && fp.isEmpty), digitsToNat a, fp⟩

namespace MetadataParser

/-- `MetadataParser.parseDefaultValue`. -/
def parseDefaultValue (value : List Char) : JSVal :=
  let trimmed := jsTrim value
  if trimmed.map upChar = "NULL".data then .vNull
  else if (trimmed.head? = some sq && trimmed.getLast? = some sq) ||
      (trimmed.head? = some '"' && trimmed.getLast? = some '"') then
    .vStr (unescapeSingleQuotes trimmed.tail.dropLast)
  else if intLit trimmed then .vNum (parseIntVal trimmed)
  else if floatLit trimmed then .vNum (parseFloatVal trimmed)
  else if trimmed = "0".data || trimmed = "1".data then .vBool (trimmed = "1".data)
  else if funcCallLit trimmed then .vStr trimmed
  else .vStr trimmed

end MetadataParser

end D1

namespace D1

/-- `[a-z]` test. -/
def isLowerCh (c : Char) : Bool := ('a' ≤ c) && (c ≤ 'z')

theorem lower_ne {c e : Char} (hc : isLowerCh c = false) (he : isLowerCh e = true) : c ≠ e :=
  fun h => by subst h; rw [hc] at he; exact absurd he (by simp)

theorem upChar_not_lower {c : Char} (hc : isLowerCh c = false) : upChar c = c := by
  unfold upChar
  rw [if_neg (lower_ne hc (by decide) : ¬ c = 'a'), if_neg (lower_ne hc (by decide) : ¬ c = 'b'),
    if_neg (lower_ne hc (by decide) : ¬ c = 'c'), if_neg (lower_ne hc (by decide) : ¬ c = 'd'),
    if_neg (lower_ne hc (by decide) : ¬ c = 'e'), if_neg (lower_ne hc (by decide) : ¬ c = 'f'),
    if_neg (lower_ne hc (by decide) : ¬ c = 'g'), if_neg (lower_ne hc (by decide) : ¬ c = 'h'),
    if_neg (lower_ne hc (by decide) : ¬ c = 'i'), if_neg (lower_ne hc (by decide) : ¬ c = 'j'),
    if_neg (lower_ne hc (by decide) : ¬ c = 'k'), if_neg (lower_ne hc (by decide) : ¬ c = 'l'),
    if_neg (lower_ne hc (by decide) : ¬ c = 'm'), if_neg (lower_ne hc (by decide) : ¬ c = 'n'),
    if_neg (lower_ne hc (by decide) : ¬ c = 'o'), if_neg (lower_ne hc (by decide) : ¬ c = 'p'),
    if_neg (lower_ne hc (by decide) : ¬ c = 'q'), if_neg (lower_ne hc (by decide) : ¬ c = 'r'),
    if_neg (lower_ne hc (by decide) : ¬ c = 's'), if_neg (lower_ne hc (by decide) : ¬ c = 't'),
    if_neg (lower_ne hc (by decide) : ¬ c = 'u'), if_neg (lower_ne hc (by decide) : ¬ c = 'v'),
    if_neg (lower_ne hc (by decide) : ¬ c = 'w'), if_neg (lower_ne hc (by decide) : ¬ c = 'x'),
    if_neg (lower_ne hc (by decide) : ¬ c = 'y'), if_neg (lower_ne hc (by decide) : ¬ c = 'z')]

theorem digit_ne {c e : Char} (hc : isDigitCh c = true) (he : isDigitCh e = false) : c ≠ e :=
  fun h => by subst h; rw [hc] at he; exact absurd he (by simp)

theorem not_lower_of_digit {c : Char} (hc : isDigitCh c = true) : isLowerCh c = false := by
  by_contra h
  simp only [Bool.not_eq_false] at h
  simp only [isLowerCh, isDigitCh, Bool.and_eq_true, decide_eq_true_eq] at h hc
  exact absurd (le_trans h.1 hc.2) (by decide)

theorem upChar_digit {c : Char} (hc : isDigitCh c = true) : upChar c = c :=
  upChar_not_lower (not_lower_of_digit hc)

theorem ws_char_cases {c : Char} (h : isWsChar c = true) :
    c = ' ' ∨ c = '\t' ∨ c = '\n' ∨ c = '\r' ∨ c = '\x0b' ∨ c = '\x0c' := by
  simp only [isWsChar, Bool.or_eq_true, decide_eq_true_eq] at h
  tauto

theorem not_ws_of_digit {c : Char} (hc : isDigitCh c = true) : isWsChar c = false := by
  by_contra h
  simp only [Bool.not_eq_false] at h
  rcases ws_char_cases h with h' | h' | h' | h' | h' | h' <;> subst h' <;>
    exact absurd hc (by decide)

theorem isDigitCh_digitChar (n : ℕ) : isDigitCh (digitChar n) = true := by
  rcases n with _|_|_|_|_|_|_|_|_|n <;> rfl

theorem charToDigit_digitChar {k : ℕ} (hk : k < 10) : charToDigit (digitChar k) = k := by
  interval_cases k <;> decide

theorem charToFin_digitChar (i : Fin 10) : charToFin (digitChar i.val) = i := by
  fin_cases i <;> decide

theorem getLast?_append_singleton (l : List Char) (a : Char) :
    (l ++ [a]).getLast? = some a := by
  simp

theorem dropLast_append_singleton (l : List Char) (a : Char) :
    (l ++ [a]).dropLast = l := by
  simp

theorem digitsToNat_append_singleton (l : List Char) (c : Char) :
    digitsToNat (l ++ [c]) = digitsToNat l * 10 + charToDigit c := by
  simp [digitsToNat, List.foldl_append]

theorem natToDigits_ne_nil (n : ℕ) : natToDigits n ≠ [] := by
  rw [natToDigits]
  by_cases h : n < 10
  · rw [if_pos h]; simp
  · rw [if_neg h]; simp

theorem natToDigits_all_digits (n : ℕ) : (natToDigits n).all isDigitCh = true := by
  induction n using Nat.strong_induction_on with
  | _ n ih =>
    rw [natToDigits]
    by_cases h : n < 10
    · rw [if_pos h]; simp [isDigitCh_digitChar]
    · rw [if_neg h]
      rw [List.all_append]
      rw [ih (n / 10) (Nat.div_lt_self (by omega) (by omega))]
      simp [isDigitCh_digitChar]

theorem digitsToNat_natToDigits (n : ℕ) : digitsToNat (natToDigits n) = n := by
  induction n using Nat.strong_induction_on with
  | _ n ih =>
    rw [natToDigits]
    by_cases h : n < 10
    · rw [if_pos h]
      simp [digitsToNat, charToDigit_digitChar h]
    · rw [if_neg h]
      rw [digitsToNat_append_singleton, ih (n / 10) (Nat.div_lt_self (by omega) (by omega)),
        charToDigit_digitChar (Nat.mod_lt _ (by omega))]
      omega

theorem head_digit_of_natToDigits {n : ℕ} {c : Char} (h : (natToDigits n).head? = some c) :
    isDigitCh c = true := by
  have hall := natToDigits_all_digits n
  cases hnd : natToDigits n with
  | nil => rw [hnd] at h; exact absurd h (by simp)
  | cons a t =>
    rw [hnd] at h hall
    simp only [List.head?_cons, Option.some.injEq] at h
    simp only [List.all_cons, Bool.and_eq_true] at hall
    rw [← h]; exact hall.1

end D1

namespace D1

theorem jsTrim_eq_self {l : List Char}
    (h1 : ∀ c, l.head? = some c → isWsChar c = false)
    (h2 : ∀ c, l.getLast? = some c → isWsChar c = false) : jsTrim l = l := by
  unfold jsTrim
  rw [dropWhile_eq_self_of_head h1, trimRight_eq_self h2]

theorem parseDefaultValue_of_trim {v t : List Char} (h : jsTrim v = t) :
    MetadataParser.parseDefaultValue v =
      (if t.map upChar = "NULL".data then .vNull
       else if (t.head? = some sq && t.getLast? = some sq) ||
           (t.head? = some '"' && t.getLast? = some '"') then
         .vStr (unescapeSingleQuotes t.tail.dropLast)
       else if intLit t then .vNum (parseIntVal t)
       else if floatLit t then .vNum (parseFloatVal t)
       else if t = "0".data || t = "1".data then .vBool (t = "1".data)
       else if funcCallLit t then .vStr t
       else .vStr t) := by
  subst h
  rfl

theorem unescape_cons_of_ne {c : Char} (hc : ¬ c = sq) (l : List Char) :
    unescapeSingleQuotes (c :: l) = c :: unescapeSingleQuotes l := by
  cases l with
  | nil => rfl
  | cons c2 r =>
    rw [show unescapeSingleQuotes (c :: c2 :: r) =
        if (decide (c = sq) && decide (c2 = sq)) = true then sq :: unescapeSingleQuotes r
        else c :: unescapeSingleQuotes (c2 :: r) from rfl]
    rw [if_neg (by simp [hc])]

theorem unescape_escape (s : List Char) :
    unescapeSingleQuotes (escapeSingleQuotes s) = s := by
  induction s with
  | nil => rfl
  | cons c r ih =>
    by_cases hc : c = sq
    · subst hc
      rw [show escapeSingleQuotes (sq :: r) = sq :: sq :: escapeSingleQuotes r from rfl]
      rw [show unescapeSingleQuotes (sq :: sq :: escapeSingleQuotes r) =
          sq :: unescapeSingleQuotes (escapeSingleQuotes r) from rfl]
      rw [ih]
    · rw [show escapeSingleQuotes (c :: r) =
          if c = sq then sq :: sq :: escapeSingleQuotes r else c :: escapeSingleQuotes r
          from rfl]
      rw [if_neg hc, unescape_cons_of_ne hc, ih]

/-- The string round trip: quoting then dequoting recovers the string. -/
theorem parse_normalize_str (s : List Char) :
    MetadataParser.parseDefaultValue (D1QueryRunner.normalizeDefault (.vStr s)) = .vStr s := by
  show MetadataParser.parseDefaultValue (sq :: escapeSingleQuotes s ++ [sq]) = .vStr s
  have hsplit : (sq :: escapeSingleQuotes s ++ [sq] : List Char) =
      (sq :: escapeSingleQuotes s) ++ [sq] := by simp
  have hlast : (sq :: escapeSingleQuotes s ++ [sq]).getLast? = some sq := by
    rw [hsplit, getLast?_append_singleton]
  have htrim : jsTrim (sq :: escapeSingleQuotes s ++ [sq]) =
      sq :: escapeSingleQuotes s ++ [sq] := by
    apply jsTrim_eq_self
    · intro c hc
      simp only [List.cons_append, List.head?_cons, Option.some.injEq] at hc
      rw [← hc]; decide
    · intro c hc
      rw [hlast] at hc
      simp only [Option.some.injEq] at hc
      rw [← hc]; decide
  rw [parseDefaultValue_of_trim htrim]
  have hnull : ¬ ((sq :: escapeSingleQuotes s ++ [sq]).map upChar = "NULL".data) := by
    intro h
    rw [show ("NULL".data) = 'N' :: "ULL".data from by decide] at h
    rw [List.cons_append, List.map_cons] at h
    injection h with h1 _
    exact absurd h1 (by decide)
  rw [if_neg hnull, if_pos (by
    simp only [Bool.or_eq_true, Bool.and_eq_true, decide_eq_true_eq]
    exact Or.inl ⟨rfl, hlast⟩)]
  rw [show (sq :: escapeSingleQuotes s ++ [sq]).tail = escapeSingleQuotes s ++ [sq] from rfl]
  rw [dropLast_append_singleton, unescape_escape]

end D1

namespace D1

theorem all_mem {p : Char → Bool} {l : List Char} (h : l.all p = true) {c : Char}
    (hc : c ∈ l) : p c = true := by
  rw [List.all_eq_true] at h
  exact h c hc

theorem mem_of_getLast?_eq {l : List Char} {c : Char} (h : l.getLast? = some c) : c ∈ l := by
  have hr : l.reverse.head? = some c := by rw [List.head?_reverse]; exact h
  cases hrev : l.reverse with
  | nil => rw [hrev] at hr; exact absurd hr (by simp)
  | cons x xs =>
    rw [hrev] at hr
    simp only [List.head?_cons, Option.some.injEq] at hr
    have : c ∈ l.reverse := by rw [hrev, ← hr]; exact List.mem_cons_self _ _
    exact List.mem_reverse.mp this

theorem getLast?_append_right {a b : List Char} (hb : b ≠ []) :
    (a ++ b).getLast? = b.getLast? := by
  rw [← List.head?_reverse, List.reverse_append]
  cases hx : b.reverse with
  | nil => exact absurd (by simpa using hx) hb
  | cons x xs =>
    rw [List.cons_append, List.head?_cons, ← List.head?_reverse, hx, List.head?_cons]

theorem takeWhile_append_all {p : Char → Bool} {a : List Char} (h : a.all p = true)
    (l : List Char) : (a ++ l).takeWhile p = a ++ l.takeWhile p := by
  induction a with
  | nil => rfl
  | cons c t ih =>
    simp only [List.all_cons, Bool.and_eq_true] at h
    simp [List.takeWhile_cons, h.1, ih h.2]

theorem dropWhile_append_all {p : Char → Bool} {a : List Char} (h : a.all p = true)
    (l : List Char) : (a ++ l).dropWhile p = l.dropWhile p := by
  induction a with
  | nil => rfl
  | cons c t ih =>
    simp only [List.all_cons, Bool.and_eq_true] at h
    simp [List.dropWhile_cons, h.1, ih h.2]

theorem strip_eq_self {l : List (Fin 10)} (h : l.getLast? ≠ some 0) :
    stripTrailingZeros l = l := by
  unfold stripTrailingZeros
  cases hr : l.reverse with
  | nil =>
    have : l = [] := by simpa using congrArg List.reverse hr
    simp [this]
  | cons x xs =>
    have hx : ¬ (x = (0 : Fin 10)) := by
      intro h0
      apply h
      rw [← List.head?_reverse, hr, h0]
      rfl
    rw [List.dropWhile_cons, if_neg (by simpa using hx)]
    rw [← hr, List.reverse_reverse]

end D1

namespace D1

theorem natToDigits_shape (n : ℕ) : ∃ dc dt, natToDigits n = dc :: dt := by
  cases h : natToDigits n with
  | nil => exact absurd h (natToDigits_ne_nil n)
  | cons a t => exact ⟨a, t, rfl⟩

/-- Round trip for an unsigned integer default. -/
theorem parse_digits (n : ℕ) :
    MetadataParser.parseDefaultValue (natToDigits n) = .vNum ⟨false, n, []⟩ := by
  have hall := natToDigits_all_digits n
  obtain ⟨dc, dt, hD⟩ := natToDigits_shape n
  have hdc : isDigitCh dc = true :=
    all_mem hall (by rw [hD]; exact List.mem_cons_self _ _)
  have htrim : jsTrim (natToDigits n) = natToDigits n := by
    apply jsTrim_eq_self
    · intro c hch
      rw [hD] at hch
      simp only [List.head?_cons, Option.some.injEq] at hch
      rw [← hch]; exact not_ws_of_digit hdc
    · intro c hcl
      exact not_ws_of_digit (all_mem hall (mem_of_getLast?_eq hcl))
  rw [parseDefaultValue_of_trim htrim]
  have hnull : ¬ ((natToDigits n).map upChar = "NULL".data) := by
    intro h
    rw [hD, List.map_cons, show ("NULL".data) = 'N' :: "ULL".data from by decide] at h
    injection h with h1 _
    rw [upChar_digit hdc] at h1
    exact absurd (h1 ▸ hdc) (by decide)
  rw [if_neg hnull]
  rw [if_neg (by
    rw [hD]
    simp only [List.head?_cons, Bool.or_eq_true, Bool.and_eq_true, decide_eq_true_eq,
      Option.some.injEq]
    push_neg
    exact ⟨fun h => absurd h (digit_ne hdc (by decide)),
      fun h => absurd h (digit_ne hdc (by decide))⟩)]
  rw [if_pos (by
    rw [hD]
    rw [show intLit (dc :: dt) =
        if dc = '-' then !dt.isEmpty && dt.all isDigitCh else (dc :: dt).all isDigitCh
        from rfl]
    rw [if_neg (digit_ne hdc (by decide) : ¬ dc = '-')]
    rw [← hD]; exact hall)]
  unfold parseIntVal
  rw [if_neg (by rw [hD]; simp only [List.head?_cons, Option.some.injEq]
                 exact digit_ne hdc (by decide))]
  rw [digitsToNat_natToDigits]

/-- Round trip for a negative integer default (nonzero). -/
theorem parse_neg_digits {n : ℕ} (hn : n ≠ 0) :
    MetadataParser.parseDefaultValue ('-' :: natToDigits n) = .vNum ⟨true, n, []⟩ := by
  have hall := natToDigits_all_digits n
  have hne := natToDigits_ne_nil n
  have htrim : jsTrim ('-' :: natToDigits n) = '-' :: natToDigits n := by
    apply jsTrim_eq_self
    · intro c hch
      simp only [List.head?_cons, Option.some.injEq] at hch
      rw [← hch]; decide
    · intro c hcl
      rw [show ('-' :: natToDigits n) = ['-'] ++ natToDigits n from rfl,
        getLast?_append_right hne] at hcl
      exact not_ws_of_digit (all_mem hall (mem_of_getLast?_eq hcl))
  rw [parseDefaultValue_of_trim htrim]
  have hnull : ¬ (('-' :: natToDigits n).map upChar = "NULL".data) := by
    intro h
    rw [List.map_cons, show ("NULL".data) = 'N' :: "ULL".data from by decide] at h
    injection h with h1 _
    exact absurd h1 (by decide)
  rw [if_neg hnull]
  rw [if_neg (by
    simp only [List.head?_cons, Bool.or_eq_true, Bool.and_eq_true, decide_eq_true_eq,
      Option.some.injEq]
    push_neg
    exact ⟨fun h => absurd h (by decide), fun h => absurd h (by decide)⟩)]
  rw [if_pos (by
    rw [show intLit ('-' :: natToDigits n) =
        if ('-' : Char) = '-' then !(natToDigits n).isEmpty && (natToDigits n).all isDigitCh
        else ('-' :: natToDigits n).all isDigitCh from rfl]
    rw [if_pos rfl, hall]
    simp [List.isEmpty_iff, hne])]
  unfold parseIntVal
  rw [if_pos (by simp)]
  simp only [List.tail_cons, digitsToNat_natToDigits]
  simp [hn]

end D1

namespace D1

theorem fpChars_all {fp : List (Fin 10)} :
    (fp.map fun i => digitChar i.val).all isDigitCh = true := by
  rw [List.all_eq_true]
  intro c hc
  obtain ⟨i, _, rfl⟩ := List.mem_map.mp hc
  exact isDigitCh_digitChar _

theorem map_charToFin_digitChar (fp : List (Fin 10)) :
    ((fp.map fun i => digitChar i.val).map charToFin) = fp := by
  rw [List.map_map]
  have : (charToFin ∘ fun i : Fin 10 => digitChar i.val) = id := by
    funext i
    exact charToFin_digitChar i
  rw [this, List.map_id]

/-- Round trip for an unsigned decimal default with nonempty canonical
fraction. -/
theorem parse_float_pos (ip : ℕ) {fp : List (Fin 10)} (hfpne : fp ≠ [])
    (hcanon : fp.getLast? ≠ some 0) :
    MetadataParser.parseDefaultValue
      (natToDigits ip ++ '.' :: fp.map fun i => digitChar i.val) =
      .vNum ⟨false, ip, fp⟩ := by
  have hFall : (fp.map fun i => digitChar i.val).all isDigitCh = true := fpChars_all
  have hFne : (fp.map fun i => digitChar i.val) ≠ [] := by
    simpa using hfpne
  have hall := natToDigits_all_digits ip
  obtain ⟨dc, dt, hD⟩ := natToDigits_shape ip
  have hdc : isDigitCh dc = true :=
    all_mem hall (by rw [hD]; exact List.mem_cons_self _ _)
  have hLhead : (natToDigits ip ++ '.' :: fp.map fun i => digitChar i.val).head? = some dc := by
    rw [hD, List.cons_append, List.head?_cons]
  have htrim : jsTrim (natToDigits ip ++ '.' :: fp.map fun i => digitChar i.val) =
      natToDigits ip ++ '.' :: fp.map fun i => digitChar i.val := by
    apply jsTrim_eq_self
    · intro c hch
      rw [hLhead] at hch
      simp only [Option.some.injEq] at hch
      rw [← hch]; exact not_ws_of_digit hdc
    · intro c hcl
      rw [getLast?_append_right (by simp)] at hcl
      rw [show ('.' :: fp.map fun i => digitChar i.val) =
          ['.'] ++ fp.map fun i => digitChar i.val from rfl,
        getLast?_append_right hFne] at hcl
      exact not_ws_of_digit (all_mem hFall (mem_of_getLast?_eq hcl))
  rw [parseDefaultValue_of_trim htrim]
  have hnull : ¬ ((natToDigits ip ++ '.' :: fp.map fun i => digitChar i.val).map upChar =
      "NULL".data) := by
    intro h
    rw [hD, List.cons_append, List.map_cons,
      show ("NULL".data) = 'N' :: "ULL".data from by decide] at h
    injection h with h1 _
    rw [upChar_digit hdc] at h1
    exact absurd (h1 ▸ hdc) (by decide)
  rw [if_neg hnull]
  rw [if_neg (by
    rw [hLhead]
    simp only [Bool.or_eq_true, Bool.and_eq_true, decide_eq_true_eq, Option.some.injEq]
    push_neg
    exact ⟨fun h => absurd h (digit_ne hdc (by decide)),
      fun h => absurd h (digit_ne hdc (by decide))⟩)]
  have hdotmem : '.' ∈ natToDigits ip ++ '.' :: fp.map fun i => digitChar i.val :=
    List.mem_append_right _ (List.mem_cons_self _ _)
  rw [if_neg (by
    rw [hD, List.cons_append]
    rw [show intLit (dc :: (dt ++ '.' :: fp.map fun i => digitChar i.val)) =
        if dc = '-' then
          !(dt ++ '.' :: fp.map fun i => digitChar i.val).isEmpty &&
            (dt ++ '.' :: fp.map fun i => digitChar i.val).all isDigitCh
        else (dc :: (dt ++ '.' :: fp.map fun i => digitChar i.val)).all isDigitCh
        from rfl]
    rw [if_neg (digit_ne hdc (by decide) : ¬ dc = '-')]
    intro hva
    have := all_mem hva (by
      rw [← List.cons_append, ← hD]
      exact hdotmem)
    exact absurd this (by decide))]
  have hsign : (if (natToDigits ip ++ '.' :: fp.map fun i => digitChar i.val).head? =
      some '-' then (natToDigits ip ++ '.' :: fp.map fun i => digitChar i.val).tail
      else natToDigits ip ++ '.' :: fp.map fun i => digitChar i.val) =
      natToDigits ip ++ '.' :: fp.map fun i => digitChar i.val := by
    rw [hLhead]
    rw [if_neg (by simp only [Option.some.injEq]; exact digit_ne hdc (by decide))]
  have hdw : (natToDigits ip ++ '.' :: fp.map fun i => digitChar i.val).dropWhile isDigitCh =
      '.' :: fp.map fun i => digitChar i.val := by
    rw [dropWhile_append_all hall, List.dropWhile_cons, if_neg (by decide)]
  have htw : (natToDigits ip ++ '.' :: fp.map fun i => digitChar i.val).takeWhile isDigitCh =
      natToDigits ip := by
    rw [takeWhile_append_all hall, List.takeWhile_cons, if_neg (by decide), List.append_nil]
  rw [if_pos (by
    unfold floatLit
    simp only
    rw [hsign, hdw, htw]
    rw [if_pos (show ('.' :: fp.map fun i => digitChar i.val).head? = some '.' from rfl)]
    simp only [List.tail_cons, Bool.and_eq_true, Bool.not_eq_true', List.isEmpty_iff]
    refine ⟨⟨?_, ?_⟩, hFall⟩
    · rw [hD]; simp
    · simpa using hfpne)]
  unfold parseFloatVal
  simp only
  rw [hsign, hdw, htw, hLhead]
  simp only [List.tail_cons]
  rw [map_charToFin_digitChar, strip_eq_self hcanon, digitsToNat_natToDigits]
  have h1 : (decide (some dc = some '-')) = false := by
    simp only [decide_eq_false_iff_not, Option.some.injEq]
    exact digit_ne hdc (by decide)
  rw [h1]
  simp

end D1

namespace D1

/-- Round trip for a negative decimal default with nonempty canonical
fraction. -/
theorem parse_float_neg (ip : ℕ) {fp : List (Fin 10)} (hfpne : fp ≠ [])
    (hcanon : fp.getLast? ≠ some 0) :
    MetadataParser.parseDefaultValue
      ('-' :: (natToDigits ip ++ '.' :: fp.map fun i => digitChar i.val)) =
      .vNum ⟨true, ip, fp⟩ := by
  have hFall : (fp.map fun i => digitChar i.val).all isDigitCh = true := fpChars_all
  have hFne : (fp.map fun i => digitChar i.val) ≠ [] := by simpa using hfpne
  have hall := natToDigits_all_digits ip
  have htrim : jsTrim ('-' :: (natToDigits ip ++ '.' :: fp.map fun i => digitChar i.val)) =
      '-' :: (natToDigits ip ++ '.' :: fp.map fun i => digitChar i.val) := by
    apply jsTrim_eq_self
    · intro c hch
      simp only [List.head?_cons, Option.some.injEq] at hch
      rw [← hch]; decide
    · intro c hcl
      rw [show ('-' :: (natToDigits ip ++ '.' :: fp.map fun i => digitChar i.val)) =
          ['-'] ++ (natToDigits ip ++ '.' :: fp.map fun i => digitChar i.val) from rfl,
        getLast?_append_right (by simp), getLast?_append_right (by simp)] at hcl
      rw [show ('.' :: fp.map fun i => digitChar i.val) =
          ['.'] ++ fp.map fun i => digitChar i.val from rfl,
        getLast?_append_right hFne] at hcl
      exact not_ws_of_digit (all_mem hFall (mem_of_getLast?_eq hcl))
  rw [parseDefaultValue_of_trim htrim]
  rw [if_neg (by
    intro h
    rw [List.map_cons, show ("NULL".data) = 'N' :: "ULL".data from by decide] at h
    injection h with h1 _
    exact absurd h1 (by decide))]
  rw [if_neg (by
    simp only [List.head?_cons, Bool.or_eq_true, Bool.and_eq_true, decide_eq_true_eq,
      Option.some.injEq]
    push_neg
    exact ⟨fun h => absurd h (by decide), fun h => absurd h (by decide)⟩)]
  have hdotmem : '.' ∈ natToDigits ip ++ '.' :: fp.map fun i => digitChar i.val :=
    List.mem_append_right _ (List.mem_cons_self _ _)
  have hallfalse : (natToDigits ip ++ '.' :: fp.map fun i => digitChar i.val).all isDigitCh
      = false := by
    by_contra hva
    simp only [Bool.not_eq_false] at hva
    exact absurd (all_mem hva hdotmem) (by decide)
  rw [if_neg (by
    rw [show intLit ('-' :: (natToDigits ip ++ '.' :: fp.map fun i => digitChar i.val)) =
        if ('-' : Char) = '-' then
          !(natToDigits ip ++ '.' :: fp.map fun i => digitChar i.val).isEmpty &&
            (natToDigits ip ++ '.' :: fp.map fun i => digitChar i.val).all isDigitCh
        else ('-' :: (natToDigits ip ++ '.' :: fp.map fun i => digitChar i.val)).all isDigitCh
        from rfl]
    rw [if_pos rfl, hallfalse]
    simp)]
  have hsign : (if ('-' :: (natToDigits ip ++ '.' :: fp.map fun i => digitChar i.val)).head? =
      some '-' then ('-' :: (natToDigits ip ++ '.' :: fp.map fun i => digitChar i.val)).tail
      else '-' :: (natToDigits ip ++ '.' :: fp.map fun i => digitChar i.val)) =
      natToDigits ip ++ '.' :: fp.map fun i => digitChar i.val := by
    rw [if_pos (by simp), List.tail_cons]
  have hdw : (natToDigits ip ++ '.' :: fp.map fun i => digitChar i.val).dropWhile isDigitCh =
      '.' :: fp.map fun i => digitChar i.val := by
    rw [dropWhile_append_all hall, List.dropWhile_cons, if_neg (by decide)]
  have htw : (natToDigits ip ++ '.' :: fp.map fun i => digitChar i.val).takeWhile isDigitCh =
      natToDigits ip := by
    rw [takeWhile_append_all hall, List.takeWhile_cons, if_neg (by decide), List.append_nil]
  rw [if_pos (by
    unfold floatLit
    simp only
    rw [hsign, hdw, htw]
    rw [if_pos (show ('.' :: fp.map fun i => digitChar i.val).head? = some '.' from rfl)]
    simp only [List.tail_cons, Bool.and_eq_true, Bool.not_eq_true', List.isEmpty_iff]
    refine ⟨⟨?_, ?_⟩, hFall⟩
    · cases h : natToDigits ip with
      | nil => exact absurd h (natToDigits_ne_nil ip)
      | cons a t => rfl
    · simpa using hfpne)]
  unfold parseFloatVal
  simp only
  rw [hsign, hdw, htw]
  simp only [List.head?_cons, List.tail_cons]
  rw [map_charToFin_digitChar, strip_eq_self hcanon, digitsToNat_natToDigits]
  have hfpempty : fp.isEmpty = false := by simpa [List.isEmpty_iff] using hfpne
  rw [hfpempty]
  simp

end D1

namespace D1

theorem word_ne {c e : Char} (hc : isWordChar c = true) (he : isWordChar e = false) : c ≠ e :=
  fun h => by subst h; rw [hc] at he; exact absurd he (by simp)

theorem word_of_digit {c : Char} (hc : isDigitCh c = true) : isWordChar c = true := by
  simp only [isDigitCh, Bool.and_eq_true, decide_eq_true_eq] at hc
  simp only [isWordChar, Bool.or_eq_true, Bool.and_eq_true, decide_eq_true_eq]
  tauto

theorem head_word_of_takeWhile {s : List Char}
    (h : ¬ (s.takeWhile isWordChar).isEmpty = true) :
    ∃ c t, s = c :: t ∧ isWordChar c = true := by
  cases s with
  | nil => simp [List.takeWhile_nil] at h
  | cons c t =>
    refine ⟨c, t, rfl, ?_⟩
    by_contra hc
    simp only [Bool.not_eq_true] at hc
    rw [List.takeWhile_cons, if_neg (by simp [hc])] at h
    simp at h

theorem mem_of_mem_dropWhile {p : Char → Bool} {c : Char} :
    ∀ {l : List Char}, c ∈ l.dropWhile p → c ∈ l := by
  intro l
  induction l with
  | nil => simp
  | cons a t ih =>
    rw [List.dropWhile_cons]
    by_cases hp : p a = true
    · rw [if_pos hp]
      intro h
      exact List.mem_cons_of_mem _ (ih h)
    · rw [if_neg hp]
      exact id

theorem mem_of_head?_eq {l : List Char} {c : Char} (h : l.head? = some c) : c ∈ l := by
  cases l with
  | nil => simp at h
  | cons a t =>
    simp only [List.head?_cons, Option.some.injEq] at h
    rw [← h]; exact List.mem_cons_self _ _

theorem dropWhile_digit_no_dot :
    ∀ {s : List Char}, (s.dropWhile isWordChar).head? = some '(' →
      ¬ ((s.dropWhile isDigitCh).head? = some '.') := by
  intro s
  induction s with
  | nil => simp
  | cons c t ih =>
    intro hw hd
    by_cases hcw : isWordChar c = true
    · rw [List.dropWhile_cons, if_pos hcw] at hw
      by_cases hcd : isDigitCh c = true
      · rw [List.dropWhile_cons, if_pos hcd] at hd
        exact ih hw hd
      · rw [List.dropWhile_cons, if_neg hcd, List.head?_cons] at hd
        simp only [Option.some.injEq] at hd
        exact word_ne hcw (by decide) hd
    · rw [List.dropWhile_cons, if_neg hcw, List.head?_cons] at hw
      simp only [Option.some.injEq] at hw
      subst hw
      rw [List.dropWhile_cons, if_neg (by decide)] at hd
      simp at hd

/-- A function-call-like token is passed through as a string. -/
theorem parse_raw_funcCall {s : List Char} (hfc : funcCallLit s = true)
    (htr : jsTrim s = s) :
    MetadataParser.parseDefaultValue s = .vStr s := by
  have hfc0 := hfc
  unfold funcCallLit at hfc
  simp only [Bool.and_eq_true, Bool.not_eq_true', List.isEmpty_eq_false,
    decide_eq_true_eq] at hfc
  obtain ⟨hwne, hpar⟩ := hfc
  obtain ⟨c, t, rfl, hcw⟩ := head_word_of_takeWhile (by
    intro h
    rw [List.isEmpty_iff] at h
    exact hwne h)
  have hparmem : '(' ∈ c :: t := mem_of_mem_dropWhile (mem_of_head?_eq hpar)
  rw [parseDefaultValue_of_trim htr]
  rw [if_neg (by
    intro h
    have hmem := List.mem_map_of_mem upChar hparmem
    rw [h] at hmem
    rw [show upChar '(' = '(' from rfl] at hmem
    rw [show ("NULL".data) = ['N', 'U', 'L', 'L'] from by decide] at hmem
    simp at hmem)]
  rw [if_neg (by
    simp only [List.head?_cons, Bool.or_eq_true, Bool.and_eq_true, decide_eq_true_eq,
      Option.some.injEq]
    push_neg
    exact ⟨fun h => absurd h (word_ne hcw (by decide)),
      fun h => absurd h (word_ne hcw (by decide))⟩)]
  rw [if_neg (by
    rw [show intLit (c :: t) =
        if c = '-' then !t.isEmpty && t.all isDigitCh else (c :: t).all isDigitCh
        from rfl]
    rw [if_neg (word_ne hcw (by decide) : ¬ c = '-')]
    intro hva
    exact absurd (all_mem hva hparmem) (by decide))]
  have hflf : floatLit (c :: t) = false := by
    unfold floatLit
    simp only
    rw [if_neg (show ¬ ((c :: t).head? = some '-') from by
      simp only [List.head?_cons, Option.some.injEq]
      exact word_ne hcw (by decide))]
    rw [if_neg (dropWhile_digit_no_dot hpar)]
  rw [if_neg (by rw [hflf]; simp)]
  rw [if_neg (by
    simp only [Bool.or_eq_true, decide_eq_true_eq]
    push_neg
    constructor
    · intro h
      rw [h] at hparmem
      simp at hparmem
    · intro h
      rw [h] at hparmem
      simp at hparmem)]
  rw [if_pos hfc0]

end D1

namespace D1

/-- C2 (counterexample): a boolean default does not survive the round trip —
`normalizeDefault(true)` is the text `1`, and `parseDefaultValue("1")` takes
the integer branch (which precedes the boolean branch) and returns the number
1, not the boolean true. -/
theorem claim2_counterexample :
    MetadataParser.parseDefaultValue (D1QueryRunner.normalizeDefault (.vBool true)) =
      .vNum ⟨false, 1, []⟩ ∧
    JSVal.vNum ⟨false, 1, []⟩ ≠ JSVal.vBool true := by
  decide

/-- C2 (amended): composing `normalizeDefault` then `parseDefaultValue`
reproduces null, strings (including embedded single quotes), integers, and
decimals (numbers modelled as canonical exact decimals below 10^21), and a
function-call-like token is passed through as its literal text; a boolean
`b`, however, comes back as the *number* 1 or 0, because the integer branch
of `parseDefaultValue` matches `"1"`/`"0"` before the boolean branch can. -/
theorem claim2_defaultRoundTrip :
    (MetadataParser.parseDefaultValue (D1QueryRunner.normalizeDefault .vNull) = .vNull) ∧
    (∀ s, MetadataParser.parseDefaultValue (D1QueryRunner.normalizeDefault (.vStr s)) =
      .vStr s) ∧
    (∀ d : DecNum, d.ip < 10 ^ 21 → (d.neg = true → ¬ (d.ip = 0 ∧ d.fp = [])) →
      d.fp.getLast? ≠ some 0 →
      MetadataParser.parseDefaultValue (D1QueryRunner.normalizeDefault (.vNum d)) =
        .vNum d) ∧
    (∀ b, MetadataParser.parseDefaultValue (D1QueryRunner.normalizeDefault (.vBool b)) =
      .vNum ⟨false, if b then 1 else 0, []⟩) ∧
    (∀ s, funcCallLit s = true → jsTrim s = s →
      MetadataParser.parseDefaultValue (D1QueryRunner.normalizeDefault (.vRaw s)) =
        .vStr s) := by
  refine ⟨by decide, parse_normalize_str, ?_, ?_, ?_⟩
  · rintro ⟨neg, ip, fp⟩ _ hneg hcanon
    cases neg with
    | false =>
      cases fp with
      | nil =>
        rw [show D1QueryRunner.normalizeDefault (.vNum ⟨false, ip, []⟩) = natToDigits ip
          from by simp [D1QueryRunner.normalizeDefault, numToChars]]
        exact parse_digits ip
      | cons f ft =>
        rw [show D1QueryRunner.normalizeDefault (.vNum ⟨false, ip, f :: ft⟩) =
            natToDigits ip ++ '.' :: (f :: ft).map (fun i => digitChar i.val)
          from by simp [D1QueryRunner.normalizeDefault, numToChars]]
        exact parse_float_pos ip (by simp) hcanon
    | true =>
      cases fp with
      | nil =>
        have hip : ip ≠ 0 := by
          intro h0
          exact hneg rfl ⟨h0, rfl⟩
        rw [show D1QueryRunner.normalizeDefault (.vNum ⟨true, ip, []⟩) =
            '-' :: natToDigits ip
          from by simp [D1QueryRunner.normalizeDefault, numToChars]]
        exact parse_neg_digits hip
      | cons f ft =>
        rw [show D1QueryRunner.normalizeDefault (.vNum ⟨true, ip, f :: ft⟩) =
            '-' :: (natToDigits ip ++ '.' :: (f :: ft).map (fun i => digitChar i.val))
          from by simp [D1QueryRunner.normalizeDefault, numToChars]]
        exact parse_float_neg ip (by simp) hcanon
  · intro b
    cases b <;> decide
  · intro s hfc htr
    exact parse_raw_funcCall hfc htr

/-- Witness for C2's amended theorem at `-3.14` and `datetime(now)`. -/
theorem claim2_witness :
    MetadataParser.parseDefaultValue (D1QueryRunner.normalizeDefault
      (.vNum ⟨true, 3, [1, 4]⟩)) = .vNum ⟨true, 3, [1, 4]⟩ ∧
    MetadataParser.parseDefaultValue (D1QueryRunner.normalizeDefault
      (.vRaw ("datetime(now)".data))) = .vStr ("datetime(now)".data) :=
  ⟨claim2_defaultRoundTrip.2.2.1 ⟨true, 3, [1, 4]⟩ (by norm_num) (by decide) (by decide),
   claim2_defaultRoundTrip.2.2.2.2 ("datetime(now)".data) (by decide) (by decide)⟩

end D1

namespace D1

/-! ### CREATE TABLE generation (D1QueryRunner.buildCreateTableSql and
buildCreateColumnSql) -/

/-- TypeORM `TableColumn`, reduced to the fields the generator and parser
use.  `generationStrategy = none` models the JS-falsy (`undefined`) strategy. -/
structure TableColumn where
  name : List Char
  type : List Char
  isPrimary : Bool
  isUnique : Bool
  isNullable : Bool
  isGenerated : Bool
  generationStrategy : Option (List Char)
  default : Option JSVal
deriving DecidableEq

/-- TypeORM `Table`, reduced to name and columns. -/
structure Table where
  name : List Char
  columns : List TableColumn
deriving DecidableEq

namespace D1QueryRunner

/-- `name.replace(/"/g, )` doubling every double quote. -/
def escapeDoubleQuotes : List Char → List Char
  | [] => []
  | c :: r => if c = '"' then '"' :: '"' :: escapeDoubleQuotes r else c :: escapeDoubleQuotes r

/-- `D1QueryRunner.escape`: wrap in double quotes, doubling embedded ones. -/
def escape (name : List Char) : List Char :=
  '"' :: escapeDoubleQuotes name ++ ['"']

/-- The `typeMap` lookup of `D1QueryRunner.normalizeType`. -/
def typeMapLookup (t : List Char) : Option (List Char) :=
  if t = "int".data then some ("INTEGER".data)
  else if t = "integer".data then some ("INTEGER".data)
  else if t = "bigint".data then some ("INTEGER".data)
  else if t = "smallint".data then some ("INTEGER".data)
  else if t = "tinyint".data then some ("INTEGER".data)
  else if t = "float".data then some ("REAL".data)
  else if t = "double".data then some ("REAL".data)
  else if t = "real".data then some ("REAL".data)
  else if t = "decimal".data then some ("REAL".data)
  else if t = "numeric".data then some ("REAL".data)
  else if t = "boolean".data then some ("INTEGER".data)
  else if t = "bool".data then some ("INTEGER".data)
  else if t = "text".data then some ("TEXT".data)
  else if t = "string".data then some ("TEXT".data)
  else if t = "varchar".data then some ("TEXT".data)
  else if t = "char".data then some ("TEXT".data)
  else if t = "blob".data then some ("BLOB".data)
  else if t = "date".data then some ("TEXT".data)
  else if t = "datetime".data then some ("TEXT".data)
  else if t = "timestamp".data then some ("TEXT".data)
  else if t = "time".data then some ("TEXT".data)
  else none

/-- `D1QueryRunner.normalizeType` on a bare type string: map the lowercased
logical type through `typeMap`, else pass the type through uppercased. -/
def normalizeTypeStr (ty : List Char) : List Char :=
  match typeMapLookup (ty.map lowChar) with
  | some mapped => mapped
  | none => ty.map upChar

/-- `D1QueryRunner.normalizeType` (only reads `column.type`). -/
def normalizeType (column : TableColumn) : List Char :=
  normalizeTypeStr column.type

/-- The `UNIQUE` fragment appended for unique non-primary columns. -/
def uniqueSuffix (column : TableColumn) : List Char :=
  if (column.isUnique && !column.isPrimary) = true then (" UNIQUE".data) else []

/-- The `NOT NULL` fragment appended for non-nullable non-primary columns. -/
def notNullSuffix (column : TableColumn) : List Char :=
  if (!column.isNullable && !column.isPrimary) = true then (" NOT NULL".data) else []

/-- The `DEFAULT ...` fragment: appended when the default is neither null nor
undefined and the column is not an increment-generated one. -/
def defaultSuffix (column : TableColumn) : List Char :=
  match column.default with
  | some v =>
    if v = JSVal.vNull then []
    else if (column.isGenerated &&
        decide (column.generationStrategy = some ("increment".data))) = true then []
    else (" DEFAULT ".data) ++ normalizeDefault v
  | none => []

/-- `D1QueryRunner.buildCreateColumnSql`. -/
def buildCreateColumnSql (column : TableColumn) (isCompositePrimary : Bool) : List Char :=
  let type := normalizeType column
  let sql1 :=
    if (column.isPrimary && column.isGenerated &&
        decide (column.generationStrategy = some ("increment".data)) &&
        !isCompositePrimary) = true then
      if type = "INTEGER".data then
        escape column.name ++ (" INTEGER PRIMARY KEY AUTOINCREMENT".data)
      else
        escape column.name ++ ' ' :: type ++ (" PRIMARY KEY".data)
    else if (column.isPrimary && decide (column.generationStrategy = none) &&
        !isCompositePrimary) = true then
      escape column.name ++ ' ' :: type ++ (" PRIMARY KEY".data)
    else
      escape column.name ++ ' ' :: type
  sql1 ++ uniqueSuffix column ++ notNullSuffix column ++ defaultSuffix column

/-- `D1QueryRunner.buildCreateTableSql` (the `ifNotExist` argument is ignored:
the generator always emits `IF NOT EXISTS`). -/
def buildCreateTableSql (table : Table) (ifNotExist : Bool) : List Char :=
  let primaryKeys := table.columns.filter fun col => col.isPrimary
  let isCompositePrimary := decide (primaryKeys.length > 1)
  let columns := List.intercalate (", ".data)
    (table.columns.map fun col => buildCreateColumnSql col isCompositePrimary)
  let sql := ("CREATE TABLE IF NOT EXISTS ".data) ++ escape table.name ++
    (" (".data) ++ columns
  let sql2 :=
    if isCompositePrimary = true then
      sql ++ (", PRIMARY KEY (".data) ++
        List.intercalate (", ".data) (primaryKeys.map fun col => escape col.name) ++
        (")".data)
    else sql
  sql2 ++ (")".data)

end D1QueryRunner

end D1

namespace D1

theorem intercalate_singleton (sep x : List Char) :
    List.intercalate sep [x] = x := by
  simp [List.intercalate, List.intersperse]

theorem intercalate_cons_cons (sep x y : List Char) (zs : List (List Char)) :
    List.intercalate sep (x :: y :: zs) = x ++ sep ++ List.intercalate sep (y :: zs) := by
  simp [List.intercalate, List.intersperse]

theorem intercalate_mem_split {α : Type} (f : α → List Char) {l : List α} {x : α}
    (hx : x ∈ l) (sep : List Char) :
    ∃ pre post, List.intercalate sep (l.map f) = pre ++ f x ++ post := by
  induction l with
  | nil => simp at hx
  | cons a as ih =>
    cases as with
    | nil =>
      have : x = a := by simpa using hx
      subst this
      exact ⟨[], [], by simp [intercalate_singleton]⟩
    | cons b bs =>
      rw [List.map_cons, List.map_cons, intercalate_cons_cons, ← List.map_cons]
      rcases List.mem_cons.mp hx with rfl | hx'
      · exact ⟨[], sep ++ List.intercalate sep ((b :: bs).map f), by simp⟩
      · obtain ⟨pre, post, hsp⟩ := ih hx'
        rw [List.map_cons] at hsp
        exact ⟨f a ++ sep ++ pre, post, by rw [List.map_cons, hsp]; simp⟩

theorem containsL_of_split {hay pat : List Char} (h : ∃ pre post, hay = pre ++ pat ++ post) :
    containsL hay pat = true := by
  obtain ⟨pre, post, rfl⟩ := h
  exact containsL_of_parts _ _ _

end D1

namespace D1

namespace D1QueryRunner

theorem defaultSuffix_increment {c : TableColumn} (hg : c.isGenerated = true)
    (hs : c.generationStrategy = some ("increment".data)) : defaultSuffix c = [] := by
  unfold defaultSuffix
  cases c.default with
  | none => rfl
  | some v =>
    show (if v = JSVal.vNull then []
      else if (c.isGenerated &&
          decide (c.generationStrategy = some ("increment".data))) = true then []
      else (" DEFAULT ".data) ++ normalizeDefault v) = []
    by_cases hv : v = JSVal.vNull
    · rw [if_pos hv]
    · rw [if_neg hv, if_pos (by simp [hg, hs])]

theorem uniqueSuffix_primary {c : TableColumn} (hp : c.isPrimary = true) :
    uniqueSuffix c = [] := by
  unfold uniqueSuffix
  rw [if_neg (by simp [hp])]

theorem notNullSuffix_primary {c : TableColumn} (hp : c.isPrimary = true) :
    notNullSuffix c = [] := by
  unfold notNullSuffix
  rw [if_neg (by simp [hp])]

theorem colSql_increment_integer {c : TableColumn} (hp : c.isPrimary = true)
    (hg : c.isGenerated = true) (hs : c.generationStrategy = some ("increment".data))
    (hty : normalizeType c = "INTEGER".data) :
    buildCreateColumnSql c false =
      escape c.name ++ (" INTEGER PRIMARY KEY AUTOINCREMENT".data) := by
  unfold buildCreateColumnSql
  simp only
  rw [if_pos (by simp [hp, hg, hs]), if_pos hty,
    uniqueSuffix_primary hp, notNullSuffix_primary hp, defaultSuffix_increment hg hs]
  simp

theorem colSql_increment_other {c : TableColumn} (hp : c.isPrimary = true)
    (hg : c.isGenerated = true) (hs : c.generationStrategy = some ("increment".data))
    (hty : ¬ (normalizeType c = "INTEGER".data)) :
    buildCreateColumnSql c false =
      escape c.name ++ ' ' :: normalizeType c ++ (" PRIMARY KEY".data) := by
  unfold buildCreateColumnSql
  simp only
  rw [if_pos (by simp [hp, hg, hs]), if_neg hty,
    uniqueSuffix_primary hp, notNullSuffix_primary hp, defaultSuffix_increment hg hs]
  simp

theorem colSql_primary_nostrategy {c : TableColumn} (hp : c.isPrimary = true)
    (hs : c.generationStrategy = none) :
    buildCreateColumnSql c false =
      escape c.name ++ ' ' :: normalizeType c ++ (" PRIMARY KEY".data) ++
        defaultSuffix c := by
  unfold buildCreateColumnSql
  simp only
  rw [if_neg (by simp [hs]), if_pos (by simp [hp, hs]),
    uniqueSuffix_primary hp, notNullSuffix_primary hp]
  simp

theorem colSql_primary_no_pk {c : TableColumn} (hp : c.isPrimary = true)
    (hng : ¬ (c.isGenerated = true ∧ c.generationStrategy = some ("increment".data)))
    (hs : c.generationStrategy ≠ none) :
    buildCreateColumnSql c false =
      escape c.name ++ ' ' :: normalizeType c ++ defaultSuffix c := by
  unfold buildCreateColumnSql
  simp only
  rw [if_neg (by
    simp only [Bool.and_eq_true, decide_eq_true_eq, Bool.not_eq_true']
    rintro ⟨⟨⟨_, hg⟩, hstrat⟩, _⟩
    exact hng ⟨hg, hstrat⟩)]
  rw [if_neg (by simp [hs]), uniqueSuffix_primary hp, notNullSuffix_primary hp]
  simp

theorem colSql_composite (c : TableColumn) :
    buildCreateColumnSql c true =
      escape c.name ++ ' ' :: normalizeType c ++ uniqueSuffix c ++ notNullSuffix c ++
        defaultSuffix c := by
  unfold buildCreateColumnSql
  simp only
  rw [if_neg (by simp), if_neg (by simp)]

end D1QueryRunner

theorem filter_single_facts {t : Table} {c : TableColumn}
    (hf : t.columns.filter (fun col => col.isPrimary) = [c]) :
    c ∈ t.columns ∧ c.isPrimary = true := by
  have hmem : c ∈ t.columns.filter (fun col => col.isPrimary) := by
    rw [hf]; exact List.mem_cons_self _ _
  exact ⟨(List.mem_filter.mp hmem).1, (List.mem_filter.mp hmem).2⟩

theorem tableSql_single {t : Table} {c : TableColumn}
    (hf : t.columns.filter (fun col => col.isPrimary) = [c]) (b : Bool) :
    D1QueryRunner.buildCreateTableSql t b =
      ("CREATE TABLE IF NOT EXISTS ".data) ++ D1QueryRunner.escape t.name ++
        (" (".data) ++
        List.intercalate (", ".data)
          (t.columns.map fun col => D1QueryRunner.buildCreateColumnSql col false) ++
        (")".data) := by
  unfold D1QueryRunner.buildCreateTableSql
  simp only
  rw [hf]
  simp

theorem tableSql_composite {t : Table}
    (h : (t.columns.filter (fun col => col.isPrimary)).length > 1) (b : Bool) :
    D1QueryRunner.buildCreateTableSql t b =
      ("CREATE TABLE IF NOT EXISTS ".data) ++ D1QueryRunner.escape t.name ++
        (" (".data) ++
        List.intercalate (", ".data)
          (t.columns.map fun col => D1QueryRunner.buildCreateColumnSql col true) ++
        (", PRIMARY KEY (".data) ++
        List.intercalate (", ".data)
          ((t.columns.filter fun col => col.isPrimary).map fun col =>
            D1QueryRunner.escape col.name) ++
        (")".data) ++ (")".data) := by
  unfold D1QueryRunner.buildCreateTableSql
  simp only
  rw [if_pos (by simp [h])]
  rw [show decide ((t.columns.filter fun col => col.isPrimary).length > 1) = true
    from by simp [h]]

theorem containsL_trans {a b c : List Char} (hab : containsL a b = true)
    (hbc : containsL b c = true) : containsL a c = true := by
  obtain ⟨x, y, rfl⟩ := (containsL_iff _ _).mp hab
  obtain ⟨u, v, huv⟩ := (containsL_iff _ _).mp hbc
  exact (containsL_iff _ _).mpr ⟨x ++ u, v ++ y, by rw [huv]; simp⟩

theorem tableSql_contains_frag {t : Table} {c : TableColumn}
    (hf : t.columns.filter (fun col => col.isPrimary) = [c]) (b : Bool) :
    containsL (D1QueryRunner.buildCreateTableSql t b)
      (D1QueryRunner.buildCreateColumnSql c false) = true := by
  rw [tableSql_single hf b]
  obtain ⟨hmem, _⟩ := filter_single_facts hf
  obtain ⟨pre, post, hsp⟩ :=
    intercalate_mem_split (fun col => D1QueryRunner.buildCreateColumnSql col false)
      hmem (", ".data)
  apply containsL_of_split
  refine ⟨("CREATE TABLE IF NOT EXISTS ".data) ++ D1QueryRunner.escape t.name ++
    (" (".data) ++ pre, post ++ (")".data), ?_⟩
  rw [hsp]
  simp

end D1

namespace D1

/-- C9 (counterexample): a table whose single primary-key column has the
`uuid` generation strategy gets *no* inline `PRIMARY KEY` at all — neither
generator branch fires, contradicting the claim that every other single
primary-key column becomes `<type> PRIMARY KEY`. -/
theorem claim9_counterexample :
    ((Table.mk ("t".data)
      [⟨"id".data, "text".data, true, false, false, true, some ("uuid".data),
        none⟩]).columns.filter (fun col => col.isPrimary)).length = 1 ∧
    containsL
      (D1QueryRunner.buildCreateTableSql
        ⟨"t".data, [⟨"id".data, "text".data, true, false, false, true,
          some ("uuid".data), none⟩]⟩ false)
      ("PRIMARY KEY".data) = false := by
  decide

/-- C9 (amended): for a table with exactly one primary-key column `c`: when
`c` is increment-generated and its type maps to INTEGER the column SQL is
`"name" INTEGER PRIMARY KEY AUTOINCREMENT` (and the table SQL contains that
text); when `c` is increment-generated of another type, or has no generation
strategy, the column SQL is `"name" <type> PRIMARY KEY` (plus any default
clause); but a single primary-key column with a *different* generation
strategy (e.g. uuid) gets no inline PRIMARY KEY.  For a composite primary
key no inline PRIMARY KEY is emitted for any column and a trailing
table-level `PRIMARY KEY (...)` clause lists all primary columns. -/
theorem claim9_primaryKeySql (t : Table) (c : TableColumn) (b : Bool) :
    (t.columns.filter (fun col => col.isPrimary) = [c] →
      (c.isGenerated = true → c.generationStrategy = some ("increment".data) →
        D1QueryRunner.normalizeType c = "INTEGER".data →
        D1QueryRunner.buildCreateColumnSql c false =
          D1QueryRunner.escape c.name ++ (" INTEGER PRIMARY KEY AUTOINCREMENT".data) ∧
        containsL (D1QueryRunner.buildCreateTableSql t b)
          ("INTEGER PRIMARY KEY AUTOINCREMENT".data) = true) ∧
      (c.isGenerated = true → c.generationStrategy = some ("increment".data) →
        ¬ (D1QueryRunner.normalizeType c = "INTEGER".data) →
        D1QueryRunner.buildCreateColumnSql c false =
          D1QueryRunner.escape c.name ++ ' ' :: D1QueryRunner.normalizeType c ++
            (" PRIMARY KEY".data) ∧
        containsL (D1QueryRunner.buildCreateTableSql t b) (" PRIMARY KEY".data) = true) ∧
      (c.generationStrategy = none →
        D1QueryRunner.buildCreateColumnSql c false =
          D1QueryRunner.escape c.name ++ ' ' :: D1QueryRunner.normalizeType c ++
            (" PRIMARY KEY".data) ++ D1QueryRunner.defaultSuffix c ∧
        containsL (D1QueryRunner.buildCreateTableSql t b) (" PRIMARY KEY".data) = true) ∧
      (¬ (c.isGenerated = true ∧ c.generationStrategy = some ("increment".data)) →
        c.generationStrategy ≠ none →
        D1QueryRunner.buildCreateColumnSql c false =
          D1QueryRunner.escape c.name ++ ' ' :: D1QueryRunner.normalizeType c ++
            D1QueryRunner.defaultSuffix c)) ∧
    ((t.columns.filter (fun col => col.isPrimary)).length > 1 →
      (∀ col ∈ t.columns, D1QueryRunner.buildCreateColumnSql col true =
        D1QueryRunner.escape col.name ++ ' ' :: D1QueryRunner.normalizeType col ++
          D1QueryRunner.uniqueSuffix col ++ D1QueryRunner.notNullSuffix col ++
          D1QueryRunner.defaultSuffix col) ∧
      D1QueryRunner.buildCreateTableSql t b =
        ("CREATE TABLE IF NOT EXISTS ".data) ++ D1QueryRunner.escape t.name ++
          (" (".data) ++
          List.intercalate (", ".data)
            (t.columns.map fun col => D1QueryRunner.buildCreateColumnSql col true) ++
          (", PRIMARY KEY (".data) ++
          List.intercalate (", ".data)
            ((t.columns.filter fun col => col.isPrimary).map fun col =>
              D1QueryRunner.escape col.name) ++
          (")".data) ++ (")".data)) := by
  constructor
  · intro hf
    obtain ⟨hmem, hp⟩ := filter_single_facts hf
    refine ⟨?_, ?_, ?_, ?_⟩
    · intro hg hs hty
      have hcol := D1QueryRunner.colSql_increment_integer hp hg hs hty
      refine ⟨hcol, ?_⟩
      apply containsL_trans (tableSql_contains_frag hf b)
      rw [hcol]
      apply containsL_of_split
      refine ⟨D1QueryRunner.escape c.name ++ [' '], [], ?_⟩
      rw [show (" INTEGER PRIMARY KEY AUTOINCREMENT".data) =
        ' ' :: ("INTEGER PRIMARY KEY AUTOINCREMENT".data) from by decide]
      simp
    · intro hg hs hty
      have hcol := D1QueryRunner.colSql_increment_other hp hg hs hty
      refine ⟨hcol, ?_⟩
      apply containsL_trans (tableSql_contains_frag hf b)
      rw [hcol]
      exact containsL_of_split
        ⟨D1QueryRunner.escape c.name ++ ' ' :: D1QueryRunner.normalizeType c, [], by simp⟩
    · intro hs
      have hcol := D1QueryRunner.colSql_primary_nostrategy hp hs
      refine ⟨hcol, ?_⟩
      apply containsL_trans (tableSql_contains_frag hf b)
      rw [hcol]
      exact containsL_of_split
        ⟨D1QueryRunner.escape c.name ++ ' ' :: D1QueryRunner.normalizeType c,
          D1QueryRunner.defaultSuffix c, by simp⟩
    · intro hng hs
      exact D1QueryRunner.colSql_primary_no_pk hp hng hs
  · intro hcomp
    exact ⟨fun col _ => D1QueryRunner.colSql_composite col, tableSql_composite hcomp b⟩

/-- Witness for C9 at a single increment-generated integer primary key. -/
theorem claim9_witness :
    containsL
      (D1QueryRunner.buildCreateTableSql
        ⟨"users".data, [⟨"id".data, "int".data, true, false, false, true,
          some ("increment".data), none⟩]⟩ false)
      ("INTEGER PRIMARY KEY AUTOINCREMENT".data) = true :=
  (((claim9_primaryKeySql
      ⟨"users".data, [⟨"id".data, "int".data, true, false, false, true,
        some ("increment".data), none⟩]⟩
      ⟨"id".data, "int".data, true, false, false, true,
        some ("increment".data), none⟩ false).1
    (by decide)).1 rfl (by decide) (by decide)).2

end D1

namespace D1

/-! ### MetadataParser (src/utils/metadata-parser.ts), with explicit models
of its regular expressions -/

/-- Consume at least one whitespace character, greedily (`\s+`). -/
def wsPlus (l : List Char) : Option (List Char) :=
  match l with
  | c :: r => if isWsChar c then some (r.dropWhile isWsChar) else none
  | [] => none

namespace MetadataParser

/-- Model of `sql.replace(/^CREATE\s+TABLE\s+(IF\s+NOT\s+EXISTS\s+)?/i, "")`:
strip the matched prefix when the anchored pattern matches, else return the
input unchanged.  The `\s+` runs are greedy; the optional group is attempted
in full and dropped when it fails. -/
def stripCreateTablePrefix (sql : List Char) : List Char :=
  let core : Option (List Char) := do
    let r1 ← matchCI ("CREATE".data) sql
    let r2 ← wsPlus r1
    let r3 ← matchCI ("TABLE".data) r2
    let r4 ← wsPlus r3
    let opt : Option (List Char) := do
      let a1 ← matchCI ("IF".data) r4
      let a2 ← wsPlus a1
      let a3 ← matchCI ("NOT".data) a2
      let a4 ← wsPlus a3
      let a5 ← matchCI ("EXISTS".data) a4
      wsPlus a5
    pure (opt.getD r4)
  core.getD sql

/-- Model of the greedy `\((.+)\)` trailer: the group is everything strictly
between the `(` already consumed and the last `)` of the input, and must be
nonempty. -/
def lastParenSplit (l : List Char) : Option (List Char) :=
  match l.reverse.dropWhile (fun c => decide (c ≠ ')')) with
  | _ :: rest => if rest.isEmpty then none else some rest.reverse
  | [] => none

/-- `\s*\((.+)\)`. -/
def wsStarThenParen (l : List Char) : Option (List Char) :=
  let l2 := l.dropWhile isWsChar
  if l2.head? = some '(' then lastParenSplit l2.tail else none

/-- `"?\s*\((.+)\)` — prefer consuming the optional quote, then fall back. -/
def tableTailMatch (l : List Char) : Option (List Char) :=
  if l.head? = some '"' then (wsStarThenParen l.tail) <|> (wsStarThenParen l)
  else wsStarThenParen l

/-- The lazy group `(.+?)`: find the shortest nonempty prefix whose remainder
satisfies the tail matcher, returning (group, tail result). -/
def scanName (tail : List Char → Option (List Char)) :
    List Char → Option (List Char × List Char)
  | [] => none
  | c :: rest =>
    match tail rest with
    | some g2 => some ([c], g2)
    | none =>
      match scanName tail rest with
      | some (g1, g2) => some (c :: g1, g2)
      | none => none

/-- Model of `normalizedSql.match(/^"?(.+?)"?\s*\((.+)\)/s)`: returns
(table-name group, column-definitions group). -/
def parseTableMatch (s : List Char) : Option (List Char × List Char) :=
  if s.head? = some '"' then
    (scanName tableTailMatch s.tail) <|> (scanName tableTailMatch s)
  else scanName tableTailMatch s

/-- `\s+(\w+)` — at least one whitespace then a maximal nonempty word. -/
def wsPlusWord (m : List Char) : Option (List Char) :=
  match m with
  | c :: r =>
    if isWsChar c then
      (if (r.dropWhile isWsChar).takeWhile isWordChar = [] then none
       else some ((r.dropWhile isWsChar).takeWhile isWordChar))
    else none
  | [] => none

/-- `"?\s+(\w+)`. -/
def colTailMatch (l : List Char) : Option (List Char) :=
  if l.head? = some '"' then (wsPlusWord l.tail) <|> (wsPlusWord l)
  else wsPlusWord l

/-- Model of `definition.match(/^"?(.+?)"?\s+(\w+)/)`: returns (name group,
declared-type word). -/
def parseColNameMatch (s : List Char) : Option (List Char × List Char) :=
  if s.head? = some '"' then
    (scanName colTailMatch s.tail) <|> (scanName colTailMatch s)
  else scanName colTailMatch s

/-- `match[1].replace(/"/g, "")`. -/
def removeQuotes (l : List Char) : List Char :=
  l.filter fun c => decide (c ≠ '"')

/-- Case-insensitive substring test (`/PAT/i.test`). -/
def testCI (pat : List Char) : List Char → Bool
  | [] => (matchCI pat []).isSome
  | c :: rest => (matchCI pat (c :: rest)).isSome || testCI pat rest

/-- Anchored `PAT1\s+PAT2` match attempt. -/
def matchWordsWs (pat1 pat2 : List Char) (l : List Char) : Bool :=
  match matchCI pat1 l with
  | some r =>
    match r with
    | c :: r2 =>
      if isWsChar c then (matchCI pat2 (r2.dropWhile isWsChar)).isSome else false
    | [] => false
  | none => false

/-- `/PAT1\s+PAT2/i.test` (used for `PRIMARY\s+KEY` and `NOT\s+NULL`). -/
def testWsPattern (pat1 pat2 : List Char) : List Char → Bool
  | [] => matchWordsWs pat1 pat2 []
  | c :: rest => matchWordsWs pat1 pat2 (c :: rest) || testWsPattern pat1 pat2 rest

/-- Anchored attempt of `DEFAULT\s+(.+?)(?:\s|$)`: greedy `\s+`, then the
shortest nonempty token up to the next whitespace or the end; when the rest
is all whitespace the `\s+` backtracks to leave one character for the group. -/
def defaultTokenAt (l : List Char) : Option (List Char) :=
  match matchCI ("DEFAULT".data) l with
  | some r =>
    match r with
    | c :: r2 =>
      if isWsChar c then
        (if (r2.dropWhile isWsChar).isEmpty then
          (match r2.getLast? with
           | some w => some [w]
           | none => none)
         else some ((r2.dropWhile isWsChar).takeWhile fun x => !isWsChar x))
      else none
    | [] => none
  | none => none

/-- Leftmost match of `/DEFAULT\s+(.+?)(?:\s|$)/i`, returning the token. -/
def defaultMatch : List Char → Option (List Char)
  | [] => defaultTokenAt []
  | c :: rest => (defaultTokenAt (c :: rest)) <|> defaultMatch rest

/-- `MetadataParser.normalizeType` (SQLite type back to a TypeORM type). -/
def msNormalizeType (sqliteType : List Char) : List Char :=
  let u := sqliteType.map upChar
  if u = "INTEGER".data then "int".data
  else if u = "REAL".data then "float".data
  else if u = "TEXT".data then "text".data
  else if u = "BLOB".data then "blob".data
  else if u = "NUMERIC".data then "numeric".data
  else sqliteType.map lowChar

/-- `MetadataParser.parseColumnDefinition`. -/
def parseColumnDefinition (definition : List Char) : Option TableColumn :=
  match parseColNameMatch definition with
  | none => none
  | some (g1, typeWord) =>
    let columnName := removeQuotes g1
    let type := typeWord.map upChar
    let isPrimary := testWsPattern ("PRIMARY".data) ("KEY".data) definition
    let isUnique := testCI ("UNIQUE".data) definition && !isPrimary
    let isNullable := !(testWsPattern ("NOT".data) ("NULL".data) definition)
    let isGenerated := testCI ("AUTOINCREMENT".data) definition
    some ⟨columnName, msNormalizeType type, isPrimary, isUnique, isNullable,
      isGenerated,
      if isGenerated then some ("increment".data) else none,
      (defaultMatch definition).map parseDefaultValue⟩

/-- `MetadataParser.splitColumnDefinitions` (depth-tracking comma split). -/
def splitCD : List Char → List Char → ℤ → List (List Char)
  | [], current, _ => if jsTrim current = [] then [] else [jsTrim current]
  | c :: rest, current, depth =>
    if c = '(' then splitCD rest (current ++ [c]) (depth + 1)
    else if c = ')' then splitCD rest (current ++ [c]) (depth - 1)
    else if c = ',' ∧ depth = 0 then jsTrim current :: splitCD rest [] 0
    else splitCD rest (current ++ [c]) depth

/-- `MetadataParser.splitColumnDefinitions` entry point. -/
def splitColumnDefinitions (definitions : List Char) : List (List Char) :=
  splitCD definitions [] 0

/-- `MetadataParser.parseColumns`: split, drop table-level constraints,
parse each remaining fragment. -/
def parseColumns (columnDefinitions : List Char) : List TableColumn :=
  (splitColumnDefinitions columnDefinitions).filterMap fun part =>
    let trimmed := jsTrim part
    if isPrefixL ("PRIMARY KEY".data) (trimmed.map upChar) ||
        isPrefixL ("FOREIGN KEY".data) (trimmed.map upChar) ||
        isPrefixL ("UNIQUE".data) (trimmed.map upChar) ||
        isPrefixL ("CHECK".data) (trimmed.map upChar) then none
    else parseColumnDefinition trimmed

/-- `MetadataParser.parseTableSql`: strip the CREATE TABLE prefix, match the
outer regex, parse the columns (indices and foreign keys are always left
empty by the source). -/
def parseTableSql (sql : List Char) (tableName : List Char) : Except (List Char) Table :=
  match parseTableMatch (jsTrim (stripCreateTablePrefix sql)) with
  | none => .error ("Invalid CREATE TABLE SQL".data)
  | some (g1, g2) => .ok ⟨removeQuotes g1, parseColumns g2⟩

end MetadataParser

end D1

namespace D1

/-- C1 (counterexample): a single-column non-nullable primary key does not
round-trip: the generator emits `"id" INTEGER PRIMARY KEY` with no
`NOT NULL` (primary columns skip it), so the parser reconstructs the column
as nullable although the input metadata said `isNullable = false`. -/
theorem claim1_counterexample :
    (MetadataParser.parseTableSql
        (D1QueryRunner.buildCreateTableSql
          ⟨"t".data, [⟨"id".data, "int".data, true, false, false, false, none, none⟩]⟩
          false)
        ("t".data)).toOption.map (fun tb => tb.columns.map fun c => c.isNullable) =
      some [true] ∧
    (Table.mk ("t".data)
      [⟨"id".data, "int".data, true, false, false, false, none, none⟩]).columns.map
        (fun c => c.isNullable) = [false] := by
  decide

end D1

namespace D1

/-! ### Occurrence reasoning for the parser's regex tests -/

theorem ws_not_word {c : Char} (h : isWsChar c = true) : isWordChar c = false := by
  simp only [isWsChar, Bool.or_eq_true, decide_eq_true_eq] at h
  rcases h with ((((h | h) | h) | h) | h) | h <;> subst h <;> decide

theorem word_not_ws {c : Char} (h : isWordChar c = true) : isWsChar c = false := by
  by_contra hc
  simp only [Bool.not_eq_false] at hc
  rw [ws_not_word hc] at h
  exact absurd h (by simp)

theorem up_mem {c : Char} {m p : List Char} (hc : c ∈ m) (hm : m.map upChar = p) :
    upChar c ∈ p := by
  rw [← hm]
  exact List.mem_map_of_mem upChar hc

theorem mem_takeWhile_ws : ∀ {l : List Char} {c : Char},
    c ∈ l.takeWhile isWsChar → isWsChar c = true := by
  intro l
  induction l with
  | nil => intro c h; simp at h
  | cons a t ih =>
    intro c h
    rw [List.takeWhile_cons] at h
    by_cases ha : isWsChar a = true
    · rw [if_pos ha] at h
      rcases List.mem_cons.mp h with rfl | h'
      · exact ha
      · exact ih h'
    · rw [if_neg ha] at h
      simp at h

/-- Peeling a head character that cannot start the occurrence. -/
theorem cons_occurs_of_head {p b : List Char} {s : Char}
    (hpne : p ≠ []) (hh : p.head? ≠ some s)
    (h : ∃ x y, s :: b = x ++ p ++ y) : ∃ x y, b = x ++ p ++ y := by
  obtain ⟨x, y, hxy⟩ := h
  cases x with
  | nil =>
    cases p with
    | nil => exact absurd rfl hpne
    | cons q ps =>
      simp only [List.nil_append, List.cons_append, List.cons.injEq] at hxy
      exact absurd (by simp [hxy.1.symm] : (q :: ps).head? = some s) hh
  | cons u x' =>
    simp only [List.cons_append, List.cons.injEq] at hxy
    exact ⟨x', y, hxy.2⟩

/-- Peeling a separator character absent from the occurrence. -/
theorem append_cons_occurs {p a b : List Char} {s : Char} (hs : s ∉ p) :
    (∃ x y, a ++ s :: b = x ++ p ++ y) →
    (∃ x y, a = x ++ p ++ y) ∨ (∃ x y, b = x ++ p ++ y) := by
  induction a with
  | nil =>
    rintro ⟨x, y, hxy⟩
    cases x with
    | nil =>
      cases p with
      | nil => exact Or.inl ⟨[], [], rfl⟩
      | cons q ps =>
        simp only [List.nil_append, List.cons_append, List.cons.injEq] at hxy
        exact absurd (by rw [hxy.1]; exact List.mem_cons_self _ _) hs
    | cons u x' =>
      simp only [List.nil_append, List.cons_append, List.cons.injEq] at hxy
      exact Or.inr ⟨x', y, hxy.2⟩
  | cons c a' ih =>
    rintro ⟨x, y, hxy⟩
    cases x with
    | nil =>
      cases p with
      | nil => exact Or.inl ⟨[], c :: a', rfl⟩
      | cons q ps =>
        simp only [List.nil_append, List.cons_append, List.cons.injEq] at hxy
        rcases List.append_eq_append_iff.mp hxy.2 with ⟨a2, hps, hsb⟩ | ⟨c2, ha', hy⟩
        · cases a2 with
          | nil =>
            refine Or.inl ⟨[], [], ?_⟩
            simp [hxy.1, hps]
          | cons d tl =>
            simp only [List.cons_append, List.cons.injEq] at hsb
            refine absurd ?_ hs
            rw [hsb.1]
            exact List.mem_cons_of_mem _
              (by rw [hps]; exact List.mem_append_right a' (List.mem_cons_self d tl))
        · refine Or.inl ⟨[], c2, ?_⟩
          simp [hxy.1, ha']
    | cons u x' =>
      simp only [List.cons_append, List.cons.injEq] at hxy
      rcases ih ⟨x', y, hxy.2⟩ with ⟨x2, y2, h2⟩ | h2
      · exact Or.inl ⟨c :: x2, y2, by simp [h2]⟩
      · exact Or.inr h2

/-- An occurrence in a concatenation is in the left part, in the right part,
or spans the boundary. -/
theorem append_occurs_cases {p a b : List Char} :
    (∃ x y, a ++ b = x ++ p ++ y) →
    (∃ x y, a = x ++ p ++ y) ∨ (∃ x y, b = x ++ p ++ y) ∨
    (∃ q1 q2, p = q1 ++ q2 ∧ q1 ≠ [] ∧ q2 ≠ [] ∧
      (∃ x, a = x ++ q1) ∧ ∃ y, b = q2 ++ y) := by
  induction a with
  | nil => rintro ⟨x, y, hxy⟩; exact Or.inr (Or.inl ⟨x, y, hxy⟩)
  | cons c a' ih =>
    rintro ⟨x, y, hxy⟩
    cases x with
    | nil =>
      cases p with
      | nil => exact Or.inl ⟨[], c :: a', rfl⟩
      | cons q ps =>
        simp only [List.nil_append, List.cons_append, List.cons.injEq] at hxy
        rcases List.append_eq_append_iff.mp hxy.2 with ⟨a2, hps, hb⟩ | ⟨c2, ha', hy⟩
        · cases a2 with
          | nil =>
            refine Or.inl ⟨[], [], ?_⟩
            simp [hxy.1, hps]
          | cons d tl =>
            refine Or.inr (Or.inr ⟨c :: a', d :: tl, ?_, by simp, by simp, ⟨[], rfl⟩,
              ⟨y, hb⟩⟩)
            simp [hxy.1, hps]
        · refine Or.inl ⟨[], c2, ?_⟩
          simp [hxy.1, ha']
    | cons u x' =>
      simp only [List.cons_append, List.cons.injEq] at hxy
      rcases ih ⟨x', y, hxy.2⟩ with ⟨x2, y2, h2⟩ | h2 | h2
      · exact Or.inl ⟨c :: x2, y2, by simp [h2]⟩
      · exact Or.inr (Or.inl h2)
      · obtain ⟨q1, q2, hp, h1, h2', ⟨x3, hx3⟩, hy⟩ := h2
        exact Or.inr (Or.inr ⟨q1, q2, hp, h1, h2', ⟨c :: x3, by simp [hx3]⟩, hy⟩)

end D1

namespace D1

namespace MetadataParser

/-- `/PAT/i.test` succeeds exactly on a case-insensitive occurrence. -/
theorem testCI_iff (pat l : List Char) :
    testCI pat l = true ↔ ∃ x m y, l = x ++ m ++ y ∧ m.map upChar = pat := by
  induction l with
  | nil =>
    simp only [testCI]
    constructor
    · intro h
      obtain ⟨r, hr⟩ := Option.isSome_iff_exists.mp h
      obtain ⟨m, hm, hmap⟩ := (matchCI_iff _ _ _).mp hr
      exact ⟨[], m, r, by simpa using hm, hmap⟩
    · rintro ⟨x, m, y, hl, hmap⟩
      have h2 : x ++ m ++ y = [] := hl.symm
      rw [List.append_eq_nil] at h2
      obtain ⟨h3, _⟩ := h2
      rw [List.append_eq_nil] at h3
      rw [h3.2] at hmap
      simp only [List.map_nil] at hmap
      rw [← hmap]
      rfl
  | cons c rest ih =>
    simp only [testCI, Bool.or_eq_true]
    constructor
    · rintro (h | h)
      · obtain ⟨r, hr⟩ := Option.isSome_iff_exists.mp h
        obtain ⟨m, hm, hmap⟩ := (matchCI_iff _ _ _).mp hr
        exact ⟨[], m, r, by simpa using hm, hmap⟩
      · obtain ⟨x, m, y, hl, hmap⟩ := ih.mp h
        exact ⟨c :: x, m, y, by simp [hl], hmap⟩
    · rintro ⟨x, m, y, hl, hmap⟩
      cases x with
      | nil =>
        refine Or.inl ?_
        rw [show c :: rest = m ++ y from by simpa using hl]
        rw [(matchCI_iff _ _ _).mpr ⟨m, rfl, hmap⟩]
        rfl
      | cons a x' =>
        simp only [List.cons_append, List.cons.injEq] at hl
        exact Or.inr (ih.mpr ⟨x', m, y, hl.2, hmap⟩)

theorem testCI_of_decomp (x m y : List Char) {pat l : List Char} (hl : l = x ++ m ++ y)
    (hm : m.map upChar = pat) : testCI pat l = true :=
  (testCI_iff pat l).mpr ⟨x, m, y, hl, hm⟩

theorem head_ws_false {p : List Char} {d : Char} (hd : p.head? = some d)
    (hws : isWsChar d = false) : ∀ c, p.head? = some c → isWsChar c = false := by
  intro c hc
  rw [hd] at hc
  injection hc with h
  rw [← h]
  exact hws

/-- Successful anchored `PAT1\s+PAT2` match, decomposed. -/
theorem matchWordsWs_ex {p1 p2 l : List Char} (h : matchWordsWs p1 p2 l = true) :
    ∃ m1 w m2 y, l = m1 ++ (w ++ (m2 ++ y)) ∧ m1.map upChar = p1 ∧ w ≠ [] ∧
      (∀ c ∈ w, isWsChar c = true) ∧ m2.map upChar = p2 := by
  unfold matchWordsWs at h
  cases hm : matchCI p1 l with
  | none => rw [hm] at h; exact absurd h (by simp)
  | some r =>
    rw [hm] at h
    cases r with
    | nil => exact absurd h (by simp)
    | cons c r2 =>
      simp only [] at h
      by_cases hc : isWsChar c = true
      · rw [if_pos hc] at h
        obtain ⟨yy, hy⟩ := Option.isSome_iff_exists.mp h
        obtain ⟨m2, hd, hm2⟩ := (matchCI_iff _ _ _).mp hy
        obtain ⟨m1, hl, hm1⟩ := (matchCI_iff _ _ _).mp hm
        refine ⟨m1, c :: r2.takeWhile isWsChar, m2, yy, ?_, hm1, by simp, ?_, hm2⟩
        · rw [hl]
          congr 1
          rw [List.cons_append]
          congr 1
          rw [← hd, List.takeWhile_append_dropWhile]
        · intro x hx
          rcases List.mem_cons.mp hx with rfl | hx'
          · exact hc
          · exact mem_takeWhile_ws hx'
      · rw [if_neg hc] at h
        exact absurd h (by simp)

/-- Anchored `PAT1\s+PAT2` match from an explicit decomposition. -/
theorem matchWordsWs_of_decomp (p1 p2 m1 w m2 y : List Char)
    (hm1 : m1.map upChar = p1) (hw : w ≠ []) (hws : ∀ c ∈ w, isWsChar c = true)
    (hm2 : m2.map upChar = p2) (hp2h : ∀ c, p2.head? = some c → isWsChar c = false) :
    matchWordsWs p1 p2 (m1 ++ (w ++ (m2 ++ y))) = true := by
  have h1 : matchCI p1 (m1 ++ (w ++ (m2 ++ y))) = some (w ++ (m2 ++ y)) :=
    (matchCI_iff _ _ _).mpr ⟨m1, rfl, hm1⟩
  unfold matchWordsWs
  rw [h1]
  cases w with
  | nil => exact absurd rfl hw
  | cons w0 wt =>
    have hw0 : isWsChar w0 = true := hws w0 (List.mem_cons_self _ _)
    show (if isWsChar w0 = true then
        (matchCI p2 ((wt ++ (m2 ++ y)).dropWhile isWsChar)).isSome else false) = true
    rw [if_pos hw0]
    have hwt : (wt ++ (m2 ++ y)).dropWhile isWsChar = (m2 ++ y).dropWhile isWsChar :=
      dropWhile_append_all (List.all_eq_true.mpr fun c hc => hws c (List.mem_cons_of_mem _ hc)) _
    rw [hwt]
    cases m2 with
    | nil =>
      have hp2 : p2 = [] := by simpa using hm2.symm
      subst hp2
      rfl
    | cons a tl =>
      have hd : p2.head? = some (upChar a) := by rw [← hm2]; rfl
      have ha : isWsChar a = false := not_ws_of_upChar rfl (hp2h _ hd)
      have hdrop : ((a :: tl) ++ y).dropWhile isWsChar = (a :: tl) ++ y := by
        apply dropWhile_eq_self_of_head
        intro c hc
        simp only [List.cons_append, List.head?_cons, Option.some.injEq] at hc
        rw [← hc]
        exact ha
      rw [hdrop, (matchCI_iff _ _ _).mpr ⟨a :: tl, rfl, hm2⟩]
      rfl

theorem testWsPattern_of_head {p1 p2 l : List Char} (h : matchWordsWs p1 p2 l = true) :
    testWsPattern p1 p2 l = true := by
  cases l with
  | nil => exact h
  | cons c rest => simp [testWsPattern, h]

theorem testWsPattern_of_decomp (p1 p2 x m1 w m2 y : List Char)
    (hm1 : m1.map upChar = p1) (hw : w ≠ []) (hws : ∀ c ∈ w, isWsChar c = true)
    (hm2 : m2.map upChar = p2) (hp2h : ∀ c, p2.head? = some c → isWsChar c = false)
    {l : List Char} (hl : l = x ++ (m1 ++ (w ++ (m2 ++ y)))) :
    testWsPattern p1 p2 l = true := by
  subst hl
  induction x with
  | nil => exact testWsPattern_of_head (matchWordsWs_of_decomp p1 p2 m1 w m2 y hm1 hw hws hm2 hp2h)
  | cons a x' ih => simp [testWsPattern, ih]

/-- `/PAT1\s+PAT2/i.test` succeeds only on an explicit occurrence. -/
theorem testWsPattern_ex {p1 p2 l : List Char} (h : testWsPattern p1 p2 l = true) :
    ∃ x m1 w m2 y, l = x ++ (m1 ++ (w ++ (m2 ++ y))) ∧ m1.map upChar = p1 ∧ w ≠ [] ∧
      (∀ c ∈ w, isWsChar c = true) ∧ m2.map upChar = p2 := by
  induction l with
  | nil =>
    obtain ⟨m1, w, m2, y, hl, hm1, hw, hws, hm2⟩ := matchWordsWs_ex h
    exact ⟨[], m1, w, m2, y, hl, hm1, hw, hws, hm2⟩
  | cons c rest ih =>
    have h2 : (matchWordsWs p1 p2 (c :: rest) || testWsPattern p1 p2 rest) = true := h
    rcases (by simpa using h2 :
        matchWordsWs p1 p2 (c :: rest) = true ∨ testWsPattern p1 p2 rest = true) with h3 | h3
    · obtain ⟨m1, w, m2, y, hl, hm1, hw, hws, hm2⟩ := matchWordsWs_ex h3
      exact ⟨[], m1, w, m2, y, hl, hm1, hw, hws, hm2⟩
    · obtain ⟨x, m1, w, m2, y, hl, hm1, hw, hws, hm2⟩ := ih h3
      exact ⟨c :: x, m1, w, m2, y, by simp [hl], hm1, hw, hws, hm2⟩

end MetadataParser

end D1

namespace D1

namespace MetadataParser

/-- The shape of every column fragment the generator emits for a
double-quote-free column name: `"name" FAM<suffix>`. -/
def colFrag (name fam suffix : List Char) : List Char :=
  '"' :: (name ++ ('"' :: (' ' :: (fam ++ suffix))))

/-- A case-insensitive pattern without quotes and spaces cannot occur in a
generated fragment unless it occurs in the name, the type or the suffix. -/
theorem testCI_absent {p : List Char} (name fam suffix : List Char)
    (hpne : p ≠ []) (hpq : '"' ∉ p) (hpsp : ' ' ∉ p)
    (hname : testCI p name = false)
    (hfamCI : testCI p fam = false)
    (hsufCI : testCI p suffix = false)
    (hsufhead : suffix = [] ∨ suffix.head? = some ' ') :
    testCI p (colFrag name fam suffix) = false := by
  by_contra hcon
  rw [Bool.not_eq_false] at hcon
  obtain ⟨x, m, y, hl, hmap⟩ := (testCI_iff _ _).mp hcon
  have hql : '"' ∉ m := fun hq =>
    hpq (by have := up_mem hq hmap; rwa [show upChar '"' = '"' from by decide] at this)
  have hspl : ' ' ∉ m := fun hsp =>
    hpsp (by have := up_mem hsp hmap; rwa [show upChar ' ' = ' ' from by decide] at this)
  obtain ⟨m0, mt, rfl⟩ : ∃ m0 mt, m = m0 :: mt := by
    cases m with
    | nil => exact absurd hmap.symm hpne
    | cons m0 mt => exact ⟨m0, mt, rfl⟩
  have hmne : (m0 :: mt : List Char) ≠ [] := by simp
  have hh1 : (m0 :: mt).head? ≠ some '"' := by
    intro h0
    injection h0 with h0'
    exact hql (h0' ▸ List.mem_cons_self _ _)
  have hh2 : (m0 :: mt).head? ≠ some ' ' := by
    intro h0
    injection h0 with h0'
    exact hspl (h0' ▸ List.mem_cons_self _ _)
  have hocc1 : ∃ x y, name ++ ('"' :: (' ' :: (fam ++ suffix))) = x ++ (m0 :: mt) ++ y :=
    cons_occurs_of_head hmne hh1 ⟨x, y, hl⟩
  rcases append_cons_occurs hql hocc1 with ⟨x1, y1, h1⟩ | hocc2
  · exact absurd (testCI_of_decomp x1 (m0 :: mt) y1 h1 hmap) (by simp [hname])
  have hocc3 : ∃ x y, fam ++ suffix = x ++ (m0 :: mt) ++ y :=
    cons_occurs_of_head hmne hh2 hocc2
  rcases append_occurs_cases hocc3 with ⟨x2, y2, h2⟩ | ⟨x2, y2, h2⟩ | hspan
  · exact absurd (testCI_of_decomp x2 (m0 :: mt) y2 h2 hmap) (by simp [hfamCI])
  · exact absurd (testCI_of_decomp x2 (m0 :: mt) y2 h2 hmap) (by simp [hsufCI])
  · obtain ⟨q1, q2, hq12, hq1ne, hq2ne, ⟨x3, hx3⟩, ⟨y3, hy3⟩⟩ := hspan
    have hsufne : suffix ≠ [] := by
      intro h0
      rw [h0] at hy3
      exact hq2ne (List.append_eq_nil.mp hy3.symm).1
    obtain ⟨a, t2, rfl⟩ : ∃ a t2, q2 = a :: t2 := by
      cases q2 with
      | nil => exact absurd rfl hq2ne
      | cons a t2 => exact ⟨a, t2, rfl⟩
    have hhead : suffix.head? = some a := by rw [hy3]; rfl
    have ha : a = ' ' := by
      rcases hsufhead with h0 | h0
      · exact absurd h0 hsufne
      · rw [h0] at hhead; injection hhead with h0'; exact h0'.symm
    refine hspl ?_
    rw [hq12, ← ha]
    exact List.mem_append_right q1 (List.mem_cons_self _ _)

/-- `/PAT1\s+PAT2/i` cannot match a generated fragment when PAT2 does not
occur in the suffix: the whitespace inside the match excludes the name and
the type, which consist of word characters. -/
theorem testWsPattern_absent {p1 p2 : List Char} (name fam suffix : List Char)
    (hp1ne : p1 ≠ []) (hp1q : '"' ∉ p1) (hp1sp : ' ' ∉ p1) (hp2q : '"' ∉ p2)
    (hname : ∀ c ∈ name, isWordChar c = true)
    (hfam : ∀ c ∈ fam, isWordChar c = true)
    (hsufp2 : testCI p2 suffix = false) :
    testWsPattern p1 p2 (colFrag name fam suffix) = false := by
  by_contra hcon
  rw [Bool.not_eq_false] at hcon
  obtain ⟨x, m1, w, m2, y, hl, hm1, hwne, hws, hm2⟩ := testWsPattern_ex hcon
  obtain ⟨w0, wt, rfl⟩ : ∃ w0 wt, w = w0 :: wt := by
    cases w with
    | nil => exact absurd rfl hwne
    | cons w0 wt => exact ⟨w0, wt, rfl⟩
  have hw0 : isWsChar w0 = true := hws w0 (List.mem_cons_self _ _)
  obtain ⟨m10, m1t, rfl⟩ : ∃ a t1, m1 = a :: t1 := by
    cases m1 with
    | nil => exact absurd hm1.symm hp1ne
    | cons a t1 => exact ⟨a, t1, rfl⟩
  -- package the whole match as one occurrence
  have hP : colFrag name fam suffix =
      x ++ (m10 :: (m1t ++ ((w0 :: wt) ++ m2))) ++ y := by
    rw [hl]; simp [List.append_assoc]
  have hq1 : '"' ∉ (m10 :: m1t) := fun hq =>
    hp1q (by have := up_mem hq hm1; rwa [show upChar '"' = '"' from by decide] at this)
  have hsp1 : ' ' ∉ (m10 :: m1t) := fun hsp =>
    hp1sp (by have := up_mem hsp hm1; rwa [show upChar ' ' = ' ' from by decide] at this)
  have hq2m : '"' ∉ m2 := fun hq =>
    hp2q (by have := up_mem hq hm2; rwa [show upChar '"' = '"' from by decide] at this)
  have hqP : '"' ∉ (m10 :: (m1t ++ ((w0 :: wt) ++ m2))) := by
    intro hq
    rcases List.mem_cons.mp hq with h0 | h0
    · exact hq1 (h0 ▸ List.mem_cons_self _ _)
    rcases List.mem_append.mp h0 with h0 | h0
    · exact hq1 (List.mem_cons_of_mem _ h0)
    rcases List.mem_append.mp h0 with h0 | h0
    · have := hws _ h0
      exact absurd this (by decide)
    · exact hq2m h0
  have hPne : (m10 :: (m1t ++ ((w0 :: wt) ++ m2)) : List Char) ≠ [] := by simp
  have hh1 : (m10 :: (m1t ++ ((w0 :: wt) ++ m2))).head? ≠ some '"' := by
    intro h0
    injection h0 with h0'
    exact hq1 (h0' ▸ List.mem_cons_self _ _)
  have hh2 : (m10 :: (m1t ++ ((w0 :: wt) ++ m2))).head? ≠ some ' ' := by
    intro h0
    injection h0 with h0'
    exact hsp1 (h0' ▸ List.mem_cons_self _ _)
  have hw0P : w0 ∈ (m10 :: (m1t ++ ((w0 :: wt) ++ m2))) :=
    List.mem_cons_of_mem _
      (List.mem_append_right m1t (List.mem_append_left m2 (List.mem_cons_self _ _)))
  have hocc1 := cons_occurs_of_head hPne hh1 ⟨x, y, hP⟩
  rcases append_cons_occurs hqP hocc1 with ⟨x1, y1, h1⟩ | hocc2
  · have : w0 ∈ name := by
      rw [h1]
      exact List.mem_append_left y1 (List.mem_append_right x1 hw0P)
    exact absurd (hname w0 this) (by simp [ws_not_word hw0])
  have hocc3 := cons_occurs_of_head hPne hh2 hocc2
  rcases append_occurs_cases hocc3 with ⟨x2, y2, h2⟩ | ⟨x2, y2, h2⟩ | hspan
  · have : w0 ∈ fam := by
      rw [h2]
      exact List.mem_append_left y2 (List.mem_append_right x2 hw0P)
    exact absurd (hfam w0 this) (by simp [ws_not_word hw0])
  · have hEq : suffix = (x2 ++ (m10 :: (m1t ++ (w0 :: wt)))) ++ m2 ++ y2 := by
      rw [h2]; simp [List.append_assoc]
    exact absurd (testCI_of_decomp _ m2 y2 hEq hm2) (by simp [hsufp2])
  · obtain ⟨q1, q2, hq12, hq1ne, hq2ne, ⟨x3, hx3⟩, ⟨y3, hy3⟩⟩ := hspan
    have hq12' : q1 ++ q2 = (m10 :: m1t) ++ ((w0 :: wt) ++ m2) := by
      rw [← hq12]
      rfl
    rcases List.append_eq_append_iff.mp hq12' with ⟨a2, hc, hb⟩ | ⟨c2, ha, hd⟩
    · have hEq : suffix = (a2 ++ (w0 :: wt)) ++ m2 ++ y3 := by
        rw [hy3, hb]; simp [List.append_assoc]
      exact absurd (testCI_of_decomp _ m2 y3 hEq hm2) (by simp [hsufp2])
    · cases c2 with
      | nil =>
        simp only [List.nil_append] at hd
        have hEq : suffix = (w0 :: wt) ++ m2 ++ y3 := by
          rw [hy3, ← hd]
        exact absurd (testCI_of_decomp _ m2 y3 hEq hm2) (by simp [hsufp2])
      | cons d t2 =>
        have hdw : d = w0 := by
          have := congrArg List.head? hd
          simp only [List.cons_append, List.head?_cons, Option.some.injEq] at this
          exact this.symm
        have hdfam : d ∈ fam := by
          rw [hx3, ha]
          exact List.mem_append_right x3
            (List.mem_append_right (m10 :: m1t) (List.mem_cons_self _ _))
        rw [hdw] at hdfam
        exact absurd (hfam w0 hdfam) (by simp [ws_not_word hw0])

end MetadataParser

end D1

namespace D1

namespace MetadataParser

/-- The anchored `DEFAULT\s+` attempt fails when no occurrence of DEFAULT is
followed by a whitespace character. -/
theorem defaultTokenAt_none {l : List Char}
    (h : ∀ x m c y, l = x ++ m ++ (c :: y) → m.map upChar = ("DEFAULT".data) →
      isWsChar c = false) : defaultTokenAt l = none := by
  unfold defaultTokenAt
  cases hm : matchCI ("DEFAULT".data) l with
  | none => rfl
  | some r =>
    cases r with
    | nil => rfl
    | cons c r2 =>
      obtain ⟨m, hl, hmap⟩ := (matchCI_iff _ _ _).mp hm
      have hc : isWsChar c = false := h [] m c r2 (by simpa using hl) hmap
      show (if isWsChar c = true then
          (if (r2.dropWhile isWsChar).isEmpty = true then
            (match r2.getLast? with
             | some w => some [w]
             | none => none)
           else some ((r2.dropWhile isWsChar).takeWhile fun x => !isWsChar x))
        else none) = none
      rw [if_neg (by simp [hc])]

/-- `defaultMatch` finds nothing when no occurrence of DEFAULT is followed by
whitespace. -/
theorem defaultMatch_none : ∀ {l : List Char},
    (∀ x m c y, l = x ++ m ++ (c :: y) → m.map upChar = ("DEFAULT".data) →
      isWsChar c = false) → defaultMatch l = none := by
  intro l
  induction l with
  | nil => intro _; rfl
  | cons a rest ih =>
    intro h
    show ((defaultTokenAt (a :: rest)) <|> defaultMatch rest) = none
    rw [defaultTokenAt_none h, ih ?_]
    · rfl
    · intro x m c y hl hmap
      exact h (a :: x) m c y (by rw [hl]; rfl) hmap

/-- No DEFAULT clause is detected in a generated fragment whose type and
suffix are DEFAULT-free. -/
theorem defaultMatch_frag_none (name fam suffix : List Char)
    (hname : ∀ c ∈ name, isWordChar c = true)
    (hfam : ∀ c ∈ fam, isWordChar c = true)
    (hfamD : testCI ("DEFAULT".data) fam = false)
    (hsufD : testCI ("DEFAULT".data) suffix = false)
    (hsufhead : suffix = [] ∨ suffix.head? = some ' ') :
    defaultMatch (colFrag name fam suffix) = none := by
  apply defaultMatch_none
  intro x m c y hl hmap
  by_contra hcws
  rw [Bool.not_eq_false] at hcws
  obtain ⟨m0, mt, rfl⟩ : ∃ m0 mt, m = m0 :: mt := by
    cases m with
    | nil => exact absurd hmap (by decide)
    | cons m0 mt => exact ⟨m0, mt, rfl⟩
  have hqm : '"' ∉ (m0 :: mt) := fun hq => by
    have := up_mem hq hmap
    rw [show upChar '"' = '"' from by decide] at this
    exact absurd this (by decide)
  have hspm : ' ' ∉ (m0 :: mt) := fun hsp => by
    have := up_mem hsp hmap
    rw [show upChar ' ' = ' ' from by decide] at this
    exact absurd this (by decide)
  have hcq : ¬ c = '"' := by
    intro h0
    rw [h0] at hcws
    exact absurd hcws (by decide)
  -- the occurrence extended by the following whitespace character
  have hP : colFrag name fam suffix = x ++ (m0 :: (mt ++ [c])) ++ y := by
    rw [hl]; simp [List.append_assoc]
  have hqP : '"' ∉ (m0 :: (mt ++ [c])) := by
    intro hq
    rcases List.mem_cons.mp hq with h0 | h0
    · exact hqm (h0 ▸ List.mem_cons_self _ _)
    rcases List.mem_append.mp h0 with h0 | h0
    · exact hqm (List.mem_cons_of_mem _ h0)
    · simp only [List.mem_singleton] at h0
      exact hcq h0.symm
  have hPne : (m0 :: (mt ++ [c]) : List Char) ≠ [] := by simp
  have hh1 : (m0 :: (mt ++ [c])).head? ≠ some '"' := by
    intro h0
    injection h0 with h0'
    exact hqm (h0' ▸ List.mem_cons_self _ _)
  have hh2 : (m0 :: (mt ++ [c])).head? ≠ some ' ' := by
    intro h0
    injection h0 with h0'
    exact hspm (h0' ▸ List.mem_cons_self _ _)
  have hcP : c ∈ (m0 :: (mt ++ [c])) :=
    List.mem_cons_of_mem _ (List.mem_append_right mt (List.mem_singleton.mpr rfl))
  have hocc1 := cons_occurs_of_head hPne hh1 ⟨x, y, hP⟩
  rcases append_cons_occurs hqP hocc1 with ⟨x1, y1, h1⟩ | hocc2
  · have : c ∈ name := by
      rw [h1]
      exact List.mem_append_left y1 (List.mem_append_right x1 hcP)
    exact absurd (hname c this) (by simp [ws_not_word hcws])
  have hocc3 := cons_occurs_of_head hPne hh2 hocc2
  rcases append_occurs_cases hocc3 with ⟨x2, y2, h2⟩ | ⟨x2, y2, h2⟩ | hspan
  · have : c ∈ fam := by
      rw [h2]
      exact List.mem_append_left y2 (List.mem_append_right x2 hcP)
    exact absurd (hfam c this) (by simp [ws_not_word hcws])
  · have hEq : suffix = x2 ++ (m0 :: mt) ++ ([c] ++ y2) := by
      rw [h2]; simp [List.append_assoc]
    exact absurd (testCI_of_decomp _ (m0 :: mt) _ hEq hmap) (by simp [hsufD])
  · obtain ⟨q1, q2, hq12, hq1ne, hq2ne, ⟨x3, hx3⟩, ⟨y3, hy3⟩⟩ := hspan
    have hq12' : q1 ++ q2 = (m0 :: mt) ++ [c] := by
      rw [← hq12]
      rfl
    rcases List.append_eq_append_iff.mp hq12' with ⟨a2, hc2, hb⟩ | ⟨c2, ha, hd⟩
    · cases a2 with
      | nil =>
        rw [List.append_nil] at hc2
        have hEq : fam = x3 ++ (m0 :: mt) ++ [] := by
          rw [List.append_nil, hx3, hc2]
        exact absurd (testCI_of_decomp _ (m0 :: mt) _ hEq hmap) (by simp [hfamD])
      | cons d t2 =>
        have hsufne : suffix ≠ [] := by
          intro h0
          rw [h0] at hy3
          exact hq2ne (List.append_eq_nil.mp hy3.symm).1
        have hhead : suffix.head? = some d := by
          rw [hy3, hb]
          rfl
        have hd' : d = ' ' := by
          rcases hsufhead with h0 | h0
          · exact absurd h0 hsufne
          · rw [h0] at hhead; injection hhead with h0'; exact h0'.symm
        have hdm : d ∈ (m0 :: mt) := by
          rw [hc2]
          exact List.mem_append_right q1 (List.mem_cons_self _ _)
        rw [hd'] at hdm
        exact hspm hdm
    · cases c2 with
      | nil =>
        rw [List.append_nil] at ha
        have hEq : fam = x3 ++ (m0 :: mt) ++ [] := by
          rw [List.append_nil, hx3, ha]
        exact absurd (testCI_of_decomp _ (m0 :: mt) _ hEq hmap) (by simp [hfamD])
      | cons d t2 =>
        simp only [List.cons_append, List.cons.injEq] at hd
        have ht2 : t2 ++ q2 = [] := hd.2.symm
        exact absurd (List.append_eq_nil.mp ht2).2 hq2ne

end MetadataParser

end D1

namespace D1

namespace MetadataParser

/-- The lazy `(.+?)` scan: if the tail matcher fails after every word
character, the scan stops exactly at the end of a word-character run. -/
theorem scanName_words {tail : List Char → Option (List Char)}
    (htail : ∀ (wc : Char) (l : List Char), isWordChar wc = true → tail (wc :: l) = none) :
    ∀ {name : List Char}, name ≠ [] → (∀ c ∈ name, isWordChar c = true) →
    ∀ {rest g2 : List Char}, tail rest = some g2 →
    scanName tail (name ++ rest) = some (name, g2) := by
  intro name
  induction name with
  | nil => intro h _ _ _ _; exact absurd rfl h
  | cons c t ih =>
    intro _ hword rest g2 hrest
    cases t with
    | nil =>
      show scanName tail (c :: rest) = some ([c], g2)
      unfold scanName
      rw [hrest]
    | cons d t' =>
      have hd : isWordChar d = true := hword d (by simp)
      have hnone : tail ((d :: t') ++ rest) = none := by
        rw [List.cons_append]
        exact htail d _ hd
      have hrec : scanName tail ((d :: t') ++ rest) = some (d :: t', g2) :=
        ih (by simp) (fun c' hc' => hword c' (List.mem_cons_of_mem _ hc')) hrest
      show scanName tail (c :: ((d :: t') ++ rest)) = some (c :: d :: t', g2)
      unfold scanName
      rw [hnone, hrec]

/-- `"?\s+(\w+)` cannot match at a word character. -/
theorem colTailMatch_word (wc : Char) (l : List Char) (h : isWordChar wc = true) :
    colTailMatch (wc :: l) = none := by
  have h1 : ¬ ((wc :: l).head? = some '"') := by
    intro h0
    injection h0 with h0'
    exact word_ne h (by decide) h0'
  have h2 : wsPlusWord (wc :: l) = none := by
    show (if isWsChar wc = true then
        (if (l.dropWhile isWsChar).takeWhile isWordChar = [] then none
         else some ((l.dropWhile isWsChar).takeWhile isWordChar))
      else none) = none
    rw [if_neg (by simp [word_not_ws h])]
  unfold colTailMatch
  rw [if_neg h1, h2]

/-- `"?\s+(\w+)` at the closing quote of a generated fragment yields the
declared type word. -/
theorem colTailMatch_at (fam suffix : List Char) (hfamNe : fam ≠ [])
    (hfam : ∀ c ∈ fam, isWordChar c = true)
    (hsufhead : suffix = [] ∨ suffix.head? = some ' ') :
    colTailMatch ('"' :: (' ' :: (fam ++ suffix))) = some fam := by
  have h1 : wsPlusWord (' ' :: (fam ++ suffix)) = some fam := by
    show (if isWsChar ' ' = true then
        (if ((fam ++ suffix).dropWhile isWsChar).takeWhile isWordChar = [] then none
         else some (((fam ++ suffix).dropWhile isWsChar).takeWhile isWordChar))
      else none) = some fam
    rw [if_pos (by decide)]
    have hdrop : (fam ++ suffix).dropWhile isWsChar = fam ++ suffix := by
      apply dropWhile_eq_self_of_head
      intro c hc
      cases fam with
      | nil => exact absurd rfl hfamNe
      | cons f ft =>
        simp only [List.cons_append, List.head?_cons, Option.some.injEq] at hc
        rw [← hc]
        exact word_not_ws (hfam f (List.mem_cons_self _ _))
    rw [hdrop]
    have htake : (fam ++ suffix).takeWhile isWordChar = fam := by
      rw [takeWhile_append_all (List.all_eq_true.mpr hfam)]
      have hsuf : suffix.takeWhile isWordChar = [] := by
        rcases hsufhead with rfl | hh
        · rfl
        · cases suffix with
          | nil => rfl
          | cons s st =>
            injection hh with hh'
            rw [hh']
            rw [List.takeWhile_cons, if_neg (by decide)]
      rw [hsuf, List.append_nil]
    rw [htake, if_neg hfamNe]
  unfold colTailMatch
  rw [if_pos (show ('"' :: ' ' :: (fam ++ suffix)).head? = some '"' from rfl)]
  show ((wsPlusWord (' ' :: (fam ++ suffix))) <|>
    (wsPlusWord ('"' :: (' ' :: (fam ++ suffix))))) = some fam
  rw [h1]
  rfl

/-- The column-head regex on a generated fragment extracts the name and the
declared type. -/
theorem parseColNameMatch_frag (name fam suffix : List Char)
    (hnameNe : name ≠ []) (hname : ∀ c ∈ name, isWordChar c = true)
    (hfamNe : fam ≠ []) (hfam : ∀ c ∈ fam, isWordChar c = true)
    (hsufhead : suffix = [] ∨ suffix.head? = some ' ') :
    parseColNameMatch (colFrag name fam suffix) = some (name, fam) := by
  have h := scanName_words colTailMatch_word hnameNe hname
      (colTailMatch_at fam suffix hfamNe hfam hsufhead)
  show parseColNameMatch ('"' :: (name ++ ('"' :: (' ' :: (fam ++ suffix))))) =
    some (name, fam)
  unfold parseColNameMatch
  rw [if_pos (show ('"' :: (name ++ ('"' :: (' ' :: (fam ++ suffix))))).head? = some '"'
    from rfl)]
  show ((scanName colTailMatch (name ++ ('"' :: (' ' :: (fam ++ suffix))))) <|>
    (scanName colTailMatch ('"' :: (name ++ ('"' :: (' ' :: (fam ++ suffix))))))) =
    some (name, fam)
  rw [h]
  rfl

theorem removeQuotes_word {name : List Char} (hname : ∀ c ∈ name, isWordChar c = true) :
    removeQuotes name = name := by
  unfold removeQuotes
  apply List.filter_eq_self.mpr
  intro c hc
  simp only [decide_eq_true_eq]
  exact word_ne (hname c hc) (by decide)

/-- Parsing a generated column fragment, in terms of the four flag tests. -/
theorem parseColumnDefinition_frag (name fam suffix : List Char)
    (hnameNe : name ≠ []) (hname : ∀ c ∈ name, isWordChar c = true)
    (hfamNe : fam ≠ []) (hfam : ∀ c ∈ fam, isWordChar c = true)
    (hsufhead : suffix = [] ∨ suffix.head? = some ' ')
    {bPK bU bNN bAI : Bool}
    (hPK : testWsPattern ("PRIMARY".data) ("KEY".data) (colFrag name fam suffix) = bPK)
    (hU : testCI ("UNIQUE".data) (colFrag name fam suffix) = bU)
    (hNN : testWsPattern ("NOT".data) ("NULL".data) (colFrag name fam suffix) = bNN)
    (hAI : testCI ("AUTOINCREMENT".data) (colFrag name fam suffix) = bAI)
    (hD : defaultMatch (colFrag name fam suffix) = none) :
    parseColumnDefinition (colFrag name fam suffix) =
      some ⟨name, msNormalizeType (fam.map upChar), bPK, bU && !bPK, !bNN, bAI,
        if bAI = true then some ("increment".data) else none, none⟩ := by
  have hmatch := parseColNameMatch_frag name fam suffix hnameNe hname hfamNe hfam hsufhead
  unfold parseColumnDefinition
  rw [hmatch]
  simp only [hPK, hU, hNN, hAI, hD, removeQuotes_word hname, Option.map_none']

end MetadataParser

end D1

namespace D1

theorem isPrefixL_cons_ne {p c : Char} (ps l : List Char) (h : ¬ p = c) :
    isPrefixL (p :: ps) (c :: l) = false := by
  simp [isPrefixL, h]

namespace MetadataParser

theorem frag_getLast (name fam suffix : List Char) (hfamNe : fam ≠ []) :
    (colFrag name fam suffix).getLast? = (fam ++ suffix).getLast? := by
  show ('"' :: (name ++ ('"' :: (' ' :: (fam ++ suffix))))).getLast? = _
  rw [show ('"' :: (name ++ ('"' :: (' ' :: (fam ++ suffix))))) =
    (('"' :: name) ++ ['"', ' ']) ++ (fam ++ suffix) from by simp]
  rw [getLast?_append_right (by
    cases fam with
    | nil => exact absurd rfl hfamNe
    | cons f ft => simp)]

theorem frag_ne (name fam suffix : List Char) : colFrag name fam suffix ≠ [] := by
  show ('"' :: _) ≠ []
  simp

theorem frag_trim (name fam suffix : List Char) (hfamNe : fam ≠ [])
    (hfam : ∀ ch ∈ fam, isWordChar ch = true)
    (hsuf : ∀ ch, suffix.getLast? = some ch → isWsChar ch = false) :
    jsTrim (colFrag name fam suffix) = colFrag name fam suffix := by
  apply jsTrim_eq_self
  · intro c hc
    injection hc with hc'
    rw [← hc']
    decide
  · intro c hc
    rw [frag_getLast name fam suffix hfamNe] at hc
    by_cases hs : suffix = []
    · subst hs
      rw [List.append_nil] at hc
      exact word_not_ws (hfam c (mem_of_getLast?_eq hc))
    · rw [getLast?_append_right hs] at hc
      exact hsuf c hc

theorem frag_chars (name fam suffix : List Char)
    (hname : ∀ ch ∈ name, isWordChar ch = true)
    (hfam : ∀ ch ∈ fam, isWordChar ch = true)
    (hsuf : ∀ ch ∈ suffix, ¬ ch = '(' ∧ ¬ ch = ')' ∧ ¬ ch = ',') :
    ∀ ch ∈ colFrag name fam suffix, ¬ ch = '(' ∧ ¬ ch = ')' ∧ ¬ ch = ',' := by
  intro ch hch
  rcases List.mem_cons.mp hch with rfl | hch
  · exact ⟨by decide, by decide, by decide⟩
  rcases List.mem_append.mp hch with hn | hch
  · have hw := hname ch hn
    exact ⟨word_ne hw (by decide), word_ne hw (by decide), word_ne hw (by decide)⟩
  rcases List.mem_cons.mp hch with rfl | hch
  · exact ⟨by decide, by decide, by decide⟩
  rcases List.mem_cons.mp hch with rfl | hch
  · exact ⟨by decide, by decide, by decide⟩
  rcases List.mem_append.mp hch with hf | hs
  · have hw := hfam ch hf
    exact ⟨word_ne hw (by decide), word_ne hw (by decide), word_ne hw (by decide)⟩
  · exact hsuf ch hs

/-- A generated fragment starts with a quote, so none of the four
table-level-constraint prefixes can match. -/
theorem frag_skip (name fam suffix : List Char) :
    (isPrefixL ("PRIMARY KEY".data) ((colFrag name fam suffix).map upChar) ||
     isPrefixL ("FOREIGN KEY".data) ((colFrag name fam suffix).map upChar) ||
     isPrefixL ("UNIQUE".data) ((colFrag name fam suffix).map upChar) ||
     isPrefixL ("CHECK".data) ((colFrag name fam suffix).map upChar)) = false := by
  have hmap : (colFrag name fam suffix).map upChar =
      '"' :: ((name ++ ('"' :: (' ' :: (fam ++ suffix)))).map upChar) := by
    show (('"' :: (name ++ ('"' :: (' ' :: (fam ++ suffix))))).map upChar) = _
    rw [List.map_cons]
    rfl
  rw [hmap]
  rw [show ("PRIMARY KEY".data) = 'P' :: ("RIMARY KEY".data) from rfl]
  rw [show ("FOREIGN KEY".data) = 'F' :: ("OREIGN KEY".data) from rfl]
  rw [show ("UNIQUE".data) = 'U' :: ("NIQUE".data) from rfl]
  rw [show ("CHECK".data) = 'C' :: ("HECK".data) from rfl]
  rw [isPrefixL_cons_ne _ _ (by decide), isPrefixL_cons_ne _ _ (by decide),
    isPrefixL_cons_ne _ _ (by decide), isPrefixL_cons_ne _ _ (by decide)]
  rfl

end MetadataParser

namespace D1QueryRunner

theorem escapeDq_eq_self {n : List Char} (h : ∀ ch ∈ n, ¬ ch = '"') :
    escapeDoubleQuotes n = n := by
  induction n with
  | nil => rfl
  | cons c t ih =>
    show (if c = '"' then '"' :: '"' :: escapeDoubleQuotes t else c :: escapeDoubleQuotes t) =
      c :: t
    rw [if_neg (h c (List.mem_cons_self _ _)), ih (fun ch hch => h ch (List.mem_cons_of_mem _ hch))]

theorem escape_word {n : List Char} (h : ∀ ch ∈ n, isWordChar ch = true) :
    escape n = '"' :: (n ++ ['"']) := by
  unfold escape
  rw [escapeDq_eq_self (fun ch hch => word_ne (h ch hch) (by decide))]
  rfl

theorem defaultSuffix_none {c : TableColumn} (h : c.default = none) :
    defaultSuffix c = [] := by
  unfold defaultSuffix
  rw [h]

theorem colSql_nonprimary {c : TableColumn} (hp : c.isPrimary = false) :
    buildCreateColumnSql c false =
      escape c.name ++ ' ' :: normalizeType c ++ uniqueSuffix c ++ notNullSuffix c ++
        defaultSuffix c := by
  unfold buildCreateColumnSql
  simp only
  rw [if_neg (by simp [hp]), if_neg (by simp [hp])]

theorem tableSql_noncomposite {t : Table}
    (h : ¬ ((t.columns.filter fun col => col.isPrimary).length > 1)) (b : Bool) :
    buildCreateTableSql t b =
      ("CREATE TABLE IF NOT EXISTS ".data) ++ escape t.name ++ (" (".data) ++
        List.intercalate (", ".data)
          (t.columns.map fun col => buildCreateColumnSql col false) ++
        (")".data) := by
  unfold buildCreateTableSql
  simp only
  rw [decide_eq_false h]
  simp

/-- Splitting one step of an if-chain returning options. -/
theorem if_some_cases {cond : Prop} [Decidable cond] {v m : List Char}
    {rest : Option (List Char)}
    (h : (if cond then some v else rest) = some m) : m = v ∨ rest = some m := by
  by_cases hc : cond
  · rw [if_pos hc] at h
    injection h with h2
    exact Or.inl h2.symm
  · rw [if_neg hc] at h
    exact Or.inr h

/-- The mapped D1 column type families. -/
theorem mappedFam_cases {ty m : List Char} (h : typeMapLookup ty = some m) :
    m = "INTEGER".data ∨ m = "REAL".data ∨ m = "TEXT".data ∨ m = "BLOB".data := by
  unfold typeMapLookup at h
  rcases if_some_cases h with rfl | h
  · decide
  rcases if_some_cases h with rfl | h
  · decide
  rcases if_some_cases h with rfl | h
  · decide
  rcases if_some_cases h with rfl | h
  · decide
  rcases if_some_cases h with rfl | h
  · decide
  rcases if_some_cases h with rfl | h
  · decide
  rcases if_some_cases h with rfl | h
  · decide
  rcases if_some_cases h with rfl | h
  · decide
  rcases if_some_cases h with rfl | h
  · decide
  rcases if_some_cases h with rfl | h
  · decide
  rcases if_some_cases h with rfl | h
  · decide
  rcases if_some_cases h with rfl | h
  · decide
  rcases if_some_cases h with rfl | h
  · decide
  rcases if_some_cases h with rfl | h
  · decide
  rcases if_some_cases h with rfl | h
  · decide
  rcases if_some_cases h with rfl | h
  · decide
  rcases if_some_cases h with rfl | h
  · decide
  rcases if_some_cases h with rfl | h
  · decide
  rcases if_some_cases h with rfl | h
  · decide
  rcases if_some_cases h with rfl | h
  · decide
  rcases if_some_cases h with rfl | h
  · decide
  · exact absurd h (by simp)

end D1QueryRunner

theorem famFacts {fam : List Char}
    (h4 : fam = "INTEGER".data ∨ fam = "REAL".data ∨ fam = "TEXT".data ∨
      fam = "BLOB".data) :
    fam ≠ [] ∧ (∀ ch ∈ fam, isWordChar ch = true) ∧
    MetadataParser.testCI ("UNIQUE".data) fam = false ∧
    MetadataParser.testCI ("AUTOINCREMENT".data) fam = false ∧
    MetadataParser.testCI ("DEFAULT".data) fam = false := by
  rcases h4 with rfl | rfl | rfl | rfl <;> exact (by decide)

/-- Parsing sends each mapped family back to a type of the same family. -/
theorem famRound {fam : List Char}
    (h4 : fam = "INTEGER".data ∨ fam = "REAL".data ∨ fam = "TEXT".data ∨
      fam = "BLOB".data) :
    D1QueryRunner.normalizeTypeStr (MetadataParser.msNormalizeType (fam.map upChar)) =
      fam := by
  rcases h4 with rfl | rfl | rfl | rfl <;> decide

end D1

namespace D1

namespace MetadataParser

/-- Parsing the fragment of an increment-generated INTEGER primary key. -/
theorem parseCD_pk_auto (name : List Char)
    (hnameNe : name ≠ []) (hname : ∀ ch ∈ name, isWordChar ch = true)
    (hnameU : testCI ("UNIQUE".data) name = false)
    (hnameA : testCI ("AUTOINCREMENT".data) name = false) :
    parseColumnDefinition
        (colFrag name ("INTEGER".data) (" PRIMARY KEY AUTOINCREMENT".data)) =
      some ⟨name, "int".data, true, false, true, true, some ("increment".data), none⟩ := by
  have hsufh : (" PRIMARY KEY AUTOINCREMENT".data : List Char) = [] ∨
      (" PRIMARY KEY AUTOINCREMENT".data : List Char).head? = some ' ' :=
    Or.inr (by decide)
  have hfamNe : ("INTEGER".data : List Char) ≠ [] := by decide
  have hfamW : ∀ ch ∈ ("INTEGER".data : List Char), isWordChar ch = true := by decide
  have hPK : testWsPattern ("PRIMARY".data) ("KEY".data)
      (colFrag name ("INTEGER".data) (" PRIMARY KEY AUTOINCREMENT".data)) = true := by
    apply testWsPattern_of_decomp ("PRIMARY".data) ("KEY".data)
      ('"' :: (name ++ ('"' :: (' ' :: ("INTEGER".data ++ [' '])))))
      ("PRIMARY".data) [' '] ("KEY".data) (" AUTOINCREMENT".data)
      (by decide) (by decide) (by decide) (by decide)
      (head_ws_false (show ("KEY".data : List Char).head? = some 'K' from by decide)
        (by decide))
    unfold colFrag
    rw [show (" PRIMARY KEY AUTOINCREMENT".data : List Char) =
      [' '] ++ ("PRIMARY".data ++ ([' '] ++ ("KEY".data ++ (" AUTOINCREMENT".data))))
      from by decide]
    simp [List.append_assoc]
  have hU : testCI ("UNIQUE".data)
      (colFrag name ("INTEGER".data) (" PRIMARY KEY AUTOINCREMENT".data)) = false :=
    testCI_absent name ("INTEGER".data) (" PRIMARY KEY AUTOINCREMENT".data)
      (by decide) (by decide) (by decide) hnameU (by decide) (by decide) hsufh
  have hNN : testWsPattern ("NOT".data) ("NULL".data)
      (colFrag name ("INTEGER".data) (" PRIMARY KEY AUTOINCREMENT".data)) = false :=
    testWsPattern_absent name ("INTEGER".data) (" PRIMARY KEY AUTOINCREMENT".data)
      (by decide) (by decide) (by decide) (by decide) hname hfamW (by decide)
  have hAI : testCI ("AUTOINCREMENT".data)
      (colFrag name ("INTEGER".data) (" PRIMARY KEY AUTOINCREMENT".data)) = true := by
    apply testCI_of_decomp
      ('"' :: (name ++ ('"' :: (' ' :: ("INTEGER".data ++ (" PRIMARY KEY ".data))))))
      ("AUTOINCREMENT".data) []
    · unfold colFrag
      rw [show (" PRIMARY KEY AUTOINCREMENT".data : List Char) =
        (" PRIMARY KEY ".data) ++ ("AUTOINCREMENT".data ++ ([] : List Char))
        from by decide]
      simp [List.append_assoc]
    · decide
  have hD : defaultMatch
      (colFrag name ("INTEGER".data) (" PRIMARY KEY AUTOINCREMENT".data)) = none :=
    defaultMatch_frag_none name ("INTEGER".data) (" PRIMARY KEY AUTOINCREMENT".data)
      hname hfamW (by decide) (by decide) hsufh
  exact parseColumnDefinition_frag name ("INTEGER".data)
    (" PRIMARY KEY AUTOINCREMENT".data) hnameNe hname hfamNe hfamW hsufh hPK hU hNN hAI hD

/-- Parsing the fragment of a plain primary key column. -/
theorem parseCD_pk (name fam : List Char)
    (hnameNe : name ≠ []) (hname : ∀ ch ∈ name, isWordChar ch = true)
    (hnameU : testCI ("UNIQUE".data) name = false)
    (hnameA : testCI ("AUTOINCREMENT".data) name = false)
    (h4 : fam = "INTEGER".data ∨ fam = "REAL".data ∨ fam = "TEXT".data ∨
      fam = "BLOB".data) :
    parseColumnDefinition (colFrag name fam (" PRIMARY KEY".data)) =
      some ⟨name, msNormalizeType (fam.map upChar), true, false, true, false,
        none, none⟩ := by
  obtain ⟨hfamNe, hfamW, hfamU, hfamA, hfamD⟩ := famFacts h4
  have hsufh : (" PRIMARY KEY".data : List Char) = [] ∨
      (" PRIMARY KEY".data : List Char).head? = some ' ' := Or.inr (by decide)
  have hPK : testWsPattern ("PRIMARY".data) ("KEY".data)
      (colFrag name fam (" PRIMARY KEY".data)) = true := by
    apply testWsPattern_of_decomp ("PRIMARY".data) ("KEY".data)
      ('"' :: (name ++ ('"' :: (' ' :: (fam ++ [' '])))))
      ("PRIMARY".data) [' '] ("KEY".data) []
      (by decide) (by decide) (by decide) (by decide)
      (head_ws_false (show ("KEY".data : List Char).head? = some 'K' from by decide)
        (by decide))
    unfold colFrag
    rw [show (" PRIMARY KEY".data : List Char) =
      [' '] ++ ("PRIMARY".data ++ ([' '] ++ ("KEY".data ++ ([] : List Char))))
      from by decide]
    simp [List.append_assoc]
  have hU : testCI ("UNIQUE".data) (colFrag name fam (" PRIMARY KEY".data)) = false :=
    testCI_absent name fam (" PRIMARY KEY".data)
      (by decide) (by decide) (by decide) hnameU hfamU (by decide) hsufh
  have hNN : testWsPattern ("NOT".data) ("NULL".data)
      (colFrag name fam (" PRIMARY KEY".data)) = false :=
    testWsPattern_absent name fam (" PRIMARY KEY".data)
      (by decide) (by decide) (by decide) (by decide) hname hfamW (by decide)
  have hAI : testCI ("AUTOINCREMENT".data) (colFrag name fam (" PRIMARY KEY".data)) =
      false :=
    testCI_absent name fam (" PRIMARY KEY".data)
      (by decide) (by decide) (by decide) hnameA hfamA (by decide) hsufh
  have hD : defaultMatch (colFrag name fam (" PRIMARY KEY".data)) = none :=
    defaultMatch_frag_none name fam (" PRIMARY KEY".data)
      hname hfamW hfamD (by decide) hsufh
  exact parseColumnDefinition_frag name fam (" PRIMARY KEY".data)
    hnameNe hname hfamNe hfamW hsufh hPK hU hNN hAI hD

end MetadataParser

end D1

namespace D1

namespace MetadataParser

/-- Parsing the fragment of a plain (non-primary, non-unique, nullable)
column. -/
theorem parseCD_plain (name fam : List Char)
    (hnameNe : name ≠ []) (hname : ∀ ch ∈ name, isWordChar ch = true)
    (hnameU : testCI ("UNIQUE".data) name = false)
    (hnameA : testCI ("AUTOINCREMENT".data) name = false)
    (h4 : fam = "INTEGER".data ∨ fam = "REAL".data ∨ fam = "TEXT".data ∨
      fam = "BLOB".data) :
    parseColumnDefinition (colFrag name fam []) =
      some ⟨name, msNormalizeType (fam.map upChar), false, false, true, false,
        none, none⟩ := by
  obtain ⟨hfamNe, hfamW, hfamU, hfamA, hfamD⟩ := famFacts h4
  have hsufh : ([] : List Char) = [] ∨ ([] : List Char).head? = some ' ' := Or.inl rfl
  have hPK : testWsPattern ("PRIMARY".data) ("KEY".data) (colFrag name fam []) = false :=
    testWsPattern_absent name fam []
      (by decide) (by decide) (by decide) (by decide) hname hfamW (by decide)
  have hU : testCI ("UNIQUE".data) (colFrag name fam []) = false :=
    testCI_absent name fam []
      (by decide) (by decide) (by decide) hnameU hfamU (by decide) hsufh
  have hNN : testWsPattern ("NOT".data) ("NULL".data) (colFrag name fam []) = false :=
    testWsPattern_absent name fam []
      (by decide) (by decide) (by decide) (by decide) hname hfamW (by decide)
  have hAI : testCI ("AUTOINCREMENT".data) (colFrag name fam []) = false :=
    testCI_absent name fam []
      (by decide) (by decide) (by decide) hnameA hfamA (by decide) hsufh
  have hD : defaultMatch (colFrag name fam []) = none :=
    defaultMatch_frag_none name fam [] hname hfamW hfamD (by decide) hsufh
  exact parseColumnDefinition_frag name fam []
    hnameNe hname hfamNe hfamW hsufh hPK hU hNN hAI hD

/-- Parsing the fragment of a unique nullable column. -/
theorem parseCD_unique (name fam : List Char)
    (hnameNe : name ≠ []) (hname : ∀ ch ∈ name, isWordChar ch = true)
    (hnameU : testCI ("UNIQUE".data) name = false)
    (hnameA : testCI ("AUTOINCREMENT".data) name = false)
    (h4 : fam = "INTEGER".data ∨ fam = "REAL".data ∨ fam = "TEXT".data ∨
      fam = "BLOB".data) :
    parseColumnDefinition (colFrag name fam (" UNIQUE".data)) =
      some ⟨name, msNormalizeType (fam.map upChar), false, true, true, false,
        none, none⟩ := by
  obtain ⟨hfamNe, hfamW, hfamU, hfamA, hfamD⟩ := famFacts h4
  have hsufh : (" UNIQUE".data : List Char) = [] ∨
      (" UNIQUE".data : List Char).head? = some ' ' := Or.inr (by decide)
  have hPK : testWsPattern ("PRIMARY".data) ("KEY".data)
      (colFrag name fam (" UNIQUE".data)) = false :=
    testWsPattern_absent name fam (" UNIQUE".data)
      (by decide) (by decide) (by decide) (by decide) hname hfamW (by decide)
  have hU : testCI ("UNIQUE".data) (colFrag name fam (" UNIQUE".data)) = true := by
    apply testCI_of_decomp ('"' :: (name ++ ('"' :: (' ' :: (fam ++ [' '])))))
      ("UNIQUE".data) []
    · unfold colFrag
      rw [show (" UNIQUE".data : List Char) =
        [' '] ++ ("UNIQUE".data ++ ([] : List Char)) from by decide]
      simp [List.append_assoc]
    · decide
  have hNN : testWsPattern ("NOT".data) ("NULL".data)
      (colFrag name fam (" UNIQUE".data)) = false :=
    testWsPattern_absent name fam (" UNIQUE".data)
      (by decide) (by decide) (by decide) (by decide) hname hfamW (by decide)
  have hAI : testCI ("AUTOINCREMENT".data) (colFrag name fam (" UNIQUE".data)) = false :=
    testCI_absent name fam (" UNIQUE".data)
      (by decide) (by decide) (by decide) hnameA hfamA (by decide) hsufh
  have hD : defaultMatch (colFrag name fam (" UNIQUE".data)) = none :=
    defaultMatch_frag_none name fam (" UNIQUE".data) hname hfamW hfamD (by decide) hsufh
  exact parseColumnDefinition_frag name fam (" UNIQUE".data)
    hnameNe hname hfamNe hfamW hsufh hPK hU hNN hAI hD

/-- Parsing the fragment of a non-nullable column. -/
theorem parseCD_notnull (name fam : List Char)
    (hnameNe : name ≠ []) (hname : ∀ ch ∈ name, isWordChar ch = true)
    (hnameU : testCI ("UNIQUE".data) name = false)
    (hnameA : testCI ("AUTOINCREMENT".data) name = false)
    (h4 : fam = "INTEGER".data ∨ fam = "REAL".data ∨ fam = "TEXT".data ∨
      fam = "BLOB".data) :
    parseColumnDefinition (colFrag name fam (" NOT NULL".data)) =
      some ⟨name, msNormalizeType (fam.map upChar), false, false, false, false,
        none, none⟩ := by
  obtain ⟨hfamNe, hfamW, hfamU, hfamA, hfamD⟩ := famFacts h4
  have hsufh : (" NOT NULL".data : List Char) = [] ∨
      (" NOT NULL".data : List Char).head? = some ' ' := Or.inr (by decide)
  have hPK : testWsPattern ("PRIMARY".data) ("KEY".data)
      (colFrag name fam (" NOT NULL".data)) = false :=
    testWsPattern_absent name fam (" NOT NULL".data)
      (by decide) (by decide) (by decide) (by decide) hname hfamW (by decide)
  have hU : testCI ("UNIQUE".data) (colFrag name fam (" NOT NULL".data)) = false :=
    testCI_absent name fam (" NOT NULL".data)
      (by decide) (by decide) (by decide) hnameU hfamU (by decide) hsufh
  have hNN : testWsPattern ("NOT".data) ("NULL".data)
      (colFrag name fam (" NOT NULL".data)) = true := by
    apply testWsPattern_of_decomp ("NOT".data) ("NULL".data)
      ('"' :: (name ++ ('"' :: (' ' :: (fam ++ [' '])))))
      ("NOT".data) [' '] ("NULL".data) []
      (by decide) (by decide) (by decide) (by decide)
      (head_ws_false (show ("NULL".data : List Char).head? = some 'N' from by decide)
        (by decide))
    unfold colFrag
    rw [show (" NOT NULL".data : List Char) =
      [' '] ++ ("NOT".data ++ ([' '] ++ ("NULL".data ++ ([] : List Char))))
      from by decide]
    simp [List.append_assoc]
  have hAI : testCI ("AUTOINCREMENT".data) (colFrag name fam (" NOT NULL".data)) =
      false :=
    testCI_absent name fam (" NOT NULL".data)
      (by decide) (by decide) (by decide) hnameA hfamA (by decide) hsufh
  have hD : defaultMatch (colFrag name fam (" NOT NULL".data)) = none :=
    defaultMatch_frag_none name fam (" NOT NULL".data) hname hfamW hfamD (by decide) hsufh
  exact parseColumnDefinition_frag name fam (" NOT NULL".data)
    hnameNe hname hfamNe hfamW hsufh hPK hU hNN hAI hD

/-- Parsing the fragment of a unique non-nullable column. -/
theorem parseCD_unique_notnull (name fam : List Char)
    (hnameNe : name ≠ []) (hname : ∀ ch ∈ name, isWordChar ch = true)
    (hnameU : testCI ("UNIQUE".data) name = false)
    (hnameA : testCI ("AUTOINCREMENT".data) name = false)
    (h4 : fam = "INTEGER".data ∨ fam = "REAL".data ∨ fam = "TEXT".data ∨
      fam = "BLOB".data) :
    parseColumnDefinition (colFrag name fam (" UNIQUE NOT NULL".data)) =
      some ⟨name, msNormalizeType (fam.map upChar), false, true, false, false,
        none, none⟩ := by
  obtain ⟨hfamNe, hfamW, hfamU, hfamA, hfamD⟩ := famFacts h4
  have hsufh : (" UNIQUE NOT NULL".data : List Char) = [] ∨
      (" UNIQUE NOT NULL".data : List Char).head? = some ' ' := Or.inr (by decide)
  have hPK : testWsPattern ("PRIMARY".data) ("KEY".data)
      (colFrag name fam (" UNIQUE NOT NULL".data)) = false :=
    testWsPattern_absent name fam (" UNIQUE NOT NULL".data)
      (by decide) (by decide) (by decide) (by decide) hname hfamW (by decide)
  have hU : testCI ("UNIQUE".data) (colFrag name fam (" UNIQUE NOT NULL".data)) =
      true := by
    apply testCI_of_decomp ('"' :: (name ++ ('"' :: (' ' :: (fam ++ [' '])))))
      ("UNIQUE".data) (" NOT NULL".data)
    · unfold colFrag
      rw [show (" UNIQUE NOT NULL".data : List Char) =
        [' '] ++ ("UNIQUE".data ++ (" NOT NULL".data)) from by decide]
      simp [List.append_assoc]
    · decide
  have hNN : testWsPattern ("NOT".data) ("NULL".data)
      (colFrag name fam (" UNIQUE NOT NULL".data)) = true := by
    apply testWsPattern_of_decomp ("NOT".data) ("NULL".data)
      ('"' :: (name ++ ('"' :: (' ' :: (fam ++ (" UNIQUE ".data))))))
      ("NOT".data) [' '] ("NULL".data) []
      (by decide) (by decide) (by decide) (by decide)
      (head_ws_false (show ("NULL".data : List Char).head? = some 'N' from by decide)
        (by decide))
    unfold colFrag
    rw [show (" UNIQUE NOT NULL".data : List Char) =
      (" UNIQUE ".data) ++ ("NOT".data ++ ([' '] ++ ("NULL".data ++ ([] : List Char))))
      from by decide]
    simp [List.append_assoc]
  have hAI : testCI ("AUTOINCREMENT".data)
      (colFrag name fam (" UNIQUE NOT NULL".data)) = false :=
    testCI_absent name fam (" UNIQUE NOT NULL".data)
      (by decide) (by decide) (by decide) hnameA hfamA (by decide) hsufh
  have hD : defaultMatch (colFrag name fam (" UNIQUE NOT NULL".data)) = none :=
    defaultMatch_frag_none name fam (" UNIQUE NOT NULL".data)
      hname hfamW hfamD (by decide) hsufh
  exact parseColumnDefinition_frag name fam (" UNIQUE NOT NULL".data)
    hnameNe hname hfamNe hfamW hsufh hPK hU hNN hAI hD

end MetadataParser

end D1

namespace D1

theorem sufTrail_of (S : List Char) (d : Char) (hS : S.getLast? = some d)
    (hd : isWsChar d = false) : ∀ ch, S.getLast? = some ch → isWsChar ch = false := by
  intro ch h0
  rw [hS] at h0
  rw [← Option.some.inj h0]
  exact hd

/-- Technical bundle about one generated fragment: trim-invariant, nonempty,
free of split characters, not skipped as a table-level constraint, and its
parse. -/
theorem colFrag_props (name fam suffix : List Char) (pc : TableColumn)
    (hname : ∀ ch ∈ name, isWordChar ch = true)
    (hfamNe : fam ≠ []) (hfamW : ∀ ch ∈ fam, isWordChar ch = true)
    (hsufTrail : ∀ ch, suffix.getLast? = some ch → isWsChar ch = false)
    (hsufChars : ∀ ch ∈ suffix, ¬ ch = '(' ∧ ¬ ch = ')' ∧ ¬ ch = ',')
    (hparse : MetadataParser.parseColumnDefinition (MetadataParser.colFrag name fam suffix)
      = some pc) :
    jsTrim (MetadataParser.colFrag name fam suffix) =
      MetadataParser.colFrag name fam suffix ∧
    MetadataParser.colFrag name fam suffix ≠ [] ∧
    (∀ ch ∈ MetadataParser.colFrag name fam suffix,
      ¬ ch = '(' ∧ ¬ ch = ')' ∧ ¬ ch = ',') ∧
    (isPrefixL ("PRIMARY KEY".data) ((MetadataParser.colFrag name fam suffix).map upChar) ||
     isPrefixL ("FOREIGN KEY".data) ((MetadataParser.colFrag name fam suffix).map upChar) ||
     isPrefixL ("UNIQUE".data) ((MetadataParser.colFrag name fam suffix).map upChar) ||
     isPrefixL ("CHECK".data) ((MetadataParser.colFrag name fam suffix).map upChar)) =
      false ∧
    MetadataParser.parseColumnDefinition (MetadataParser.colFrag name fam suffix) =
      some pc :=
  ⟨MetadataParser.frag_trim name fam suffix hfamNe hfamW hsufTrail,
   MetadataParser.frag_ne name fam suffix,
   MetadataParser.frag_chars name fam suffix hname hfamW hsufChars,
   MetadataParser.frag_skip name fam suffix, hparse⟩

/-- Per-column round trip: the generated fragment parses back to a column
with the same name, type family, and primary flag; UNIQUE and NOT NULL
survive exactly for non-primary columns. -/
theorem buildColumn_props (c : TableColumn)
    (hnameNe : c.name ≠ []) (hname : ∀ ch ∈ c.name, isWordChar ch = true)
    (hnameU : MetadataParser.testCI ("UNIQUE".data) c.name = false)
    (hnameA : MetadataParser.testCI ("AUTOINCREMENT".data) c.name = false)
    (hmapped : (D1QueryRunner.typeMapLookup (c.type.map lowChar)).isSome = true)
    (hdef : c.default = none)
    (hpk : c.isPrimary = true → c.generationStrategy = none ∨
      (c.generationStrategy = some ("increment".data) ∧ c.isGenerated = true)) :
    ∃ pc : TableColumn,
      jsTrim (D1QueryRunner.buildCreateColumnSql c false) =
        D1QueryRunner.buildCreateColumnSql c false ∧
      D1QueryRunner.buildCreateColumnSql c false ≠ [] ∧
      (∀ ch ∈ D1QueryRunner.buildCreateColumnSql c false,
        ¬ ch = '(' ∧ ¬ ch = ')' ∧ ¬ ch = ',') ∧
      (isPrefixL ("PRIMARY KEY".data)
          ((D1QueryRunner.buildCreateColumnSql c false).map upChar) ||
       isPrefixL ("FOREIGN KEY".data)
          ((D1QueryRunner.buildCreateColumnSql c false).map upChar) ||
       isPrefixL ("UNIQUE".data)
          ((D1QueryRunner.buildCreateColumnSql c false).map upChar) ||
       isPrefixL ("CHECK".data)
          ((D1QueryRunner.buildCreateColumnSql c false).map upChar)) = false ∧
      MetadataParser.parseColumnDefinition (D1QueryRunner.buildCreateColumnSql c false) =
        some pc ∧
      pc.name = c.name ∧
      D1QueryRunner.normalizeTypeStr pc.type = D1QueryRunner.normalizeTypeStr c.type ∧
      pc.isPrimary = c.isPrimary ∧
      (c.isPrimary = false → pc.isUnique = c.isUnique ∧ pc.isNullable = c.isNullable) ∧
      (c.isPrimary = true → pc.isUnique = false ∧ pc.isNullable = true) := by
  obtain ⟨m, hm⟩ := Option.isSome_iff_exists.mp hmapped
  have hnt : D1QueryRunner.normalizeTypeStr c.type = m := by
    unfold D1QueryRunner.normalizeTypeStr
    rw [hm]
  have hnt' : D1QueryRunner.normalizeType c = m := hnt
  have h4 := D1QueryRunner.mappedFam_cases hm
  obtain ⟨hfamNe, hfamW, hfamU, hfamA, hfamD⟩ := famFacts h4
  by_cases hp : c.isPrimary = true
  · rcases hpk hp with hstrat | ⟨hstrat, hgen⟩
    · -- primary key without generation strategy
      have hfrag : D1QueryRunner.buildCreateColumnSql c false =
          MetadataParser.colFrag c.name m (" PRIMARY KEY".data) := by
        rw [D1QueryRunner.colSql_primary_nostrategy hp hstrat,
          D1QueryRunner.defaultSuffix_none hdef, List.append_nil,
          D1QueryRunner.escape_word hname, hnt']
        unfold MetadataParser.colFrag
        simp [List.append_assoc]
      have hparse := MetadataParser.parseCD_pk c.name m hnameNe hname hnameU hnameA h4
      obtain ⟨h1, h2, h3, h5, h6⟩ := colFrag_props c.name m (" PRIMARY KEY".data) _
        hname hfamNe hfamW (sufTrail_of _ 'Y' (by decide) (by decide)) (by decide) hparse
      rw [hfrag]
      refine ⟨_, h1, h2, h3, h5, h6, rfl, ?_, hp.symm, ?_, fun _ => ⟨rfl, rfl⟩⟩
      · show D1QueryRunner.normalizeTypeStr
          (MetadataParser.msNormalizeType (m.map upChar)) = _
        rw [famRound h4, hnt]
      · intro h0
        rw [hp] at h0
        exact absurd h0 (by simp)
    · -- increment-generated primary key
      by_cases hty : D1QueryRunner.normalizeType c = "INTEGER".data
      · have hfrag : D1QueryRunner.buildCreateColumnSql c false =
            MetadataParser.colFrag c.name ("INTEGER".data)
              (" PRIMARY KEY AUTOINCREMENT".data) := by
          rw [D1QueryRunner.colSql_increment_integer hp hgen hstrat hty,
            D1QueryRunner.escape_word hname]
          unfold MetadataParser.colFrag
          rw [show (" INTEGER PRIMARY KEY AUTOINCREMENT".data : List Char) =
            ' ' :: ("INTEGER".data ++ (" PRIMARY KEY AUTOINCREMENT".data)) from by decide]
          simp [List.append_assoc]
        have hmI : D1QueryRunner.normalizeTypeStr c.type = "INTEGER".data := hty
        have hparse := MetadataParser.parseCD_pk_auto c.name hnameNe hname hnameU hnameA
        obtain ⟨h1, h2, h3, h5, h6⟩ := colFrag_props c.name ("INTEGER".data)
          (" PRIMARY KEY AUTOINCREMENT".data) _
          hname (by decide) (by decide) (sufTrail_of _ 'T' (by decide) (by decide))
          (by decide) hparse
        rw [hfrag]
        refine ⟨_, h1, h2, h3, h5, h6, rfl, ?_, hp.symm, ?_, fun _ => ⟨rfl, rfl⟩⟩
        · show D1QueryRunner.normalizeTypeStr ("int".data) = _
          rw [hmI]
          decide
        · intro h0
          rw [hp] at h0
          exact absurd h0 (by simp)
      · have hfrag : D1QueryRunner.buildCreateColumnSql c false =
            MetadataParser.colFrag c.name m (" PRIMARY KEY".data) := by
          rw [D1QueryRunner.colSql_increment_other hp hgen hstrat hty,
            D1QueryRunner.escape_word hname, hnt']
          unfold MetadataParser.colFrag
          simp [List.append_assoc]
        have hparse := MetadataParser.parseCD_pk c.name m hnameNe hname hnameU hnameA h4
        obtain ⟨h1, h2, h3, h5, h6⟩ := colFrag_props c.name m (" PRIMARY KEY".data) _
          hname hfamNe hfamW (sufTrail_of _ 'Y' (by decide) (by decide)) (by decide) hparse
        rw [hfrag]
        refine ⟨_, h1, h2, h3, h5, h6, rfl, ?_, hp.symm, ?_, fun _ => ⟨rfl, rfl⟩⟩
        · show D1QueryRunner.normalizeTypeStr
            (MetadataParser.msNormalizeType (m.map upChar)) = _
          rw [famRound h4, hnt]
        · intro h0
          rw [hp] at h0
          exact absurd h0 (by simp)
  · -- non-primary column
    have hp' : c.isPrimary = false := by
      cases hcp : c.isPrimary
      · rfl
      · exact absurd hcp hp
    have hbase := D1QueryRunner.colSql_nonprimary hp'
    rw [D1QueryRunner.defaultSuffix_none hdef, List.append_nil,
      D1QueryRunner.escape_word hname, hnt'] at hbase
    cases hu : c.isUnique <;> cases hnl : c.isNullable
    · -- not unique, not nullable: NOT NULL
      rw [show D1QueryRunner.uniqueSuffix c = [] from by
          unfold D1QueryRunner.uniqueSuffix; rw [if_neg (by simp [hu])],
        show D1QueryRunner.notNullSuffix c = (" NOT NULL".data) from by
          unfold D1QueryRunner.notNullSuffix; rw [if_pos (by simp [hnl, hp'])],
        List.append_nil] at hbase
      have hfrag : D1QueryRunner.buildCreateColumnSql c false =
          MetadataParser.colFrag c.name m (" NOT NULL".data) := by
        rw [hbase]
        unfold MetadataParser.colFrag
        simp [List.append_assoc]
      have hparse := MetadataParser.parseCD_notnull c.name m hnameNe hname hnameU hnameA h4
      obtain ⟨h1, h2, h3, h5, h6⟩ := colFrag_props c.name m (" NOT NULL".data) _
        hname hfamNe hfamW (sufTrail_of _ 'L' (by decide) (by decide)) (by decide) hparse
      rw [hfrag]
      refine ⟨_, h1, h2, h3, h5, h6, rfl, ?_, hp'.symm, ?_, ?_⟩
      · show D1QueryRunner.normalizeTypeStr
          (MetadataParser.msNormalizeType (m.map upChar)) = _
        rw [famRound h4, hnt]
      · intro h0
        exact ⟨rfl, rfl⟩
      · intro h0
        rw [hp'] at h0
        exact absurd h0 (by simp)
    · -- not unique, nullable: plain
      rw [show D1QueryRunner.uniqueSuffix c = [] from by
          unfold D1QueryRunner.uniqueSuffix; rw [if_neg (by simp [hu])],
        show D1QueryRunner.notNullSuffix c = [] from by
          unfold D1QueryRunner.notNullSuffix; rw [if_neg (by simp [hnl])],
        List.append_nil, List.append_nil] at hbase
      have hfrag : D1QueryRunner.buildCreateColumnSql c false =
          MetadataParser.colFrag c.name m [] := by
        rw [hbase]
        unfold MetadataParser.colFrag
        simp [List.append_assoc]
      have hparse := MetadataParser.parseCD_plain c.name m hnameNe hname hnameU hnameA h4
      obtain ⟨h1, h2, h3, h5, h6⟩ := colFrag_props c.name m [] _
        hname hfamNe hfamW (by intro ch h0; exact absurd h0 (by simp)) (by decide) hparse
      rw [hfrag]
      refine ⟨_, h1, h2, h3, h5, h6, rfl, ?_, hp'.symm, ?_, ?_⟩
      · show D1QueryRunner.normalizeTypeStr
          (MetadataParser.msNormalizeType (m.map upChar)) = _
        rw [famRound h4, hnt]
      · intro h0
        exact ⟨rfl, rfl⟩
      · intro h0
        rw [hp'] at h0
        exact absurd h0 (by simp)
    · -- unique, not nullable: UNIQUE NOT NULL
      rw [show D1QueryRunner.uniqueSuffix c = (" UNIQUE".data) from by
          unfold D1QueryRunner.uniqueSuffix; rw [if_pos (by simp [hu, hp'])],
        show D1QueryRunner.notNullSuffix c = (" NOT NULL".data) from by
          unfold D1QueryRunner.notNullSuffix; rw [if_pos (by simp [hnl, hp'])]] at hbase
      have hfrag : D1QueryRunner.buildCreateColumnSql c false =
          MetadataParser.colFrag c.name m (" UNIQUE NOT NULL".data) := by
        rw [hbase]
        unfold MetadataParser.colFrag
        rw [show (" UNIQUE NOT NULL".data : List Char) =
          (" UNIQUE".data) ++ (" NOT NULL".data) from by decide]
        simp [List.append_assoc]
      have hparse := MetadataParser.parseCD_unique_notnull c.name m hnameNe hname hnameU
        hnameA h4
      obtain ⟨h1, h2, h3, h5, h6⟩ := colFrag_props c.name m (" UNIQUE NOT NULL".data) _
        hname hfamNe hfamW (sufTrail_of _ 'L' (by decide) (by decide)) (by decide) hparse
      rw [hfrag]
      refine ⟨_, h1, h2, h3, h5, h6, rfl, ?_, hp'.symm, ?_, ?_⟩
      · show D1QueryRunner.normalizeTypeStr
          (MetadataParser.msNormalizeType (m.map upChar)) = _
        rw [famRound h4, hnt]
      · intro h0
        exact ⟨rfl, rfl⟩
      · intro h0
        rw [hp'] at h0
        exact absurd h0 (by simp)
    · -- unique, nullable: UNIQUE
      rw [show D1QueryRunner.uniqueSuffix c = (" UNIQUE".data) from by
          unfold D1QueryRunner.uniqueSuffix; rw [if_pos (by simp [hu, hp'])],
        show D1QueryRunner.notNullSuffix c = [] from by
          unfold D1QueryRunner.notNullSuffix; rw [if_neg (by simp [hnl])],
        List.append_nil] at hbase
      have hfrag : D1QueryRunner.buildCreateColumnSql c false =
          MetadataParser.colFrag c.name m (" UNIQUE".data) := by
        rw [hbase]
        unfold MetadataParser.colFrag
        simp [List.append_assoc]
      have hparse := MetadataParser.parseCD_unique c.name m hnameNe hname hnameU hnameA h4
      obtain ⟨h1, h2, h3, h5, h6⟩ := colFrag_props c.name m (" UNIQUE".data) _
        hname hfamNe hfamW (sufTrail_of _ 'E' (by decide) (by decide)) (by decide) hparse
      rw [hfrag]
      refine ⟨_, h1, h2, h3, h5, h6, rfl, ?_, hp'.symm, ?_, ?_⟩
      · show D1QueryRunner.normalizeTypeStr
          (MetadataParser.msNormalizeType (m.map upChar)) = _
        rw [famRound h4, hnt]
      · intro h0
        exact ⟨rfl, rfl⟩
      · intro h0
        rw [hp'] at h0
        exact absurd h0 (by simp)

end D1

namespace D1

namespace MetadataParser

/-- Stripping the generated `CREATE TABLE IF NOT EXISTS ` prefix. -/
theorem stripCTP (r : List Char) :
    stripCreateTablePrefix (("CREATE TABLE IF NOT EXISTS ".data) ++ ('"' :: r)) =
      '"' :: r := rfl

theorem splitCD_nil (current : List Char) (depth : ℤ) :
    splitCD [] current depth = if jsTrim current = [] then [] else [jsTrim current] := rfl

theorem splitCD_other {c : Char} (h1 : ¬ c = '(') (h2 : ¬ c = ')') (h3 : ¬ c = ',')
    (rest current : List Char) (depth : ℤ) :
    splitCD (c :: rest) current depth = splitCD rest (current ++ [c]) depth := by
  show (if c = '(' then splitCD rest (current ++ [c]) (depth + 1)
    else if c = ')' then splitCD rest (current ++ [c]) (depth - 1)
    else if c = ',' ∧ depth = 0 then jsTrim current :: splitCD rest [] 0
    else splitCD rest (current ++ [c]) depth) = splitCD rest (current ++ [c]) depth
  rw [if_neg h1, if_neg h2, if_neg (by rintro ⟨hc, _⟩; exact h3 hc)]

theorem splitCD_comma (rest current : List Char) :
    splitCD (',' :: rest) current 0 = jsTrim current :: splitCD rest [] 0 := by
  show (if (',' : Char) = '(' then splitCD rest (current ++ [',']) ((0 : ℤ) + 1)
    else if (',' : Char) = ')' then splitCD rest (current ++ [',']) ((0 : ℤ) - 1)
    else if (',' : Char) = ',' ∧ (0 : ℤ) = 0 then jsTrim current :: splitCD rest [] 0
    else splitCD rest (current ++ [',']) 0) = jsTrim current :: splitCD rest [] 0
  rw [if_neg (by decide), if_neg (by decide), if_pos ⟨rfl, rfl⟩]

theorem splitCD_plain :
    ∀ (f : List Char), (∀ ch ∈ f, ¬ ch = '(' ∧ ¬ ch = ')' ∧ ¬ ch = ',') →
    ∀ (rest current : List Char) (depth : ℤ),
      splitCD (f ++ rest) current depth = splitCD rest (current ++ f) depth := by
  intro f
  induction f with
  | nil => intro _ rest current depth; rw [List.nil_append, List.append_nil]
  | cons c t ih =>
    intro hf rest current depth
    obtain ⟨h1, h2, h3⟩ := hf c (List.mem_cons_self _ _)
    show splitCD (c :: (t ++ rest)) current depth = splitCD rest (current ++ (c :: t)) depth
    rw [splitCD_other h1 h2 h3 (t ++ rest) current depth]
    rw [ih (fun ch hch => hf ch (List.mem_cons_of_mem _ hch)) rest (current ++ [c]) depth]
    rw [List.append_assoc, List.singleton_append]

theorem jsTrim_ws_append {acc : List Char} (f : List Char)
    (hacc : ∀ ch ∈ acc, isWsChar ch = true) :
    jsTrim (acc ++ f) = jsTrim f := by
  unfold jsTrim
  rw [dropWhile_append_all (List.all_eq_true.mpr hacc)]

theorem jsTrim_all_ws {acc : List Char} (hacc : ∀ ch ∈ acc, isWsChar ch = true) :
    jsTrim acc = [] := by
  have h := jsTrim_ws_append [] hacc
  rw [List.append_nil] at h
  rw [h]
  rfl

/-- The depth-tracking split undoes the `", "` intercalation of nonempty,
trim-invariant, parenthesis- and comma-free fragments. -/
theorem splitCD_intercalate :
    ∀ (frags : List (List Char)),
      (∀ f ∈ frags, f ≠ [] ∧ jsTrim f = f ∧
        ∀ ch ∈ f, ¬ ch = '(' ∧ ¬ ch = ')' ∧ ¬ ch = ',') →
      ∀ (acc : List Char), (∀ ch ∈ acc, isWsChar ch = true) →
      splitCD (List.intercalate (", ".data) frags) acc 0 = frags := by
  intro frags
  induction frags with
  | nil =>
    intro _ acc hacc
    rw [show List.intercalate (", ".data) ([] : List (List Char)) = [] from rfl]
    rw [splitCD_nil, if_pos (jsTrim_all_ws hacc)]
  | cons f fs ih =>
    intro hp acc hacc
    obtain ⟨hfne, hftrim, hfchars⟩ := hp f (List.mem_cons_self _ _)
    have htrimaccf : jsTrim (acc ++ f) = f := by rw [jsTrim_ws_append f hacc, hftrim]
    cases fs with
    | nil =>
      rw [intercalate_singleton]
      have h1 := splitCD_plain f hfchars [] acc 0
      rw [List.append_nil] at h1
      rw [h1, splitCD_nil, if_neg (by rw [htrimaccf]; exact hfne), htrimaccf]
    | cons g gs =>
      rw [intercalate_cons_cons, List.append_assoc]
      rw [splitCD_plain f hfchars ((", ".data) ++ List.intercalate (", ".data) (g :: gs))
        acc 0]
      show splitCD (',' :: (' ' :: List.intercalate (", ".data) (g :: gs)))
        (acc ++ f) 0 = f :: g :: gs
      rw [splitCD_comma, htrimaccf]
      congr 1
      rw [splitCD_other (by decide) (by decide) (by decide)]
      exact ih (fun x hx => hp x (List.mem_cons_of_mem _ hx)) ([] ++ [' '])
        (by intro ch hch
            simp only [List.nil_append, List.mem_singleton] at hch
            subst hch
            rfl)

theorem intercalate_head_ne {sep : List Char} :
    ∀ {fs : List (List Char)}, fs ≠ [] → (∀ f ∈ fs, f ≠ []) →
      List.intercalate sep fs ≠ [] := by
  intro fs
  cases fs with
  | nil => intro h _; exact absurd rfl h
  | cons f fs' =>
    intro _ hne
    cases fs' with
    | nil =>
      rw [intercalate_singleton]
      exact hne f (List.mem_cons_self _ _)
    | cons g gs =>
      rw [intercalate_cons_cons]
      have hf := hne f (List.mem_cons_self _ _)
      cases hfc : f with
      | nil => exact absurd hfc hf
      | cons a t => simp

/-- `\s*\((.+)\)` fails at a word character. -/
theorem tableTailMatch_word (wc : Char) (l : List Char) (h : isWordChar wc = true) :
    tableTailMatch (wc :: l) = none := by
  have h1 : ¬ ((wc :: l).head? = some '"') := by
    intro h0
    injection h0 with h0'
    exact word_ne h (by decide) h0'
  have hdrop : (wc :: l).dropWhile isWsChar = wc :: l := by
    apply dropWhile_eq_self_of_head
    intro c hc
    injection hc with hc'
    rw [← hc']
    exact word_not_ws h
  have h2 : wsStarThenParen (wc :: l) = none := by
    show (if ((wc :: l).dropWhile isWsChar).head? = some '(' then
        lastParenSplit ((wc :: l).dropWhile isWsChar).tail else none) = none
    rw [hdrop]
    rw [if_neg (by
      intro h0
      injection h0 with h0'
      exact word_ne h (by decide) h0')]
  unfold tableTailMatch
  rw [if_neg h1, h2]

/-- The greedy parenthesis group: everything before the final `)`. -/
theorem lastParenSplit_at (body : List Char) (hbody : body ≠ []) :
    lastParenSplit (body ++ [')']) = some body := by
  unfold lastParenSplit
  have hrev : (body ++ [')']).reverse = ')' :: body.reverse := by simp
  rw [hrev]
  rw [List.dropWhile_cons, if_neg (by simp)]
  show (if (body.reverse).isEmpty = true then none else some body.reverse.reverse) =
    some body
  rw [if_neg (by simpa using hbody), List.reverse_reverse]

/-- `"?\s*\((.+)\)` at the closing quote of the generated table header. -/
theorem tableTailMatch_at (body : List Char) (hbody : body ≠ []) :
    tableTailMatch ('"' :: (' ' :: ('(' :: (body ++ [')'])))) = some body := by
  have h1 : wsStarThenParen (' ' :: ('(' :: (body ++ [')']))) = some body := by
    show (if ((' ' :: ('(' :: (body ++ [')']))).dropWhile isWsChar).head? = some '(' then
        lastParenSplit ((' ' :: ('(' :: (body ++ [')']))).dropWhile isWsChar).tail
      else none) = some body
    have hdrop : (' ' :: ('(' :: (body ++ [')']))).dropWhile isWsChar =
        '(' :: (body ++ [')']) := by
      rw [List.dropWhile_cons, if_pos (by decide), List.dropWhile_cons,
        if_neg (by decide)]
    rw [hdrop, if_pos (show ('(' :: (body ++ [')'])).head? = some '(' from rfl)]
    exact lastParenSplit_at body hbody
  unfold tableTailMatch
  rw [if_pos (show ('"' :: (' ' :: ('(' :: (body ++ [')'])))).head? = some '"' from rfl)]
  show ((wsStarThenParen (' ' :: ('(' :: (body ++ [')'])))) <|>
    (wsStarThenParen ('"' :: (' ' :: ('(' :: (body ++ [')'])))))) = some body
  rw [h1]
  rfl

/-- The outer table regex on the generated header. -/
theorem parseTableMatch_at (tname body : List Char)
    (htnameNe : tname ≠ []) (htname : ∀ ch ∈ tname, isWordChar ch = true)
    (hbody : body ≠ []) :
    parseTableMatch ('"' :: (tname ++ ('"' :: (' ' :: ('(' :: (body ++ [')'])))))) =
      some (tname, body) := by
  have h := scanName_words tableTailMatch_word htnameNe htname
    (tableTailMatch_at body hbody)
  unfold parseTableMatch
  rw [if_pos (show ('"' :: (tname ++ ('"' :: (' ' :: ('(' :: (body ++ [')'])))))).head? =
    some '"' from rfl)]
  show ((scanName tableTailMatch (tname ++ ('"' :: (' ' :: ('(' :: (body ++ [')'])))))) <|>
    (scanName tableTailMatch
      ('"' :: (tname ++ ('"' :: (' ' :: ('(' :: (body ++ [')'])))))))) = some (tname, body)
  rw [h]
  rfl

end MetadataParser

theorem filterMap_forall₂_of_all {α β : Type} (F : α → Option β) (R : α → β → Prop) :
    ∀ {l : List α}, (∀ a ∈ l, ∃ b, F a = some b ∧ R a b) →
      ∃ l2, l.filterMap F = l2 ∧ List.Forall₂ R l l2 := by
  intro l
  induction l with
  | nil => intro _; exact ⟨[], rfl, List.Forall₂.nil⟩
  | cons a t ih =>
    intro h
    obtain ⟨b, hb, hr⟩ := h a (List.mem_cons_self _ _)
    obtain ⟨l2, hl2, hf⟩ := ih (fun x hx => h x (List.mem_cons_of_mem _ hx))
    refine ⟨b :: l2, ?_, List.Forall₂.cons hr hf⟩
    rw [List.filterMap_cons, hb, hl2]

end D1

namespace D1

theorem parseColumns_lambda (part : List Char) (pc : TableColumn)
    (h1 : jsTrim part = part)
    (h2 : (isPrefixL ("PRIMARY KEY".data) (part.map upChar) ||
           isPrefixL ("FOREIGN KEY".data) (part.map upChar) ||
           isPrefixL ("UNIQUE".data) (part.map upChar) ||
           isPrefixL ("CHECK".data) (part.map upChar)) = false)
    (h3 : MetadataParser.parseColumnDefinition part = some pc) :
    (if isPrefixL ("PRIMARY KEY".data) ((jsTrim part).map upChar) ||
        isPrefixL ("FOREIGN KEY".data) ((jsTrim part).map upChar) ||
        isPrefixL ("UNIQUE".data) ((jsTrim part).map upChar) ||
        isPrefixL ("CHECK".data) ((jsTrim part).map upChar) then none
     else MetadataParser.parseColumnDefinition (jsTrim part)) = some pc := by
  rw [h1, h2]
  rw [if_neg (by simp)]
  exact h3

/-- C1 (amended): on tables whose column and table names are nonempty
word-character strings free of embedded UNIQUE/AUTOINCREMENT tokens, whose
column types are mapped logical types, with no defaults, at most one primary
key, and primary keys either ungenerated or increment-generated, the
generated CREATE TABLE parses back to the same table name and, column by
column, the same name, the same type family, and the same primary flag;
UNIQUE and NOT NULL round-trip exactly on non-primary columns, while every
primary-key column is reconstructed as non-unique and nullable (so a
non-nullable or unique primary key does NOT round-trip, as the
counterexample shows). -/
theorem claim1_roundTrip (t : Table) (b : Bool)
    (hcols : t.columns ≠ [])
    (hsingle : (t.columns.filter fun col => col.isPrimary).length ≤ 1)
    (htnameNe : t.name ≠ []) (htname : ∀ ch ∈ t.name, isWordChar ch = true)
    (hcol : ∀ c ∈ t.columns,
      c.name ≠ [] ∧ (∀ ch ∈ c.name, isWordChar ch = true) ∧
      MetadataParser.testCI ("UNIQUE".data) c.name = false ∧
      MetadataParser.testCI ("AUTOINCREMENT".data) c.name = false ∧
      (D1QueryRunner.typeMapLookup (c.type.map lowChar)).isSome = true ∧
      c.default = none ∧
      (c.isPrimary = true → c.generationStrategy = none ∨
        (c.generationStrategy = some ("increment".data) ∧ c.isGenerated = true))) :
    ∃ pt, MetadataParser.parseTableSql (D1QueryRunner.buildCreateTableSql t b) t.name =
        .ok pt ∧
      pt.name = t.name ∧
      List.Forall₂ (fun c pc =>
        pc.name = c.name ∧
        D1QueryRunner.normalizeTypeStr pc.type = D1QueryRunner.normalizeTypeStr c.type ∧
        pc.isPrimary = c.isPrimary ∧
        (c.isPrimary = false → pc.isUnique = c.isUnique ∧ pc.isNullable = c.isNullable) ∧
        (c.isPrimary = true → pc.isUnique = false ∧ pc.isNullable = true))
        t.columns pt.columns := by
  have hprops := fun c hc => by
    obtain ⟨a1, a2, a3, a4, a5, a6, a7⟩ := hcol c hc
    exact buildColumn_props c a1 a2 a3 a4 a5 a6 a7
  have hbodyne : List.intercalate (", ".data)
      (t.columns.map fun col => D1QueryRunner.buildCreateColumnSql col false) ≠ [] := by
    apply MetadataParser.intercalate_head_ne
    · simpa using hcols
    · intro f hf
      obtain ⟨c, hc, rfl⟩ := List.mem_map.mp hf
      obtain ⟨pc, _, h2, _⟩ := hprops c hc
      exact h2
  have hnc : ¬ ((t.columns.filter fun col => col.isPrimary).length > 1) := by omega
  have htbl := D1QueryRunner.tableSql_noncomposite hnc b
  have hsql : D1QueryRunner.buildCreateTableSql t b =
      ("CREATE TABLE IF NOT EXISTS ".data) ++
        ('"' :: (t.name ++ ('"' :: (' ' :: ('(' ::
          (List.intercalate (", ".data)
            (t.columns.map fun col => D1QueryRunner.buildCreateColumnSql col false) ++
           [')'])))))) := by
    rw [htbl, D1QueryRunner.escape_word htname]
    rw [show (" (".data : List Char) = [' ', '('] from rfl]
    rw [show (")".data : List Char) = [')'] from rfl]
    simp [List.append_assoc]
  have htrim : jsTrim ('"' :: (t.name ++ ('"' :: (' ' :: ('(' ::
        (List.intercalate (", ".data)
          (t.columns.map fun col => D1QueryRunner.buildCreateColumnSql col false) ++
         [')'])))))) =
      '"' :: (t.name ++ ('"' :: (' ' :: ('(' ::
        (List.intercalate (", ".data)
          (t.columns.map fun col => D1QueryRunner.buildCreateColumnSql col false) ++
         [')']))))) := by
    apply jsTrim_eq_self
    · intro c hc
      injection hc with hc'
      rw [← hc']
      decide
    · intro c hc
      rw [show ('"' :: (t.name ++ ('"' :: (' ' :: ('(' ::
          (List.intercalate (", ".data)
            (t.columns.map fun col => D1QueryRunner.buildCreateColumnSql col false) ++
           [')'])))))) =
        (('"' :: t.name) ++ ['"', ' ', '(']) ++
          (List.intercalate (", ".data)
            (t.columns.map fun col => D1QueryRunner.buildCreateColumnSql col false) ++
           [')']) from by simp] at hc
      rw [getLast?_append_right (by simp), getLast?_append_singleton] at hc
      injection hc with hc'
      rw [← hc']
      decide
  have hsplit : MetadataParser.splitColumnDefinitions
      (List.intercalate (", ".data)
        (t.columns.map fun col => D1QueryRunner.buildCreateColumnSql col false)) =
      t.columns.map fun col => D1QueryRunner.buildCreateColumnSql col false := by
    unfold MetadataParser.splitColumnDefinitions
    apply MetadataParser.splitCD_intercalate
    · intro f hf
      obtain ⟨c, hc, rfl⟩ := List.mem_map.mp hf
      obtain ⟨pc, p1, p2, p3, _⟩ := hprops c hc
      exact ⟨p2, p1, p3⟩
    · intro ch hch
      exact absurd hch (by simp)
  obtain ⟨l2, hl2, hforall⟩ := filterMap_forall₂_of_all
    (fun c =>
      if isPrefixL ("PRIMARY KEY".data)
          ((jsTrim (D1QueryRunner.buildCreateColumnSql c false)).map upChar) ||
        isPrefixL ("FOREIGN KEY".data)
          ((jsTrim (D1QueryRunner.buildCreateColumnSql c false)).map upChar) ||
        isPrefixL ("UNIQUE".data)
          ((jsTrim (D1QueryRunner.buildCreateColumnSql c false)).map upChar) ||
        isPrefixL ("CHECK".data)
          ((jsTrim (D1QueryRunner.buildCreateColumnSql c false)).map upChar) then none
      else MetadataParser.parseColumnDefinition
        (jsTrim (D1QueryRunner.buildCreateColumnSql c false)))
    (fun c pc =>
      pc.name = c.name ∧
      D1QueryRunner.normalizeTypeStr pc.type = D1QueryRunner.normalizeTypeStr c.type ∧
      pc.isPrimary = c.isPrimary ∧
      (c.isPrimary = false → pc.isUnique = c.isUnique ∧ pc.isNullable = c.isNullable) ∧
      (c.isPrimary = true → pc.isUnique = false ∧ pc.isNullable = true))
    (by
      intro c hc
      obtain ⟨pc, p1, p2, p3, p4, p5, p6, p7, p8, p9, p10⟩ := hprops c hc
      exact ⟨pc, parseColumns_lambda _ pc p1 p4 p5, p6, p7, p8, p9, p10⟩)
  have hparse2 : MetadataParser.parseColumns
      (List.intercalate (", ".data)
        (t.columns.map fun col => D1QueryRunner.buildCreateColumnSql col false)) = l2 := by
    unfold MetadataParser.parseColumns
    rw [hsplit, List.filterMap_map]
    exact hl2
  refine ⟨⟨t.name, l2⟩, ?_, rfl, hforall⟩
  unfold MetadataParser.parseTableSql
  rw [hsql, MetadataParser.stripCTP, htrim,
    MetadataParser.parseTableMatch_at t.name _ htnameNe htname hbodyne]
  show Except.ok (Table.mk
    (MetadataParser.removeQuotes t.name)
    (MetadataParser.parseColumns
      (List.intercalate (", ".data)
        (t.columns.map fun col => D1QueryRunner.buildCreateColumnSql col false)))) =
    Except.ok (Table.mk t.name l2)
  rw [MetadataParser.removeQuotes_word htname, hparse2]

end D1

namespace D1

/-- Witness for C1 at a three-column table (increment-generated integer
primary key, a unique non-nullable varchar, a plain int). -/
theorem claim1_witness :
    ∃ pt, MetadataParser.parseTableSql
        (D1QueryRunner.buildCreateTableSql
          ⟨"users".data,
            [⟨"id".data, "int".data, true, false, false, true,
                some ("increment".data), none⟩,
             ⟨"email".data, "varchar".data, false, true, false, false, none, none⟩,
             ⟨"age".data, "int".data, false, false, true, false, none, none⟩]⟩ false)
        (Table.mk ("users".data)
          [⟨"id".data, "int".data, true, false, false, true,
              some ("increment".data), none⟩,
           ⟨"email".data, "varchar".data, false, true, false, false, none, none⟩,
           ⟨"age".data, "int".data, false, false, true, false, none, none⟩]).name =
        .ok pt ∧
      pt.name = (Table.mk ("users".data)
        [⟨"id".data, "int".data, true, false, false, true,
            some ("increment".data), none⟩,
         ⟨"email".data, "varchar".data, false, true, false, false, none, none⟩,
         ⟨"age".data, "int".data, false, false, true, false, none, none⟩]).name ∧
      List.Forall₂ (fun c pc =>
        pc.name = c.name ∧
        D1QueryRunner.normalizeTypeStr pc.type = D1QueryRunner.normalizeTypeStr c.type ∧
        pc.isPrimary = c.isPrimary ∧
        (c.isPrimary = false → pc.isUnique = c.isUnique ∧ pc.isNullable = c.isNullable) ∧
        (c.isPrimary = true → pc.isUnique = false ∧ pc.isNullable = true))
        (Table.mk ("users".data)
          [⟨"id".data, "int".data, true, false, false, true,
              some ("increment".data), none⟩,
           ⟨"email".data, "varchar".data, false, true, false, false, none, none⟩,
           ⟨"age".data, "int".data, false, false, true, false, none, none⟩]).columns
        pt.columns :=
  claim1_roundTrip
    ⟨"users".data,
      [⟨"id".data, "int".data, true, false, false, true,
          some ("increment".data), none⟩,
       ⟨"email".data, "varchar".data, false, true, false, false, none, none⟩,
       ⟨"age".data, "int".data, false, false, true, false, none, none⟩]⟩ false
    (by decide) (by decide) (by decide) (by decide) (by decide)

end D1
